import Mathlib

/-!
# Error-rate circuit breaker of polaris-cpp

A shallow embedding of `polaris/plugin/circuit_breaker/error_rate.cpp`.

Conventions of the embedding.

* `uint64_t` values (timestamps, bucket epochs, millisecond parameters) are integers
  in `[0, 2^64)`; every unsigned operation of the source is followed by an explicit
  reduction `u64`.  An `int` operand of an unsigned operation is converted with `u64`
  as the usual arithmetic conversions do.
* `int` values (counters, thresholds, bucket count and bucket width) are integers; the
  32-bit range of the counters is not modelled.
* The threshold `error_rate_threshold_` is a rational (every `float` value is one). The
  quotient compared with it in `TimingCircuitBreak` and the bucket width of `Init` are
  computed with the rounding of `float` (`roundFloat`): 24-bit significand, round to
  nearest, ties to even; the exponent range of `float` is not modelled (the operands are
  between `2^-31` and `2^64`).
* The two locks only serialise accesses; the embedding is the sequential behaviour.
* A division by zero of the source makes the embedded function return `none`.
-/

namespace polaris

/-- Return codes of `polaris/defs.h` used by the embedded code. -/
inductive ReturnCode where
  | kReturnOk
  | kReturnInvalidConfig
  | kReturnNetworkFailed
  | kReturnServerError
  | kReturnInstanceNotFound
deriving DecidableEq, Repr

/-- Outcome of one reported call (`CallRetStatus` of `polaris/defs.h`). -/
inductive CallRetStatus where
  | kCallRetOk
  | kCallRetTimeout
  | kCallRetError
deriving DecidableEq, Repr

/-- Circuit-breaker state of an instance (`CircuitBreakerStatus`). -/
inductive CircuitBreakerStatus where
  | kCircuitBreakerClose
  | kCircuitBreakerHalfOpen
  | kCircuitBreakerOpen
deriving DecidableEq, Repr

open ReturnCode CallRetStatus CircuitBreakerStatus

/-- Conversion of an integer to `uint64_t`: reduction modulo `2^64`. -/
def u64 (x : Int) : Int := x % 18446744073709551616

/-- One aggregation cell: `bucket_time` is the epoch (`uint64_t`), the counters are `int`. -/
structure ErrorRateBucket where
  bucket_time : Int
  total_count : Int
  error_count : Int
deriving DecidableEq, Repr

/-- Per-instance metric entry (`ErrorRateStatus`); `buckets` is the array of
`metric_num_buckets_` cells, the mutex is not modelled. -/
structure ErrorRateStatus where
  status : CircuitBreakerStatus
  buckets : List ErrorRateBucket
  last_update_time : Int
  last_access_time : Int
deriving DecidableEq, Repr

/-- Modelled from the spec: `ErrorRateStatus::ClearBuckets` is declared in
`error_rate.h`, which is not among the sources. Spec 4.1: "clear(instance_id) — zeroes
all buckets of one entry". The first `buckets_num` cells are zeroed. -/
def ClearBuckets (buckets_num : Int) (buckets : List ErrorRateBucket) : List ErrorRateBucket :=
  (buckets.take buckets_num.toNat).map (fun _ => ErrorRateBucket.mk 0 0 0)
    ++ buckets.drop buckets_num.toNat

/-- Modelled from the spec: `ErrorRateStatus::BucketsCount` is declared in
`error_rate.h`, which is not among the sources. Spec 4.1: "sums counters across the N
buckets whose epoch is strictly greater than" the bound it is given; "buckets with older
or zero epoch contribute nothing". The bound is the `uint64_t` value computed by the
caller and the comparison is the unsigned one. The result is `(total_req, err_req)`,
starting from the caller's zeros. -/
def BucketsCount (buckets_num : Int) (last_end_bucket_time : Int)
    (buckets : List ErrorRateBucket) : Int × Int :=
  (buckets.take buckets_num.toNat).foldl
    (fun acc bk =>
      if bk.bucket_time > last_end_bucket_time then
        (acc.1 + bk.total_count, acc.2 + bk.error_count)
      else acc)
    (0, 0)

/-- The plugin object: validated parameters and the metric store `error_rate_map_`
(a `std::map`, kept as an association list in key order). -/
structure ErrorRateCircuitBreaker where
  request_volume_threshold_ : Int
  error_rate_threshold_ : ℚ
  metric_stat_time_window_ : Int
  metric_num_buckets_ : Int
  metric_bucket_time_ : Int
  sleep_window_ : Int
  request_count_after_half_open_ : Int
  success_count_after_half_open_ : Int
  metric_expired_time_ : Int
  error_rate_map_ : List (String × ErrorRateStatus)

/-- Values the `Config` getters (`GetIntOrDefault`, `GetFloatOrDefault`,
`GetMsOrDefault`) hand to `Init`, one per key. -/
structure Config where
  requestVolumeThreshold : Int
  errorRateThreshold : ℚ
  metricStatTimeWindow : Int
  metricNumBuckets : Int
  sleepWindow : Int
  requestCountAfterHalfOpen : Int
  successCountAfterHalfOpen : Int
  metricExpiredTime : Int

/-- Modelled from the spec: the `CircuitBreakerConfig` defaults of
`circuit_breaker.h`, which is not among the sources; values of the table in spec 6. -/
def kRequestVolumeThresholdDefault : Int := 10

/-- Modelled from the spec: default of `errorRateThreshold` (spec 6). -/
def kErrorRateThresholdDefault : ℚ := 1 / 2

/-- Modelled from the spec: default of `metricStatTimeWindow` in ms (spec 6). -/
def kMetricStatTimeWindowDefault : Int := 60000

/-- Modelled from the spec: default of `metricNumBuckets` (spec 6). -/
def kMetricNumBucketsDefault : Int := 12

/-- Modelled from the spec: default of `sleepWindow` in ms (spec 6). -/
def kHalfOpenSleepWindowDefault : Int := 30000

/-- Modelled from the spec: default of `requestCountAfterHalfOpen` (spec 6). -/
def kRequestCountAfterHalfOpenDefault : Int := 10

/-- Modelled from the spec: default of `successCountAfterHalfOpen` (spec 6). -/
def kSuccessCountAfterHalfOpenDefault : Int := 8

/-- Modelled from the spec: default of `metricExpiredTime` in ms (spec 6). -/
def kMetricExpiredTimeDefault : Int := 60000

/-- The object built by the constructor: every parameter zero, empty store. -/
def ErrorRateCircuitBreaker.new : ErrorRateCircuitBreaker :=
  ⟨0, 0, 0, 0, 0, 0, 0, 0, 0, []⟩

/-- Number of halvings that bring `n` below 2, at most `fuel` of them; with `fuel = n` it
is the floor of the binary logarithm of `n ≥ 1`. -/
def log2Floor : Nat → Nat → Nat
  | 0, _ => 0
  | fuel + 1, n => if n < 2 then 0 else log2Floor fuel (n / 2) + 1

/-- Floor of the binary logarithm of the positive rational `p / d`. -/
def ratLog2 (p d : Nat) : Int :=
  let k : Int := (log2Floor p p : Int) - (log2Floor d d : Int)
  if (if 0 ≤ k then decide (d * 2 ^ k.toNat ≤ p) else decide (d ≤ p * 2 ^ (-k).toNat)) then k
  else k - 1

/-- The `float` nearest to the positive rational `p / d`, as a pair `(m, s)` of value
`m * 2^s`: the quotient is scaled to a significand between `2^23` and `2^24`, rounded to
the nearest integer, a tie going to the even one. -/
def roundFloat (p d : Nat) : Int × Int :=
  if p = 0 ∨ d = 0 then (0, 0)
  else
    let s : Int := ratLog2 p d - 23
    let num : Nat := if 0 ≤ s then p else p * 2 ^ (-s).toNat
    let den : Nat := if 0 ≤ s then d * 2 ^ s.toNat else d
    let q := num / den
    let r := num % den
    let m : Nat :=
      if 2 * r < den then q
      else if den < 2 * r then q + 1
      else if q % 2 = 0 then q else q + 1
    ((m : Int), s)

/-- Conversion `static_cast<float>(n)` of a non-negative integer. -/
def floatOfNat (n : Nat) : Int × Int := roundFloat n 1

/-- Division of two positive `float` values, rounded to `float`. -/
def floatDiv (a b : Int × Int) : Int × Int :=
  roundFloat (a.1.toNat * 2 ^ (a.2 - b.2).toNat) (b.1.toNat * 2 ^ (b.2 - a.2).toNat)

/-- Conversion `static_cast<float>(n)` of an `int` of either sign; rounding is symmetric
about zero. -/
def floatOfInt (n : Int) : Int × Int :=
  if n < 0 then (-(floatOfNat n.natAbs).1, (floatOfNat n.natAbs).2) else floatOfNat n.toNat

/-- Division of two `float` values of either sign, rounded to `float`; the divisor is not
zero. -/
def floatQuot (a b : Int × Int) : Int × Int :=
  let q := floatDiv ((a.1.natAbs : Int), a.2) ((b.1.natAbs : Int), b.2)
  if decide (a.1 < 0) = decide (b.1 < 0) then q else (-q.1, q.2)

/-- The rational value `m * 2^s` of the `float` `(m, s)`. -/
def floatValue (a : Int × Int) : ℚ := (a.1 : ℚ) * (2 : ℚ) ^ a.2

/-- The test `static_cast<float>(err_req) / total_req >= error_rate_threshold_` of line
159: `err_req` is converted to `float`, `total_req` is converted to `float` for the
division, and the quotient rounded to `float` is compared with the threshold. For
`total_req = 0` the quotient is `+inf` when `err_req > 0`, which is at least any
threshold, and a NaN or `-inf` otherwise, for which the comparison is false. -/
def errorRateReached (err_req total_req : Int) (threshold : ℚ) : Bool :=
  if total_req = 0 then decide (0 < err_req)
  else decide (floatValue (floatQuot (floatOfInt err_req) (floatOfInt total_req)) ≥ threshold)

/-- The integer `ceilf` gives for the `float` of value `a.1 * 2^a.2`. -/
def ceilFloat (a : Int × Int) : Int :=
  if 0 ≤ a.2 then a.1 * 2 ^ a.2.toNat else -((-a.1) / 2 ^ (-a.2).toNat)

/-- The bucket width `static_cast<int>(ceilf(static_cast<float>(window) / buckets))` of
lines 87-88, for the positive window and bucket count `Init` has validated: both operands
are converted to `float`, the quotient is rounded to `float`, and `ceilf` of it is
converted to `int`. The conversion to `int` is the identity below `2^31`; above, the
source has no defined result and the value is left as it is. -/
def bucketTimeOf (window buckets : Int) : Int :=
  ceilFloat (floatDiv (floatOfNat window.toNat) (floatOfNat buckets.toNat))

/-- `ErrorRateCircuitBreaker::Init`: read the eight keys, then validate them in the
order of the source. -/
def ErrorRateCircuitBreaker.Init (self : ErrorRateCircuitBreaker) (config : Config) :
    ReturnCode × ErrorRateCircuitBreaker :=
  let rvt := if config.requestVolumeThreshold ≤ 0 then kRequestVolumeThresholdDefault
    else config.requestVolumeThreshold
  let thr := if config.errorRateThreshold ≤ 0 ∨ config.errorRateThreshold ≥ 1 then
      kErrorRateThresholdDefault
    else config.errorRateThreshold
  let window := if config.metricStatTimeWindow ≤ 0 then kMetricStatTimeWindowDefault
    else config.metricStatTimeWindow
  let buckets := if config.metricNumBuckets ≤ 0 then kMetricNumBucketsDefault
    else config.metricNumBuckets
  let bucket_time := bucketTimeOf window buckets
  let sleep := if config.sleepWindow ≤ 0 then kHalfOpenSleepWindowDefault
    else config.sleepWindow
  let rc := if config.requestCountAfterHalfOpen ≤ 0 then kRequestCountAfterHalfOpenDefault
    else config.requestCountAfterHalfOpen
  let sc := if config.successCountAfterHalfOpen ≤ 0 then kSuccessCountAfterHalfOpenDefault
    else if config.successCountAfterHalfOpen > rc then rc
    else config.successCountAfterHalfOpen
  let expired := if config.metricExpiredTime ≤ 0 then kMetricExpiredTimeDefault
    else config.metricExpiredTime
  (kReturnOk,
    { request_volume_threshold_ := rvt
      error_rate_threshold_ := thr
      metric_stat_time_window_ := window
      metric_num_buckets_ := buckets
      metric_bucket_time_ := bucket_time
      sleep_window_ := sleep
      request_count_after_half_open_ := rc
      success_count_after_half_open_ := sc
      metric_expired_time_ := expired
      error_rate_map_ := self.error_rate_map_ })

/-- `std::map::find` on the store. -/
def mapFind : List (String × ErrorRateStatus) → String → Option ErrorRateStatus
  | [], _ => none
  | (k, v) :: rest, id => if k = id then some v else mapFind rest id

/-- Store `v` under `id`: overwrite the entry of `id` if there is one (a write through
the reference the source holds), else insert at the position the key order gives
(`error_rate_map_[instance_id]`). -/
def mapInsert : List (String × ErrorRateStatus) → String → ErrorRateStatus →
    List (String × ErrorRateStatus)
  | [], id, v => [(id, v)]
  | (k, w) :: rest, id, v =>
    if k = id then (k, v) :: rest
    else if id < k then (id, v) :: (k, w) :: rest
    else (k, w) :: mapInsert rest id v

/-- The array `new ErrorRateBucket[n]` after the loop that sets every `bucket_time`
to 0. The source does not write the counters of the new cells: `heap i` is what the
allocation holds at index `i`. -/
def newBuckets (heap : Nat → Int × Int) (n : Int) : List ErrorRateBucket :=
  (List.range n.toNat).map (fun i => ErrorRateBucket.mk 0 (heap i).1 (heap i).2)

/-- `GetOrCreateErrorRateStatus`: the store afterwards and the entry the returned
reference designates. -/
def ErrorRateCircuitBreaker.GetOrCreateErrorRateStatus (self : ErrorRateCircuitBreaker)
    (heap : Nat → Int × Int) (instance_id : String) (current_time : Int) :
    List (String × ErrorRateStatus) × ErrorRateStatus :=
  match mapFind self.error_rate_map_ instance_id with
  | some e =>
    let e1 := { e with last_access_time := current_time }
    (mapInsert self.error_rate_map_ instance_id e1, e1)
  | none =>
    let e1 : ErrorRateStatus :=
      { status := kCircuitBreakerClose
        buckets := newBuckets heap self.metric_num_buckets_
        last_update_time := 0
        last_access_time := current_time }
    (mapInsert self.error_rate_map_ instance_id e1, e1)

/-- Lines 113-128 of `RealTimeCircuitBreak` on the cell `bk` selected by the index:
reset on epoch mismatch, then count the call. -/
def recordBucket (bucket_time : Int) (call_ret_status : CallRetStatus)
    (bk : ErrorRateBucket) : ErrorRateBucket :=
  let bk1 := if bucket_time ≠ bk.bucket_time then ErrorRateBucket.mk bucket_time 0 0 else bk
  let bk2 := { bk1 with total_count := bk1.total_count + 1 }
  if call_ret_status ≠ kCallRetOk then { bk2 with error_count := bk2.error_count + 1 }
  else bk2

/-- `RealTimeCircuitBreak` at clock value `current_time`. The status table `s` is
received and not used. `none` stands for the division by zero of lines 113-114 and for
an index outside the bucket array. -/
def ErrorRateCircuitBreaker.RealTimeCircuitBreak {σ : Type} (self : ErrorRateCircuitBreaker)
    (heap : Nat → Int × Int) (instance_id : String) (call_ret_status : CallRetStatus)
    (current_time : Int) (s : σ) : Option (ReturnCode × ErrorRateCircuitBreaker × σ) :=
  let got := self.GetOrCreateErrorRateStatus heap instance_id current_time
  if u64 self.metric_bucket_time_ = 0 ∨ u64 self.metric_num_buckets_ = 0 then none
  else
    let bucket_time := current_time / u64 self.metric_bucket_time_
    let bucket_index := bucket_time % u64 self.metric_num_buckets_
    match got.2.buckets[bucket_index.toNat]? with
    | none => none
    | some bk =>
      let e1 := { got.2 with
        buckets := got.2.buckets.set bucket_index.toNat
          (recordBucket bucket_time call_ret_status bk) }
      some (kReturnOk, { self with error_rate_map_ := mapInsert got.1 instance_id e1 }, s)

/-- The interface `InstancesCircuitBreakerStatus` over a table state `σ`:
`TranslateStatus` returns whether the transition was made and the table afterwards. -/
structure InstancesCircuitBreakerStatus (σ : Type) where
  AutoHalfOpenEnable : σ → Bool
  TranslateStatus : σ → String → CircuitBreakerStatus → CircuitBreakerStatus → Bool × σ

/-- One call of `TranslateStatus` made by the breaker, with its result. -/
structure TranslateCall where
  instance_id : String
  from_status : CircuitBreakerStatus
  to_status : CircuitBreakerStatus
  result : Bool
deriving DecidableEq, Repr

/-- Outcome of a scan: the entries afterwards, the table afterwards and the
`TranslateStatus` calls made, in order. -/
structure Scan (σ : Type) where
  entries : List (String × ErrorRateStatus)
  table : σ
  calls : List TranslateCall

/-- Outcome of the loop body on one entry. -/
structure EntryScan (σ : Type) where
  entry : ErrorRateStatus
  table : σ
  calls : List TranslateCall

/-- A conditional transition: call `TranslateStatus id src dst`; when it succeeds the
entry gets the new status and `last_update_time`, and its buckets are cleared when
`clear` is set. -/
def ErrorRateCircuitBreaker.translate {σ : Type} (self : ErrorRateCircuitBreaker)
    (I : InstancesCircuitBreakerStatus σ) (current_time : Int) (id : String)
    (e : ErrorRateStatus) (s : σ) (src dst : CircuitBreakerStatus) (clear : Bool) :
    EntryScan σ :=
  let r := I.TranslateStatus s id src dst
  let e1 : ErrorRateStatus :=
    if r.1 then
      { e with
        last_update_time := current_time
        status := dst
        buckets := if clear then ClearBuckets self.metric_num_buckets_ e.buckets
          else e.buckets }
    else e
  ⟨e1, r.2, [⟨id, src, dst, r.1⟩]⟩

/-- The body of the loop of `TimingCircuitBreak` (lines 139-187) on the entry `e` of
instance `id`, with the table in state `s`. -/
def ErrorRateCircuitBreaker.evalEntry {σ : Type} (self : ErrorRateCircuitBreaker)
    (I : InstancesCircuitBreakerStatus σ) (current_time last_end_bucket_time : Int)
    (id : String) (e : ErrorRateStatus) (s : σ) : EntryScan σ :=
  if e.status = kCircuitBreakerOpen then
    if I.AutoHalfOpenEnable s = true ∧
        u64 (e.last_update_time + self.sleep_window_) ≤ current_time then
      self.translate I current_time id e s kCircuitBreakerOpen kCircuitBreakerHalfOpen true
    else ⟨e, s, []⟩
  else
    let cnt := BucketsCount self.metric_num_buckets_ last_end_bucket_time e.buckets
    let total_req := cnt.1
    let err_req := cnt.2
    if e.status = kCircuitBreakerClose then
      if total_req ≥ self.request_volume_threshold_ ∧
          errorRateReached err_req total_req self.error_rate_threshold_ = true then
        self.translate I current_time id e s kCircuitBreakerClose kCircuitBreakerOpen false
      else ⟨e, s, []⟩
    else if e.status = kCircuitBreakerHalfOpen then
      if total_req - err_req ≥ self.success_count_after_half_open_ then
        self.translate I current_time id e s kCircuitBreakerHalfOpen kCircuitBreakerClose true
      else if err_req > self.request_count_after_half_open_ - self.success_count_after_half_open_ ∨
          u64 (e.last_access_time + u64 (100 * self.sleep_window_)) ≤ current_time then
        self.translate I current_time id e s kCircuitBreakerHalfOpen kCircuitBreakerOpen true
      else ⟨e, s, []⟩
    else ⟨e, s, []⟩

/-- The loop of `TimingCircuitBreak` (line 138) over the entries in map order. -/
def ErrorRateCircuitBreaker.evalLoop {σ : Type} (self : ErrorRateCircuitBreaker)
    (I : InstancesCircuitBreakerStatus σ) (current_time last_end_bucket_time : Int) :
    List (String × ErrorRateStatus) → σ → Scan σ
  | [], s => ⟨[], s, []⟩
  | (id, e) :: rest, s =>
    let r := self.evalEntry I current_time last_end_bucket_time id e s
    let rs := evalLoop self I current_time last_end_bucket_time rest r.table
    ⟨(id, r.entry) :: rs.entries, rs.table, r.calls ++ rs.calls⟩

/-- Line 135: `current_time / metric_bucket_time_ - metric_num_buckets_` in `uint64_t`. -/
def ErrorRateCircuitBreaker.lastEndBucketTime (self : ErrorRateCircuitBreaker)
    (current_time : Int) : Int :=
  u64 (current_time / u64 self.metric_bucket_time_ - u64 self.metric_num_buckets_)

/-- `CheckAndExpiredMetric` at clock value `current_time`: expired entries are erased
after the two `TranslateStatus` calls of lines 234-235. -/
def ErrorRateCircuitBreaker.expireLoop {σ : Type} (self : ErrorRateCircuitBreaker)
    (I : InstancesCircuitBreakerStatus σ) (current_time : Int) :
    List (String × ErrorRateStatus) → σ → Scan σ
  | [], s => ⟨[], s, []⟩
  | (id, e) :: rest, s =>
    if u64 (e.last_access_time + self.metric_expired_time_) ≤ current_time then
      let r1 := I.TranslateStatus s id kCircuitBreakerOpen kCircuitBreakerClose
      let r2 := I.TranslateStatus r1.2 id kCircuitBreakerHalfOpen kCircuitBreakerClose
      let rs := expireLoop self I current_time rest r2.2
      ⟨rs.entries, rs.table,
        ⟨id, kCircuitBreakerOpen, kCircuitBreakerClose, r1.1⟩ ::
        ⟨id, kCircuitBreakerHalfOpen, kCircuitBreakerClose, r2.1⟩ :: rs.calls⟩
    else
      let rs := expireLoop self I current_time rest s
      ⟨(id, e) :: rs.entries, rs.table, rs.calls⟩

/-- `CheckAndExpiredMetric`: the breaker with the swept store, the table afterwards and
the calls made. -/
def ErrorRateCircuitBreaker.CheckAndExpiredMetric {σ : Type} (self : ErrorRateCircuitBreaker)
    (I : InstancesCircuitBreakerStatus σ) (current_time : Int) (s : σ) :
    ErrorRateCircuitBreaker × σ × List TranslateCall :=
  let r := self.expireLoop I current_time self.error_rate_map_ s
  ({ self with error_rate_map_ := r.entries }, r.table, r.calls)

/-- `TimingCircuitBreak`: `current_time` is the clock value read on line 134 and
`sweep_time` the one read by `CheckAndExpiredMetric` on line 228. `none` stands for the
division by zero of line 135. -/
def ErrorRateCircuitBreaker.TimingCircuitBreak {σ : Type} (self : ErrorRateCircuitBreaker)
    (I : InstancesCircuitBreakerStatus σ) (current_time sweep_time : Int) (s : σ) :
    Option (ReturnCode × ErrorRateCircuitBreaker × σ × List TranslateCall) :=
  if u64 self.metric_bucket_time_ = 0 then none
  else
    let r := self.evalLoop I current_time (self.lastEndBucketTime current_time)
      self.error_rate_map_ s
    let x := ({ self with error_rate_map_ := r.entries }).CheckAndExpiredMetric I sweep_time
      r.table
    some (kReturnOk, x.1, x.2.1, r.calls ++ x.2.2)

/-- Modelled from the spec: the status table behind `InstancesCircuitBreakerStatus`
is not among the sources. Spec 4.2: the table holds one state per instance; an instance
without an entry is Closed (scenario 6 of spec 8). -/
structure StatusTable where
  state : String → CircuitBreakerStatus
  auto_half_open : Bool

/-- Modelled from the spec: spec 4.2, "`translate(instance_id, from, to) → bool`
succeeds iff the current state equals `from`, atomically swapping to `to`; otherwise
returns false." -/
def StatusTable.TranslateStatus (t : StatusTable) (id : String)
    (src dst : CircuitBreakerStatus) : Bool × StatusTable :=
  if t.state id = src then
    (true, { t with state := fun k => if k = id then dst else t.state k })
  else (false, t)

/-- Modelled from the spec: the table of spec 4.2 as an implementation of the
interface the breaker is given. -/
def casTable : InstancesCircuitBreakerStatus StatusTable :=
  ⟨fun t => t.auto_half_open, StatusTable.TranslateStatus⟩

/-- The breaker with the parameters of the scenarios of spec 8: window 1000 ms in 10
buckets of 100 ms, volume threshold 10, rate threshold 1/2, sleep window 500 ms, probe
budget 4, successes to close 3; expiry 60000 ms. -/
def scenarioBreaker : ErrorRateCircuitBreaker :=
  ⟨10, 1 / 2, 1000, 10, 100, 500, 4, 3, 60000, []⟩

/-- A table of the spec in which every instance has state `st`; auto-half-open enabled. -/
def uniformTable (st : CircuitBreakerStatus) : StatusTable := ⟨fun _ => st, true⟩

/-- Ten buckets, all of epoch 0 and empty, except that slot `i` holds `bk`. -/
def bucketsWith (i : Nat) (bk : ErrorRateBucket) : List ErrorRateBucket :=
  (List.replicate 10 (ErrorRateBucket.mk 0 0 0)).set i bk

/-- A HalfOpen entry that entered HalfOpen at 100000 and was last reported at 149000. -/
def probedEntry : ErrorRateStatus :=
  ⟨kCircuitBreakerHalfOpen, bucketsWith 0 ⟨0, 0, 0⟩, 100000, 149000⟩

/-- A HalfOpen entry that entered HalfOpen at 149000 and was last reported at 100000. -/
def idleEntry : ErrorRateStatus :=
  ⟨kCircuitBreakerHalfOpen, bucketsWith 0 ⟨0, 0, 0⟩, 149000, 100000⟩

/-- A Closed entry with 10 calls, 6 of them failed, in the bucket of epoch 1003. -/
def failingEntry : ErrorRateStatus :=
  ⟨kCircuitBreakerClose, bucketsWith 3 ⟨1003, 10, 6⟩, 0, 100300⟩

/-- An Open entry, Open since 100400. -/
def openEntry : ErrorRateStatus :=
  ⟨kCircuitBreakerOpen, bucketsWith 3 ⟨1003, 10, 6⟩, 100400, 100300⟩

/-- A HalfOpen entry with 3 successful probes in the bucket of epoch 1009. -/
def recoveredEntry : ErrorRateStatus :=
  ⟨kCircuitBreakerHalfOpen, bucketsWith 9 ⟨1009, 3, 0⟩, 100900, 100950⟩

/-- A HalfOpen entry with 2 failed probes in the bucket of epoch 1009. -/
def relapsedEntry : ErrorRateStatus :=
  ⟨kCircuitBreakerHalfOpen, bucketsWith 9 ⟨1009, 2, 2⟩, 100900, 100950⟩

/-- The store invariant of `std::map`: keys strictly increasing, hence distinct. -/
def WellKeyed (m : List (String × ErrorRateStatus)) : Prop :=
  (m.map Prod.fst).Pairwise (fun a b => a < b)

/-- The entry `RealTimeCircuitBreak` works on: the stored one, or the one it creates. -/
def ErrorRateCircuitBreaker.entryOrFresh (self : ErrorRateCircuitBreaker)
    (heap : Nat → Int × Int) (id : String) (now : Int) : ErrorRateStatus :=
  (mapFind self.error_rate_map_ id).getD
    ⟨kCircuitBreakerClose, newBuckets heap self.metric_num_buckets_, 0, now⟩

/-- The scenario breaker holding the entry `failingEntry` for instance "A". -/
def scenarioStore : ErrorRateCircuitBreaker :=
  { scenarioBreaker with error_rate_map_ := [("A", failingEntry)] }

/-- What one cell adds to `total_req` for the bound `bound`. -/
def bucketTotal (bound : Int) (bk : ErrorRateBucket) : Int :=
  if bk.bucket_time > bound then bk.total_count else 0

/-- What one cell adds to `err_req` for the bound `bound`. -/
def bucketErrors (bound : Int) (bk : ErrorRateBucket) : Int :=
  if bk.bucket_time > bound then bk.error_count else 0

/-- Number of the calls `(clock value, outcome)` whose epoch exceeds `bound`. -/
def callsAfter (width bound : Int) (calls : List (Int × CallRetStatus)) : Int :=
  (calls.countP (fun c => decide (bound < c.1 / width)) : Nat)

/-- Number of the calls whose epoch exceeds `bound` and whose outcome is not
`kCallRetOk`. -/
def failuresAfter (width bound : Int) (calls : List (Int × CallRetStatus)) : Int :=
  (calls.countP (fun c => decide (bound < c.1 / width) && decide (c.2 ≠ kCallRetOk)) : Nat)

/-- `RealTimeCircuitBreak` for each call `(clock value, outcome)` of the list, in order, on
instance `id`. -/
def ErrorRateCircuitBreaker.reportAll (self : ErrorRateCircuitBreaker)
    (heap : Nat → Int × Int) (id : String) :
    List (Int × CallRetStatus) → Option ErrorRateCircuitBreaker
  | [] => some self
  | c :: rest =>
    match self.RealTimeCircuitBreak heap id c.2 c.1 () with
    | none => none
    | some r => ErrorRateCircuitBreaker.reportAll r.2.1 heap id rest

/-- The state of a bucket array after the calls `cs`, none of epoch above `top`: `n` cells,
each with an epoch in `[0, top]` that is 0 or congruent to its index, and for every bound
`b ≥ max 0 (top - n)` the window sums are the numbers of calls of epoch above `b`. -/
def WindowInv (n width top : Int) (bs : List ErrorRateBucket)
    (cs : List (Int × CallRetStatus)) : Prop :=
  (bs.length : Int) = n ∧
  (∀ (j : Nat) (bk : ErrorRateBucket), bs[j]? = some bk →
    0 ≤ bk.bucket_time ∧ bk.bucket_time ≤ top ∧
    (bk.bucket_time ≠ 0 → bk.bucket_time % n = (j : Int))) ∧
  (∀ b : Int, 0 ≤ b → top - n ≤ b →
    (bs.map (bucketTotal b)).sum = callsAfter width b cs ∧
    (bs.map (bucketErrors b)).sum = failuresAfter width b cs)

/-- Five calls on one instance: two in epoch 993, three in epoch 1003 (the same slot 3). -/
def reusedSlotCalls : List (Int × CallRetStatus) :=
  [(99300, kCallRetOk), (99350, kCallRetError), (100300, kCallRetError),
    (100300, kCallRetOk), (100350, kCallRetTimeout)]

/-- Scenario 2 of spec 8: six failures and four successes at `t = 300`. -/
def scenarioTwoCalls : List (Int × CallRetStatus) :=
  List.replicate 6 (300, kCallRetError) ++ List.replicate 4 (300, kCallRetOk)

/-- The scenario breaker with an entry for "A" last reported at 100300 and one for "B"
last reported at 100950. -/
def agedStore : ErrorRateCircuitBreaker :=
  { scenarioBreaker with error_rate_map_ := [("A", openEntry), ("B", recoveredEntry)] }

/-- A configuration that asks for 20 successes to close with a probe budget of 10; every
other key has its default value. -/
def eagerConfig : Config := ⟨10, 1 / 2, 60000, 12, 30000, 10, 20, 60000⟩

/-- A configuration with a probe budget of 5 and no valid success count; every other key
has its default value. -/
def smallBudgetConfig : Config := ⟨10, 1 / 2, 60000, 12, 30000, 5, 0, 60000⟩

/-- A configuration with a window of 24 hours in 7 buckets; every other key has its
default value. -/
def dayConfig : Config := ⟨10, 1 / 2, 86400000, 7, 30000, 10, 8, 60000⟩

/-- What the metric store and the table of the spec hold for instance `id`: the mirrored
status and `last_update_time` of its entry, if any, and the table state. -/
def observe (b : ErrorRateCircuitBreaker) (t : StatusTable) (id : String) :
    Option (CircuitBreakerStatus × Int) × CircuitBreakerStatus :=
  ((mapFind b.error_rate_map_ id).map (fun e => (e.status, e.last_update_time)), t.state id)

/-- Scenarios 1 and 2 of spec 8: from the empty store and a table holding Closed, 10
successes at `t = 100`, a pass at `t = 200`, 6 failures and 4 successes at `t = 300`, a pass
at `t = 400`. The result is what is observed for "A" after each pass and the calls of the
second pass. -/
def scenarioOneTwo :
    Option ((Option (CircuitBreakerStatus × Int) × CircuitBreakerStatus) ×
      (Option (CircuitBreakerStatus × Int) × CircuitBreakerStatus) × List TranslateCall) :=
  (scenarioBreaker.reportAll (fun _ => (0, 0)) "A"
    (List.replicate 10 (100, kCallRetOk))).bind fun b1 =>
  (b1.TimingCircuitBreak casTable 200 200 (uniformTable kCircuitBreakerClose)).bind fun p1 =>
  (p1.2.1.reportAll (fun _ => (0, 0)) "A" scenarioTwoCalls).bind fun b3 =>
  (b3.TimingCircuitBreak casTable 400 400 p1.2.2.1).map fun p2 =>
  (observe p1.2.1 p1.2.2.1 "A", observe p2.2.1 p2.2.2.1 "A", p2.2.2.2)

/-- The scenario breaker holding for "A" an entry Open since `t = 400`, last reported at
`t = 300`. -/
def scenarioThreeStore : ErrorRateCircuitBreaker :=
  { scenarioBreaker with
    error_rate_map_ := [("A", ⟨kCircuitBreakerOpen, bucketsWith 3 ⟨3, 10, 6⟩, 400, 300⟩)] }

/-- Scenario 3 of spec 8 with the pass at `now`: the entry of "A" is Open since `t = 400`
and the table holds Open. The result is what is observed for "A" after the pass, the
buckets of its entry and the calls of the pass. -/
def scenarioThree (now : Int) :
    Option ((Option (CircuitBreakerStatus × Int) × CircuitBreakerStatus) ×
      Option (List ErrorRateBucket) × List TranslateCall) :=
  (scenarioThreeStore.TimingCircuitBreak casTable now now
    (uniformTable kCircuitBreakerOpen)).map fun p =>
  (observe p.2.1 p.2.2.1 "A",
    (mapFind p.2.1.error_rate_map_ "A").map (fun e => e.buckets), p.2.2.2)

/-- Scenario 4 of spec 8 with every clock value shifted by `shift`: the entry of "A" is
HalfOpen since `shift + 850` with cleared buckets and the table holds HalfOpen; 3 successes
at `shift + 900`, a pass at `shift + 950`. -/
def scenarioFour (shift : Int) :
    Option ((Option (CircuitBreakerStatus × Int) × CircuitBreakerStatus) × List TranslateCall) :=
  (ErrorRateCircuitBreaker.reportAll
    { scenarioBreaker with
      error_rate_map_ :=
        [("A", ⟨kCircuitBreakerHalfOpen,
          ClearBuckets 10 (bucketsWith 3 ⟨3, 10, 6⟩), shift + 850, shift + 300⟩)] }
    (fun _ => (0, 0)) "A" (List.replicate 3 (shift + 900, kCallRetOk))).bind fun b1 =>
  (b1.TimingCircuitBreak casTable (shift + 950) (shift + 950)
    (uniformTable kCircuitBreakerHalfOpen)).map fun p =>
  (observe p.2.1 p.2.2.1 "A", p.2.2.2)

/-! ## The hash load balancer (`simple_hash.cpp`) and the UDP checker (`udp_detector.cpp`) -/

/-- The fields of `Criteria` that `SimpleHashLoadBalancer::ChooseInstance` reads;
`hash_key_` is a `uint64_t`. -/
structure Criteria where
  ignore_half_open_ : Bool
  hash_key_ : Nat

/-- What `ChooseInstance` obtains from `ServiceInstances`, over an instance type `ι` and
a service state `σ`: the vector of available instances, the set of half-open instances,
and `Service::TryChooseHalfOpenInstance`, which may yield an instance and changes the
admission accounting of the service. -/
structure ServiceInstances (ι σ : Type) where
  GetAvailableInstances : List ι
  GetHalfOpenInstances : List ι
  TryChooseHalfOpenInstance : σ → List ι → Option ι × σ

/-- Result of `ChooseInstance`: the return code, `next` (`none` for NULL), the service
state afterwards and the half-open sets passed to `TryChooseHalfOpenInstance`. -/
structure ChooseResult (ι σ : Type) where
  code : ReturnCode
  next : Option ι
  service : σ
  admissions : List (List ι)

/-- `SimpleHashLoadBalancer::ChooseInstance` (lines 26-48). -/
def SimpleHashLoadBalancer.ChooseInstance {ι σ : Type} (service_instances : ServiceInstances ι σ)
    (criteria : Criteria) (s : σ) : ChooseResult ι σ :=
  let instances := service_instances.GetAvailableInstances
  let half_open_instances := service_instances.GetHalfOpenInstances
  let tried : Option ι × σ × List (List ι) :=
    if criteria.ignore_half_open_ = false then
      let r := service_instances.TryChooseHalfOpenInstance s half_open_instances
      (r.1, r.2, [half_open_instances])
    else (none, s, [])
  match tried.1 with
  | some x => ⟨kReturnOk, some x, tried.2.1, tried.2.2⟩
  | none =>
    if instances.isEmpty then ⟨kReturnInstanceNotFound, none, tried.2.1, tried.2.2⟩
    else ⟨kReturnOk, instances[criteria.hash_key_ % instances.length]?, tried.2.1, tried.2.2⟩

/-- The selection of spec 4.7 in the spec's words: unless `ignore_half_open` is set, a
half-open instance that is admitted is returned; otherwise normal selection: an empty
available set gives `InstanceNotFound`, else the instance at `hash_key mod size`. -/
def hashChooseReference {ι σ : Type} (service_instances : ServiceInstances ι σ)
    (criteria : Criteria) (s : σ) : ReturnCode × Option ι :=
  let admitted : Option ι :=
    if criteria.ignore_half_open_ then none
    else (service_instances.TryChooseHalfOpenInstance s
      service_instances.GetHalfOpenInstances).1
  match admitted, service_instances.GetAvailableInstances with
  | some x, _ => (kReturnOk, some x)
  | none, [] => (kReturnInstanceNotFound, none)
  | none, y :: ys => (kReturnOk, (y :: ys)[criteria.hash_key_ % (y :: ys).length]?)

/-- A service with no available instance and one half-open instance "h1" whose
`TryChooseHalfOpenInstance` admits the first instance of the set. -/
def probingService : ServiceInstances String Unit :=
  ⟨[], ["h1"], fun s set => (set.head?, s)⟩

/-- A service with three available instances and no half-open one. -/
def steadyService : ServiceInstances String Unit :=
  ⟨["i0", "i1", "i2"], [], fun s set => (set.head?, s)⟩

/-- Name of the UDP checker plugin (`kPluginUdpHealthChecker`); the constant is declared
in `plugin_manager.h`, which is not among the sources, and only its identity is used. -/
def kPluginUdpHealthChecker : String := "udp"

/-- The configured state of `UdpHealthChecker`: the payloads are byte strings. -/
structure UdpHealthChecker where
  send_package_ : List UInt8
  receive_package_ : List UInt8
  timeout_ms_ : Int

/-- The out-parameter `DetectResult`. -/
structure DetectResult where
  detect_type : String
  return_code : ReturnCode
  elapse : Int
deriving DecidableEq, Repr

/-- One call of `NetClient::UdpSendRecv`: host, port, timeout, payload sent, and whether
a response buffer was passed (`false` for the NULL pointer). -/
structure UdpCall where
  host : String
  port : Int
  timeout_ms : Int
  send_package : List UInt8
  want_response : Bool
deriving DecidableEq, Repr

/-- Outcome of `DetectInstance`: the return code, `detect_result` afterwards and the
network exchanges made. -/
structure DetectOutcome where
  code : ReturnCode
  detect_result : DetectResult
  exchanges : List UdpCall
deriving DecidableEq, Repr

/-- `UdpHealthChecker::DetectInstance` (lines 64-94). `net` is `NetClient::UdpSendRecv`:
for a call it gives the return code and what it writes to the response buffer, if one is
passed. `start_time_ms` is the clock value of line 65 and `end_time_ms` the one read when
`elapse` is set. -/
def UdpHealthChecker.DetectInstance (self : UdpHealthChecker) (net : UdpCall → Int × List UInt8)
    (host : String) (port : Int) (start_time_ms end_time_ms : Int) : DetectOutcome :=
  let elapse := u64 (end_time_ms - start_time_ms)
  if self.send_package_.isEmpty then
    ⟨kReturnInvalidConfig, ⟨kPluginUdpHealthChecker, kReturnInvalidConfig, elapse⟩, []⟩
  else
    let call : UdpCall :=
      ⟨host, port, self.timeout_ms_, self.send_package_, !self.receive_package_.isEmpty⟩
    let retcode := (net call).1
    let udp_response : List UInt8 := if self.receive_package_.isEmpty then [] else (net call).2
    if retcode < 0 then
      ⟨kReturnNetworkFailed, ⟨kPluginUdpHealthChecker, kReturnNetworkFailed, elapse⟩, [call]⟩
    else if !self.receive_package_.isEmpty ∧ self.receive_package_ ≠ udp_response then
      ⟨kReturnServerError, ⟨kPluginUdpHealthChecker, kReturnServerError, elapse⟩, [call]⟩
    else ⟨kReturnOk, ⟨kPluginUdpHealthChecker, kReturnOk, elapse⟩, [call]⟩

/-- A checker that sends the two bytes `01 02` and expects no answer. -/
def sendOnlyChecker : UdpHealthChecker := ⟨[1, 2], [], 500⟩

/-- Ten failures at `t = 100300`. -/
def tenFailures : List (Int × CallRetStatus) := List.replicate 10 (100300, kCallRetError)

/-- Ten successes at `t = 100350`. -/
def tenSuccesses : List (Int × CallRetStatus) := List.replicate 10 (100350, kCallRetOk)

/-- The states of the breaker reachable from `start`, whose store is empty, by calls of
`RealTimeCircuitBreak`, `TimingCircuitBreak` and `CheckAndExpiredMetric` with any
arguments and any status table; `alloc heap` says which contents a newly allocated bucket
array may have. -/
inductive Reachable (alloc : (Nat → Int × Int) → Prop) (start : ErrorRateCircuitBreaker) :
    ErrorRateCircuitBreaker → Prop
  | init : start.error_rate_map_ = [] → Reachable alloc start start
  | record (b after : ErrorRateCircuitBreaker) (heap : Nat → Int × Int) (id : String)
      (ret : CallRetStatus) (now : Int) (code : ReturnCode) :
      Reachable alloc start b → alloc heap →
      b.RealTimeCircuitBreak heap id ret now () = some (code, after, ()) →
      Reachable alloc start after
  | timing {σ : Type} (b after : ErrorRateCircuitBreaker) (I : InstancesCircuitBreakerStatus σ)
      (now sweep : Int) (s s1 : σ) (code : ReturnCode) (calls : List TranslateCall) :
      Reachable alloc start b →
      b.TimingCircuitBreak I now sweep s = some (code, after, s1, calls) →
      Reachable alloc start after
  | expire {σ : Type} (b : ErrorRateCircuitBreaker) (I : InstancesCircuitBreakerStatus σ)
      (now : Int) (s : σ) :
      Reachable alloc start b → Reachable alloc start (b.CheckAndExpiredMetric I now s).1

/-- The counters of a bucket count at least as many calls as errors and no negative
number of errors; asked of every bucket when `all` holds, and of the buckets with a
non-zero epoch otherwise. -/
def GoodBucket (all : Prop) (bk : ErrorRateBucket) : Prop :=
  all ∨ bk.bucket_time ≠ 0 → 0 ≤ bk.error_count ∧ bk.error_count ≤ bk.total_count

/-- Every bucket of every entry of the store has good counters. -/
def GoodStore (all : Prop) (m : List (String × ErrorRateStatus)) : Prop :=
  ∀ p ∈ m, ∀ bk ∈ p.2.buckets, GoodBucket all bk

/-- Storage whose counters are not zero: every cell holds 0 calls and 7 errors. -/
def garbageHeap : Nat → Int × Int := fun _ => (0, 7)

/-- The breaker of the scenarios after one successful call of instance `"A"` reported at
`t = 100300`, the new bucket array being allocated in `garbageHeap`. -/
def afterGarbage : ErrorRateCircuitBreaker :=
  match scenarioBreaker.RealTimeCircuitBreak garbageHeap "A" kCallRetOk 100300 () with
  | some r => r.2.1
  | none => scenarioBreaker

/-! ## The quota model (`quota_model.cpp`) -/

/-- Modelled from the spec: the enumeration `QuotaResultCode` is declared in a header
that is not among the sources; spec 4.8 has it as the `result_code` of the response. A
value of the enumeration is kept as its integer value. -/
@[reducible] def QuotaResultCode : Type := Int

/-- Modelled from the spec: `QuotaResultInfo` is declared in a header that is not among
the sources. Spec 4.8: "`info{all_quota, duration, left_quota}`"; these are the three
fields lines 68-70 of `quota_model.cpp` write. -/
structure QuotaResultInfo where
  all_quota_ : Int
  duration_ : Int
  left_quota_ : Int
deriving DecidableEq, Repr

/-- The fields of `QuotaResponseImpl` that `quota_model.cpp` reads and writes;
`wait_time_` is a `uint64_t`. -/
structure QuotaResponseImpl where
  result_code_ : QuotaResultCode
  wait_time_ : Int
  info_ : QuotaResultInfo
deriving DecidableEq, Repr

/-- The response object `QuotaResponse`, which owns its `impl_`. -/
structure QuotaResponse where
  impl_ : QuotaResponseImpl
deriving DecidableEq, Repr

/-- `QuotaResponse::GetResultCode` (line 58). -/
def QuotaResponse.GetResultCode (self : QuotaResponse) : QuotaResultCode :=
  self.impl_.result_code_

/-- `QuotaResponse::GetWaitTime` (line 60). -/
def QuotaResponse.GetWaitTime (self : QuotaResponse) : Int := self.impl_.wait_time_

/-- `QuotaResponse::GetQuotaResultInfo` (line 62). -/
def QuotaResponse.GetQuotaResultInfo (self : QuotaResponse) : QuotaResultInfo :=
  self.impl_.info_

/-- `QuotaResponseImpl::CreateResponse(result_code, wait_time)` (lines 64-72);
`wait_time` is the `uint64_t` value of the parameter. -/
def QuotaResponseImpl.CreateResponse (result_code : QuotaResultCode) (wait_time : Int) :
    QuotaResponse :=
  ⟨{ result_code_ := result_code
     wait_time_ := wait_time
     info_ := { all_quota_ := 0, duration_ := 0, left_quota_ := 0 } }⟩

/-- The overload `QuotaResponseImpl::CreateResponse(result_code, info)` (lines 74-81). -/
def QuotaResponseImpl.CreateResponseInfo (result_code : QuotaResultCode)
    (info : QuotaResultInfo) : QuotaResponse :=
  ⟨{ result_code_ := result_code
     wait_time_ := 0
     info_ := info }⟩

/-! ## A table in step with the store -/

/-- A table read through `view` behaves as the claim asks: `TranslateStatus id src dst`
succeeds exactly when the state of `id` is `src`, then sets it to `dst`, and changes
nothing else. -/
def CompareAndSwap {σ : Type} (I : InstancesCircuitBreakerStatus σ)
    (view : σ → String → CircuitBreakerStatus) : Prop :=
  ∀ (s : σ) (id : String) (src dst : CircuitBreakerStatus),
    ((I.TranslateStatus s id src dst).1 = true ↔ view s id = src) ∧
    (∀ k, view (I.TranslateStatus s id src dst).2 k =
      if view s id = src ∧ k = id then dst else view s k)

/-- A table of the spec that agrees with `agedStore`: "A" is Open, every other instance
HalfOpen; auto-half-open enabled. -/
def agedTable : StatusTable :=
  ⟨fun k => if k = "A" then kCircuitBreakerOpen else kCircuitBreakerHalfOpen, true⟩

/-- The breaker of the scenarios with an expiry of 50000 ms, which is `100 × sleep_window`,
holding for "A" a HalfOpen entry last reported at 100000. -/
def staleBreaker : ErrorRateCircuitBreaker :=
  { scenarioBreaker with
    metric_expired_time_ := 50000
    error_rate_map_ := [("A", idleEntry)] }

/-- The breaker of the scenarios with the rate threshold `0.1f`, the `float` nearest to
one tenth: `13421773 / 2^27`. -/
def tenthBreaker : ErrorRateCircuitBreaker :=
  { scenarioBreaker with error_rate_threshold_ := 13421773 / 134217728 }

/-- A Closed entry with 10 calls, 1 of them failed, in the bucket of epoch 1003. -/
def tenthEntry : ErrorRateStatus :=
  ⟨kCircuitBreakerClose, bucketsWith 3 ⟨1003, 10, 1⟩, 0, 100300⟩

/-! ## Lemmas on the evaluation loop -/

theorem u64_eq_self {x : Int} (h0 : 0 ≤ x) (h1 : x < 2 ^ 64) : u64 x = x := by
  unfold u64; norm_num at h1; omega

theorem evalLoop_append {σ : Type} (self : ErrorRateCircuitBreaker)
    (I : InstancesCircuitBreakerStatus σ) (now le : Int)
    (pre post : List (String × ErrorRateStatus)) (id : String) (e : ErrorRateStatus) (s : σ) :
    self.evalLoop I now le (pre ++ (id, e) :: post) s =
      ⟨(self.evalLoop I now le pre s).entries ++
          (id, (self.evalEntry I now le id e (self.evalLoop I now le pre s).table).entry) ::
          (self.evalLoop I now le post
            (self.evalEntry I now le id e (self.evalLoop I now le pre s).table).table).entries,
        (self.evalLoop I now le post
            (self.evalEntry I now le id e (self.evalLoop I now le pre s).table).table).table,
        (self.evalLoop I now le pre s).calls ++
          ((self.evalEntry I now le id e (self.evalLoop I now le pre s).table).calls ++
          (self.evalLoop I now le post
            (self.evalEntry I now le id e (self.evalLoop I now le pre s).table).table).calls)⟩ := by
  induction pre generalizing s with
  | nil => simp [ErrorRateCircuitBreaker.evalLoop]
  | cons p pre ih =>
    obtain ⟨k, v⟩ := p
    simp only [List.cons_append, ErrorRateCircuitBreaker.evalLoop, List.append_eq, ih,
      List.append_assoc]


theorem translate_calls {σ : Type} (self : ErrorRateCircuitBreaker)
    (I : InstancesCircuitBreakerStatus σ) (now : Int) (id : String) (e : ErrorRateStatus)
    (s : σ) (src dst : CircuitBreakerStatus) (c : Bool) :
    (self.translate I now id e s src dst c).calls =
      [⟨id, src, dst, (I.TranslateStatus s id src dst).1⟩] := rfl

theorem translate_table {σ : Type} (self : ErrorRateCircuitBreaker)
    (I : InstancesCircuitBreakerStatus σ) (now : Int) (id : String) (e : ErrorRateStatus)
    (s : σ) (src dst : CircuitBreakerStatus) (c : Bool) :
    (self.translate I now id e s src dst c).table = (I.TranslateStatus s id src dst).2 := rfl

theorem translate_entry_ok {σ : Type} (self : ErrorRateCircuitBreaker)
    (I : InstancesCircuitBreakerStatus σ) (now : Int) (id : String) (e : ErrorRateStatus)
    (s : σ) (src dst : CircuitBreakerStatus) (c : Bool)
    (h : (I.TranslateStatus s id src dst).1 = true) :
    (self.translate I now id e s src dst c).entry =
      { e with
        last_update_time := now
        status := dst
        buckets := if c then ClearBuckets self.metric_num_buckets_ e.buckets else e.buckets } := by
  simp only [ErrorRateCircuitBreaker.translate]
  rw [if_pos h]

theorem translate_entry_fail {σ : Type} (self : ErrorRateCircuitBreaker)
    (I : InstancesCircuitBreakerStatus σ) (now : Int) (id : String) (e : ErrorRateStatus)
    (s : σ) (src dst : CircuitBreakerStatus) (c : Bool)
    (h : (I.TranslateStatus s id src dst).1 = false) :
    (self.translate I now id e s src dst c).entry = e := by
  simp only [ErrorRateCircuitBreaker.translate]
  rw [if_neg (by rw [h]; decide)]

/-- The loop body on an Open entry, whatever the arithmetic range. -/
theorem evalEntry_open {σ : Type} (self : ErrorRateCircuitBreaker)
    (I : InstancesCircuitBreakerStatus σ) (now le : Int) (id : String) (e : ErrorRateStatus)
    (s : σ) (hst : e.status = kCircuitBreakerOpen) :
    self.evalEntry I now le id e s =
      if I.AutoHalfOpenEnable s = true ∧ u64 (e.last_update_time + self.sleep_window_) ≤ now then
        self.translate I now id e s kCircuitBreakerOpen kCircuitBreakerHalfOpen true
      else ⟨e, s, []⟩ := by
  unfold ErrorRateCircuitBreaker.evalEntry
  rw [if_pos hst]

/-- The loop body on a Closed entry. -/
theorem evalEntry_closed {σ : Type} (self : ErrorRateCircuitBreaker)
    (I : InstancesCircuitBreakerStatus σ) (now le : Int) (id : String) (e : ErrorRateStatus)
    (s : σ) (hst : e.status = kCircuitBreakerClose) :
    self.evalEntry I now le id e s =
      if (BucketsCount self.metric_num_buckets_ le e.buckets).1 ≥
            self.request_volume_threshold_ ∧
          errorRateReached (BucketsCount self.metric_num_buckets_ le e.buckets).2
            (BucketsCount self.metric_num_buckets_ le e.buckets).1
            self.error_rate_threshold_ = true then
        self.translate I now id e s kCircuitBreakerClose kCircuitBreakerOpen false
      else ⟨e, s, []⟩ := by
  unfold ErrorRateCircuitBreaker.evalEntry
  rw [if_neg (by rw [hst]; decide), if_pos hst]

/-- The loop body on a HalfOpen entry. -/
theorem evalEntry_halfOpen {σ : Type} (self : ErrorRateCircuitBreaker)
    (I : InstancesCircuitBreakerStatus σ) (now le : Int) (id : String) (e : ErrorRateStatus)
    (s : σ) (hst : e.status = kCircuitBreakerHalfOpen) :
    self.evalEntry I now le id e s =
      if (BucketsCount self.metric_num_buckets_ le e.buckets).1 -
          (BucketsCount self.metric_num_buckets_ le e.buckets).2 ≥
          self.success_count_after_half_open_ then
        self.translate I now id e s kCircuitBreakerHalfOpen kCircuitBreakerClose true
      else if (BucketsCount self.metric_num_buckets_ le e.buckets).2 >
            self.request_count_after_half_open_ - self.success_count_after_half_open_ ∨
          u64 (e.last_access_time + u64 (100 * self.sleep_window_)) ≤ now then
        self.translate I now id e s kCircuitBreakerHalfOpen kCircuitBreakerOpen true
      else ⟨e, s, []⟩ := by
  unfold ErrorRateCircuitBreaker.evalEntry
  rw [if_neg (by rw [hst]; decide), if_neg (by rw [hst]; decide), if_pos hst]


/-! ## The table of the spec: frame lemmas -/

theorem casTable_translate_state_ne (t : StatusTable) (k id : String)
    (src dst : CircuitBreakerStatus) (h : id ≠ k) :
    (casTable.TranslateStatus t k src dst).2.state id = t.state id := by
  show (StatusTable.TranslateStatus t k src dst).2.state id = t.state id
  unfold StatusTable.TranslateStatus
  split
  · simp [h]
  · rfl

theorem casTable_translate_ok (t : StatusTable) (k : String)
    (src dst : CircuitBreakerStatus) (h : t.state k = src) :
    (casTable.TranslateStatus t k src dst).1 = true ∧
      (casTable.TranslateStatus t k src dst).2.state k = dst := by
  show (StatusTable.TranslateStatus t k src dst).1 = true ∧
    (StatusTable.TranslateStatus t k src dst).2.state k = dst
  unfold StatusTable.TranslateStatus
  rw [if_pos h]; simp

theorem casTable_translate_closed (t : StatusTable) (k id : String)
    (src : CircuitBreakerStatus) (h : t.state id = kCircuitBreakerClose) :
    (casTable.TranslateStatus t k src kCircuitBreakerClose).2.state id = kCircuitBreakerClose := by
  show (StatusTable.TranslateStatus t k src kCircuitBreakerClose).2.state id = _
  unfold StatusTable.TranslateStatus
  split
  · show (if id = k then _ else _) = _
    split
    · rfl
    · exact h
  · exact h

theorem evalEntry_table_cases {σ : Type} (self : ErrorRateCircuitBreaker)
    (I : InstancesCircuitBreakerStatus σ) (now le : Int) (id : String) (e : ErrorRateStatus)
    (s : σ) :
    (self.evalEntry I now le id e s).table = s ∨
      ∃ src dst, (self.evalEntry I now le id e s).table = (I.TranslateStatus s id src dst).2 := by
  unfold ErrorRateCircuitBreaker.evalEntry
  split
  · split
    · exact Or.inr ⟨_, _, rfl⟩
    · exact Or.inl rfl
  · simp only []
    split
    · split
      · exact Or.inr ⟨_, _, rfl⟩
      · exact Or.inl rfl
    · split
      · split
        · exact Or.inr ⟨_, _, rfl⟩
        · split
          · exact Or.inr ⟨_, _, rfl⟩
          · exact Or.inl rfl
      · exact Or.inl rfl

theorem evalEntry_casTable_state_ne (self : ErrorRateCircuitBreaker) (now le : Int)
    (k id : String) (e : ErrorRateStatus) (t : StatusTable) (h : id ≠ k) :
    (self.evalEntry casTable now le k e t).table.state id = t.state id := by
  rcases evalEntry_table_cases self casTable now le k e t with h1 | ⟨src, dst, h1⟩
  · rw [h1]
  · rw [h1]; exact casTable_translate_state_ne t k id src dst h

theorem evalLoop_casTable_state_of_not_mem (self : ErrorRateCircuitBreaker) (now le : Int)
    (id : String) (m : List (String × ErrorRateStatus)) (t : StatusTable)
    (h : id ∉ m.map Prod.fst) :
    (self.evalLoop casTable now le m t).table.state id = t.state id := by
  induction m generalizing t with
  | nil => rfl
  | cons p m ih =>
    obtain ⟨k, v⟩ := p
    simp only [List.map_cons, List.mem_cons, not_or] at h
    simp only [ErrorRateCircuitBreaker.evalLoop]
    rw [ih _ h.2]
    exact evalEntry_casTable_state_ne self now le k id v t h.1

theorem evalLoop_keys {σ : Type} (self : ErrorRateCircuitBreaker)
    (I : InstancesCircuitBreakerStatus σ) (now le : Int)
    (m : List (String × ErrorRateStatus)) (s : σ) :
    (self.evalLoop I now le m s).entries.map Prod.fst = m.map Prod.fst := by
  induction m generalizing s with
  | nil => rfl
  | cons p m ih =>
    obtain ⟨k, v⟩ := p
    simp only [ErrorRateCircuitBreaker.evalLoop, List.map_cons, ih]

theorem mapFind_of_not_mem (m : List (String × ErrorRateStatus)) (id : String)
    (h : id ∉ m.map Prod.fst) : mapFind m id = none := by
  induction m with
  | nil => rfl
  | cons p m ih =>
    obtain ⟨k, v⟩ := p
    simp only [List.map_cons, List.mem_cons, not_or] at h
    simp only [mapFind]
    rw [if_neg (fun hk => h.1 hk.symm)]
    exact ih h.2

theorem mapFind_append_cons (pre post : List (String × ErrorRateStatus)) (id : String)
    (v : ErrorRateStatus) (h : id ∉ pre.map Prod.fst) :
    mapFind (pre ++ (id, v) :: post) id = some v := by
  induction pre with
  | nil => simp [mapFind]
  | cons p pre ih =>
    obtain ⟨k, w⟩ := p
    simp only [List.map_cons, List.mem_cons, not_or] at h
    simp only [List.cons_append, mapFind]
    rw [if_neg (fun hk => h.1 hk.symm)]
    exact ih h.2

theorem WellKeyed.not_mem_pre {pre post : List (String × ErrorRateStatus)} {id : String}
    {e : ErrorRateStatus} (h : WellKeyed (pre ++ (id, e) :: post)) :
    id ∉ pre.map Prod.fst := by
  unfold WellKeyed at h
  rw [List.map_append, List.pairwise_append] at h
  intro hm
  have := h.2.2 id hm id (by simp)
  exact lt_irrefl _ this

theorem WellKeyed.not_mem_post {pre post : List (String × ErrorRateStatus)} {id : String}
    {e : ErrorRateStatus} (h : WellKeyed (pre ++ (id, e) :: post)) :
    id ∉ post.map Prod.fst := by
  unfold WellKeyed at h
  rw [List.map_append, List.pairwise_append] at h
  have h2 := h.2.1
  rw [List.map_cons, List.pairwise_cons] at h2
  intro hm
  exact lt_irrefl _ (h2.1 id hm)

theorem expireLoop_casTable_closed (self : ErrorRateCircuitBreaker) (now : Int) (id : String)
    (m : List (String × ErrorRateStatus)) (t : StatusTable)
    (h : t.state id = kCircuitBreakerClose) :
    (self.expireLoop casTable now m t).table.state id = kCircuitBreakerClose := by
  induction m generalizing t with
  | nil => exact h
  | cons p m ih =>
    obtain ⟨k, v⟩ := p
    simp only [ErrorRateCircuitBreaker.expireLoop]
    split
    · exact ih _ (casTable_translate_closed _ k id _ (casTable_translate_closed t k id _ h))
    · exact ih _ h

theorem TimingCircuitBreak_eq {σ : Type} (self : ErrorRateCircuitBreaker)
    (I : InstancesCircuitBreakerStatus σ) (now sweep_time : Int) (s : σ)
    (hW : u64 self.metric_bucket_time_ ≠ 0) :
    self.TimingCircuitBreak I now sweep_time s =
      some (kReturnOk,
        (({ self with error_rate_map_ :=
            (self.evalLoop I now (self.lastEndBucketTime now) self.error_rate_map_ s).entries }
          ).CheckAndExpiredMetric I sweep_time
            (self.evalLoop I now (self.lastEndBucketTime now) self.error_rate_map_ s).table).1,
        (({ self with error_rate_map_ :=
            (self.evalLoop I now (self.lastEndBucketTime now) self.error_rate_map_ s).entries }
          ).CheckAndExpiredMetric I sweep_time
            (self.evalLoop I now (self.lastEndBucketTime now) self.error_rate_map_ s).table).2.1,
        (self.evalLoop I now (self.lastEndBucketTime now) self.error_rate_map_ s).calls ++
        (({ self with error_rate_map_ :=
            (self.evalLoop I now (self.lastEndBucketTime now) self.error_rate_map_ s).entries }
          ).CheckAndExpiredMetric I sweep_time
            (self.evalLoop I now (self.lastEndBucketTime now) self.error_rate_map_ s).table).2.2) := by
  unfold ErrorRateCircuitBreaker.TimingCircuitBreak
  rw [if_neg hW]

/-! ## The store -/

theorem mapFind_mapInsert_self (m : List (String × ErrorRateStatus)) (id : String)
    (v : ErrorRateStatus) : mapFind (mapInsert m id v) id = some v := by
  induction m with
  | nil => simp [mapInsert, mapFind]
  | cons p m ih =>
    obtain ⟨k, w⟩ := p
    simp only [mapInsert]
    split
    · next h => simp [mapFind, h]
    · next h =>
      split
      · simp [mapFind]
      · simp only [mapFind]
        rw [if_neg h]; exact ih

theorem mapFind_mapInsert_ne (m : List (String × ErrorRateStatus)) (id id' : String)
    (v : ErrorRateStatus) (hne : id' ≠ id) :
    mapFind (mapInsert m id v) id' = mapFind m id' := by
  induction m with
  | nil =>
    simp only [mapInsert, mapFind]
    rw [if_neg (fun h => hne h.symm)]
  | cons p m ih =>
    obtain ⟨k, w⟩ := p
    simp only [mapInsert]
    split
    · next h =>
      simp only [mapFind]
      rw [if_neg (fun hk => hne (hk.symm.trans h)), if_neg (fun hk => hne (hk.symm.trans h))]
    · next h =>
      split
      · simp only [mapFind]
        rw [if_neg (fun h => hne h.symm)]
      · simp only [mapFind]
        split
        · rfl
        · exact ih

theorem newBuckets_length (heap : Nat → Int × Int) (n : Int) :
    (newBuckets heap n).length = n.toNat := by
  simp [newBuckets]

theorem newBuckets_bucket_time (heap : Nat → Int × Int) (n : Int) :
    ∀ b ∈ newBuckets heap n, b.bucket_time = 0 := by
  intro b hb
  simp only [newBuckets, List.mem_map] at hb
  obtain ⟨i, _, rfl⟩ := hb
  rfl

theorem entryOrFresh_length (self : ErrorRateCircuitBreaker) (heap : Nat → Int × Int)
    (id : String) (now : Int) (hN : 0 < self.metric_num_buckets_)
    (hlen : ∀ e, mapFind self.error_rate_map_ id = some e →
      (e.buckets.length : Int) = self.metric_num_buckets_) :
    ((self.entryOrFresh heap id now).buckets.length : Int) = self.metric_num_buckets_ := by
  unfold ErrorRateCircuitBreaker.entryOrFresh
  cases hf : mapFind self.error_rate_map_ id with
  | none =>
    simp only [Option.getD_none, newBuckets_length]
    exact Int.toNat_of_nonneg (le_of_lt hN)
  | some e =>
    simp only [Option.getD_some]
    exact hlen e hf

theorem RealTimeCircuitBreak_eq {σ : Type} (self : ErrorRateCircuitBreaker)
    (heap : Nat → Int × Int) (id : String) (ret : CallRetStatus) (now : Int) (s : σ)
    (hW : 0 < self.metric_bucket_time_) (hW2 : self.metric_bucket_time_ < 2 ^ 64)
    (hN : 0 < self.metric_num_buckets_) (hN2 : self.metric_num_buckets_ < 2 ^ 64)
    (hlen : ∀ e, mapFind self.error_rate_map_ id = some e →
      (e.buckets.length : Int) = self.metric_num_buckets_) :
    ∃ prev,
      (self.entryOrFresh heap id now).buckets[
        (now / self.metric_bucket_time_ % self.metric_num_buckets_).toNat]? = some prev ∧
      self.RealTimeCircuitBreak heap id ret now s =
        some (kReturnOk,
          { self with
            error_rate_map_ :=
              mapInsert
                (mapInsert self.error_rate_map_ id
                  { self.entryOrFresh heap id now with last_access_time := now }) id
                { self.entryOrFresh heap id now with
                  last_access_time := now
                  buckets := (self.entryOrFresh heap id now).buckets.set
                    (now / self.metric_bucket_time_ % self.metric_num_buckets_).toNat
                    (recordBucket (now / self.metric_bucket_time_) ret prev) } }, s) := by
  have hWu : u64 self.metric_bucket_time_ = self.metric_bucket_time_ :=
    u64_eq_self (le_of_lt hW) hW2
  have hNu : u64 self.metric_num_buckets_ = self.metric_num_buckets_ :=
    u64_eq_self (le_of_lt hN) hN2
  have hi0 : 0 ≤ now / self.metric_bucket_time_ % self.metric_num_buckets_ :=
    Int.emod_nonneg _ (ne_of_gt hN)
  have hi1 : now / self.metric_bucket_time_ % self.metric_num_buckets_ <
      self.metric_num_buckets_ := Int.emod_lt_of_pos _ hN
  have hgot : self.GetOrCreateErrorRateStatus heap id now =
      (mapInsert self.error_rate_map_ id
          { self.entryOrFresh heap id now with last_access_time := now },
        { self.entryOrFresh heap id now with last_access_time := now }) := by
    unfold ErrorRateCircuitBreaker.GetOrCreateErrorRateStatus
      ErrorRateCircuitBreaker.entryOrFresh
    cases hf : mapFind self.error_rate_map_ id with
    | none => simp
    | some e => simp
  have holdlen := entryOrFresh_length self heap id now hN hlen
  have hilt : (now / self.metric_bucket_time_ % self.metric_num_buckets_).toNat <
      (self.entryOrFresh heap id now).buckets.length := by omega
  refine ⟨(self.entryOrFresh heap id now).buckets[
    (now / self.metric_bucket_time_ % self.metric_num_buckets_).toNat],
    List.getElem?_eq_getElem hilt, ?_⟩
  unfold ErrorRateCircuitBreaker.RealTimeCircuitBreak
  simp only [hgot, hWu, hNu]
  rw [if_neg (by omega)]
  show (match (self.entryOrFresh heap id now).buckets[
      (now / self.metric_bucket_time_ % self.metric_num_buckets_).toNat]? with
    | none => none
    | some bk => _) = _
  rw [List.getElem?_eq_getElem hilt]

theorem recordBucket_eq (epoch : Int) (ret : CallRetStatus) (prev : ErrorRateBucket) :
    recordBucket epoch ret prev =
      ⟨epoch,
        (if prev.bucket_time = epoch then prev.total_count else 0) + 1,
        (if prev.bucket_time = epoch then prev.error_count else 0) +
          (if ret = kCallRetOk then 0 else 1)⟩ := by
  unfold recordBucket
  by_cases hp : prev.bucket_time = epoch
  · have hp2 : ¬ (epoch ≠ prev.bucket_time) := fun h => h hp.symm
    cases ret <;> simp [hp, hp2]
  · have hp2 : epoch ≠ prev.bucket_time := fun h => hp h.symm
    cases ret <;> simp [hp, hp2]

/-! ## Window sums -/

theorem foldl_count (bound : Int) (bs : List ErrorRateBucket) (acc : Int × Int) :
    bs.foldl
      (fun acc bk =>
        if bk.bucket_time > bound then
          (acc.1 + bk.total_count, acc.2 + bk.error_count)
        else acc) acc =
      (acc.1 + (bs.map (bucketTotal bound)).sum, acc.2 + (bs.map (bucketErrors bound)).sum) := by
  induction bs generalizing acc with
  | nil => simp
  | cons bk bs ih =>
    simp only [List.foldl_cons, List.map_cons, List.sum_cons, ih, bucketTotal, bucketErrors]
    split
    · simp only [add_assoc]
    · simp

theorem BucketsCount_eq_sum (n bound : Int) (bs : List ErrorRateBucket)
    (h : (bs.length : Int) = n) :
    BucketsCount n bound bs =
      ((bs.map (bucketTotal bound)).sum, (bs.map (bucketErrors bound)).sum) := by
  unfold BucketsCount
  have : bs.take n.toNat = bs := List.take_of_length_le (by omega)
  rw [this, foldl_count]
  simp

theorem sum_map_set (f : ErrorRateBucket → Int) (bs : List ErrorRateBucket) (i : Nat)
    (prev x : ErrorRateBucket) (h : bs[i]? = some prev) :
    ((bs.set i x).map f).sum = (bs.map f).sum - f prev + f x := by
  induction bs generalizing i with
  | nil => simp at h
  | cons b bs ih =>
    cases i with
    | zero =>
      simp only [List.getElem?_cons_zero, Option.some.injEq] at h
      subst h
      simp only [List.set_cons_zero, List.map_cons, List.sum_cons]
      omega
    | succ i =>
      simp only [List.getElem?_cons_succ] at h
      simp only [List.set_cons_succ, List.map_cons, List.sum_cons, ih i h]
      omega

theorem callsAfter_append (width bound : Int) (cs : List (Int × CallRetStatus))
    (c : Int × CallRetStatus) :
    callsAfter width bound (cs ++ [c]) =
      callsAfter width bound cs + (if bound < c.1 / width then 1 else 0) := by
  unfold callsAfter
  rw [List.countP_append]
  by_cases h : bound < c.1 / width <;> simp [List.countP_cons, h]

theorem failuresAfter_append (width bound : Int) (cs : List (Int × CallRetStatus))
    (c : Int × CallRetStatus) :
    failuresAfter width bound (cs ++ [c]) =
      failuresAfter width bound cs +
        (if bound < c.1 / width then (if c.2 = kCallRetOk then 0 else 1) else 0) := by
  unfold failuresAfter
  rw [List.countP_append]
  by_cases h : bound < c.1 / width <;> by_cases h2 : c.2 = kCallRetOk <;>
    simp [List.countP_cons, h, h2]

theorem WindowInv_zero (n width : Int) (bs : List ErrorRateBucket)
    (hlen : (bs.length : Int) = n) (hzero : ∀ bk ∈ bs, bk.bucket_time = 0) :
    WindowInv n width 0 bs [] := by
  refine ⟨hlen, ?_, ?_⟩
  · intro j bk h
    have := hzero bk (List.getElem?_mem h)
    exact ⟨by omega, by omega, fun h0 => absurd this h0⟩
  · intro b hb _
    have hall : ∀ bk ∈ bs, bucketTotal b bk = 0 ∧ bucketErrors b bk = 0 := by
      intro bk hbk
      have := hzero bk hbk
      simp only [bucketTotal, bucketErrors, this]
      rw [if_neg (by omega), if_neg (by omega)]
      exact ⟨rfl, rfl⟩
    constructor
    · rw [List.sum_eq_zero]
      · simp [callsAfter]
      · intro x hx
        simp only [List.mem_map] at hx
        obtain ⟨bk, hbk, rfl⟩ := hx
        exact (hall bk hbk).1
    · rw [List.sum_eq_zero]
      · simp [failuresAfter]
      · intro x hx
        simp only [List.mem_map] at hx
        obtain ⟨bk, hbk, rfl⟩ := hx
        exact (hall bk hbk).2

theorem WindowInv_mono (n width top top2 : Int) (bs : List ErrorRateBucket)
    (cs : List (Int × CallRetStatus)) (h : WindowInv n width top bs cs) (hle : top ≤ top2) :
    WindowInv n width top2 bs cs := by
  obtain ⟨h1, h2, h3⟩ := h
  refine ⟨h1, ?_, ?_⟩
  · intro j bk hj
    obtain ⟨a, b, c⟩ := h2 j bk hj
    exact ⟨a, by omega, c⟩
  · intro b hb hb2
    exact h3 b hb (by omega)

theorem emod_eq_le_sub (a b n : Int) (hmod : a % n = b % n) (hlt : a < b) :
    a ≤ b - n := by
  have h0 : (b - a) % n = 0 := (Int.emod_eq_emod_iff_emod_sub_eq_zero).mp hmod.symm
  have hd : n ∣ b - a := Int.dvd_of_emod_eq_zero h0
  have := Int.le_of_dvd (by omega) hd
  omega

theorem WindowInv_step (n width top : Int) (bs : List ErrorRateBucket)
    (cs : List (Int × CallRetStatus)) (c : Int × CallRetStatus) (prev : ErrorRateBucket)
    (hn : 0 < n) (hinv : WindowInv n width top bs cs) (hep : top ≤ c.1 / width)
    (hprev : bs[(c.1 / width % n).toNat]? = some prev) :
    WindowInv n width (c.1 / width)
      (bs.set (c.1 / width % n).toNat (recordBucket (c.1 / width) c.2 prev)) (cs ++ [c]) := by
  obtain ⟨h1, h2, h3⟩ := hinv
  obtain ⟨hp0, hp1, hp2⟩ := h2 _ prev hprev
  have hi0 : 0 ≤ c.1 / width % n := Int.emod_nonneg _ (ne_of_gt hn)
  have hilt : (c.1 / width % n).toNat < bs.length := by
    have := (List.getElem?_eq_some.mp hprev).1
    exact this
  refine ⟨?_, ?_, ?_⟩
  · rw [List.length_set]; exact h1
  · intro j bk hj
    by_cases hji : j = (c.1 / width % n).toNat
    · subst hji
      rw [List.getElem?_set_self hilt] at hj
      have hbk : bk = recordBucket (c.1 / width) c.2 prev := (Option.some.inj hj).symm
      rw [hbk, recordBucket_eq]
      refine ⟨by show 0 ≤ c.1 / width; omega, le_refl _, ?_⟩
      intro _
      show c.1 / width % n = ((c.1 / width % n).toNat : Int)
      omega
    · rw [List.getElem?_set_ne (fun h => hji h.symm)] at hj
      obtain ⟨a, b, d⟩ := h2 j bk hj
      exact ⟨a, by omega, d⟩
  · intro b hb hb2
    obtain ⟨ht, he⟩ := h3 b hb (by omega)
    -- the cell that is replaced contributes nothing unless it has the epoch of the call
    have hold : prev.bucket_time ≠ c.1 / width → ¬ prev.bucket_time > b := by
      intro hne
      by_cases hz : prev.bucket_time = 0
      · omega
      · have hm := hp2 hz
        have hm2 : prev.bucket_time % n = c.1 / width % n := by
          rw [hm]; omega
        have := emod_eq_le_sub _ _ n hm2 (by omega)
        omega
    rw [sum_map_set (bucketTotal b) bs _ prev _ hprev,
      sum_map_set (bucketErrors b) bs _ prev _ hprev, ht, he, callsAfter_append,
      failuresAfter_append, recordBucket_eq]
    simp only [bucketTotal, bucketErrors]
    by_cases hpe : prev.bucket_time = c.1 / width
    · rw [if_pos hpe, if_pos hpe]
      by_cases hgt : b < c.1 / width
      · rw [if_pos (by omega), if_pos (by omega : c.1 / width > b), if_pos hgt,
          if_pos (by omega), if_pos (by omega : c.1 / width > b), if_pos hgt]
        constructor <;> omega
      · rw [if_neg (by omega), if_neg (by omega : ¬ c.1 / width > b), if_neg hgt,
          if_neg (by omega), if_neg (by omega : ¬ c.1 / width > b), if_neg hgt]
        constructor <;> omega
    · rw [if_neg hpe, if_neg hpe, if_neg (hold hpe), if_neg (hold hpe)]
      by_cases hgt : b < c.1 / width
      · rw [if_pos (by omega : c.1 / width > b), if_pos hgt,
          if_pos (by omega : c.1 / width > b), if_pos hgt]
        constructor <;> omega
      · rw [if_neg (by omega : ¬ c.1 / width > b), if_neg hgt,
          if_neg (by omega : ¬ c.1 / width > b), if_neg hgt]
        constructor <;> omega

theorem entryOrFresh_buckets (self : ErrorRateCircuitBreaker) (heap : Nat → Int × Int)
    (id : String) (a b : Int) :
    (self.entryOrFresh heap id a).buckets = (self.entryOrFresh heap id b).buckets := by
  unfold ErrorRateCircuitBreaker.entryOrFresh
  cases mapFind self.error_rate_map_ id <;> rfl

theorem entryOrFresh_of_find (self : ErrorRateCircuitBreaker) (heap : Nat → Int × Int)
    (id : String) (a : Int) (e : ErrorRateStatus)
    (h : mapFind self.error_rate_map_ id = some e) : self.entryOrFresh heap id a = e := by
  unfold ErrorRateCircuitBreaker.entryOrFresh
  rw [h]; rfl

theorem RealTimeCircuitBreak_buckets {σ : Type} (self : ErrorRateCircuitBreaker)
    (heap : Nat → Int × Int) (id : String) (ret : CallRetStatus) (now : Int) (s : σ)
    (hW : 0 < self.metric_bucket_time_) (hW2 : self.metric_bucket_time_ < 2 ^ 64)
    (hN : 0 < self.metric_num_buckets_) (hN2 : self.metric_num_buckets_ < 2 ^ 64)
    (hlen : ∀ e, mapFind self.error_rate_map_ id = some e →
      (e.buckets.length : Int) = self.metric_num_buckets_) :
    ∃ (after : ErrorRateCircuitBreaker) (e1 : ErrorRateStatus) (prev : ErrorRateBucket),
      self.RealTimeCircuitBreak heap id ret now s = some (kReturnOk, after, s) ∧
      after.metric_bucket_time_ = self.metric_bucket_time_ ∧
      after.metric_num_buckets_ = self.metric_num_buckets_ ∧
      mapFind after.error_rate_map_ id = some e1 ∧
      (self.entryOrFresh heap id 0).buckets[
        (now / self.metric_bucket_time_ % self.metric_num_buckets_).toNat]? = some prev ∧
      e1.buckets = (self.entryOrFresh heap id 0).buckets.set
        (now / self.metric_bucket_time_ % self.metric_num_buckets_).toNat
        (recordBucket (now / self.metric_bucket_time_) ret prev) := by
  obtain ⟨prev, hprev, hrun⟩ := RealTimeCircuitBreak_eq self heap id ret now s hW hW2 hN hN2 hlen
  refine ⟨_, _, prev, hrun, rfl, rfl, mapFind_mapInsert_self _ _ _, ?_, ?_⟩
  · rw [entryOrFresh_buckets self heap id 0 now]; exact hprev
  · show (self.entryOrFresh heap id now).buckets.set _ _ = _
    rw [entryOrFresh_buckets self heap id 0 now]

theorem reportAll_inv (heap : Nat → Int × Int) (id : String) (width n bound : Int)
    (hW : 0 < width) (hW2 : width < 2 ^ 64) (hN : 0 < n) (hN2 : n < 2 ^ 64)
    (rest : List (Int × CallRetStatus)) :
    ∀ (self : ErrorRateCircuitBreaker) (cs : List (Int × CallRetStatus)) (top : Int),
      self.metric_bucket_time_ = width → self.metric_num_buckets_ = n →
      WindowInv n width top (self.entryOrFresh heap id 0).buckets cs →
      (rest.map Prod.fst).Pairwise (fun a b => a ≤ b) →
      (∀ c ∈ rest, top ≤ c.1 / width ∧ c.1 / width ≤ bound) → top ≤ bound →
      ∃ after : ErrorRateCircuitBreaker,
        self.reportAll heap id rest = some after ∧
        after.metric_bucket_time_ = width ∧ after.metric_num_buckets_ = n ∧
        WindowInv n width bound (after.entryOrFresh heap id 0).buckets (cs ++ rest) ∧
        ((∃ e, mapFind self.error_rate_map_ id = some e) ∨ rest ≠ [] →
          ∃ e, mapFind after.error_rate_map_ id = some e) := by
  induction rest with
  | nil =>
    intro self cs top hw hn hinv _ _ hle
    refine ⟨self, rfl, hw, hn, ?_, ?_⟩
    · rw [List.append_nil]
      exact WindowInv_mono n width top bound _ _ hinv hle
    · intro h
      rcases h with h | h
      · exact h
      · exact absurd rfl h
  | cons c rest ih =>
    intro self cs top hw hn hinv hsorted hbnd hle
    have hlen : ∀ e, mapFind self.error_rate_map_ id = some e →
        (e.buckets.length : Int) = self.metric_num_buckets_ := by
      intro e he
      have := hinv.1
      rw [entryOrFresh_of_find self heap id 0 e he] at this
      rw [hn]; exact this
    obtain ⟨mid, e1, prev, hrun, hmw, hmn, hfind, hprev, hbk⟩ :=
      RealTimeCircuitBreak_buckets self heap id c.2 c.1 ()
        (by rw [hw]; exact hW) (by rw [hw]; exact hW2) (by rw [hn]; exact hN)
        (by rw [hn]; exact hN2) hlen
    rw [hw, hn] at hprev hbk
    have hc := hbnd c (List.mem_cons_self _ _)
    have hstep := WindowInv_step n width top _ cs c prev hN hinv hc.1 hprev
    rw [List.map_cons, List.pairwise_cons] at hsorted
    have hmidinv : WindowInv n width (c.1 / width) (mid.entryOrFresh heap id 0).buckets
        (cs ++ [c]) := by
      rw [entryOrFresh_of_find mid heap id 0 e1 hfind, hbk]
      exact hstep
    obtain ⟨after, hafter, haw, han, hainv, hex⟩ := ih mid (cs ++ [c]) (c.1 / width)
      (hmw.trans hw) (hmn.trans hn) hmidinv hsorted.2
      (by
        intro d hd
        refine ⟨?_, (hbnd d (List.mem_cons_of_mem _ hd)).2⟩
        have := hsorted.1 d.1 (List.mem_map_of_mem _ hd)
        exact Int.ediv_le_ediv hW this)
      hc.2
    refine ⟨after, ?_, haw, han, ?_, fun _ => hex (Or.inl ⟨e1, hfind⟩)⟩
    · simp only [ErrorRateCircuitBreaker.reportAll, hrun]
      exact hafter
    · rw [List.append_cons]; exact hainv

theorem lastEndBucketTime_eq (self : ErrorRateCircuitBreaker) (now : Int)
    (hW : 0 < self.metric_bucket_time_) (hW2 : self.metric_bucket_time_ < 2 ^ 64)
    (hN : 0 < self.metric_num_buckets_) (hN2 : self.metric_num_buckets_ < 2 ^ 64)
    (hnow : now < 2 ^ 64) (hwin : self.metric_num_buckets_ ≤ now / self.metric_bucket_time_) :
    self.lastEndBucketTime now = now / self.metric_bucket_time_ - self.metric_num_buckets_ := by
  unfold ErrorRateCircuitBreaker.lastEndBucketTime
  rw [u64_eq_self (le_of_lt hW) hW2, u64_eq_self (le_of_lt hN) hN2]
  have h0 : 0 ≤ now := by
    by_contra hneg
    have : now / self.metric_bucket_time_ < 0 := Int.ediv_neg' (by omega) hW
    omega
  have h1 : now / self.metric_bucket_time_ ≤ now := Int.ediv_le_self _ h0
  exact u64_eq_self (by omega) (by omega)

/-! ## The expiry sweep -/

theorem expireLoop_entries {σ : Type} (self : ErrorRateCircuitBreaker)
    (I : InstancesCircuitBreakerStatus σ) (now : Int) (m : List (String × ErrorRateStatus))
    (s : σ) :
    (self.expireLoop I now m s).entries =
      m.filter (fun p => decide (¬ u64 (p.2.last_access_time + self.metric_expired_time_) ≤ now)) := by
  induction m generalizing s with
  | nil => rfl
  | cons p m ih =>
    obtain ⟨k, e⟩ := p
    simp only [ErrorRateCircuitBreaker.expireLoop]
    split
    · next h =>
      rw [List.filter_cons_of_neg (by simpa using h)]
      exact ih _
    · next h =>
      rw [List.filter_cons_of_pos (by simpa using h)]
      simp only [ih]

theorem casTable_force_close (t : StatusTable) (k : String) :
    (casTable.TranslateStatus
      (casTable.TranslateStatus t k kCircuitBreakerOpen kCircuitBreakerClose).2 k
      kCircuitBreakerHalfOpen kCircuitBreakerClose).2.state k = kCircuitBreakerClose := by
  show (StatusTable.TranslateStatus
    (StatusTable.TranslateStatus t k kCircuitBreakerOpen kCircuitBreakerClose).2 k
    kCircuitBreakerHalfOpen kCircuitBreakerClose).2.state k = kCircuitBreakerClose
  unfold StatusTable.TranslateStatus
  cases h : t.state k <;> simp [h]

theorem expireLoop_casTable_state (self : ErrorRateCircuitBreaker) (now : Int)
    (m : List (String × ErrorRateStatus)) (t : StatusTable) (id : String) :
    (self.expireLoop casTable now m t).table.state id =
      if id ∈ (m.filter (fun p =>
          decide (u64 (p.2.last_access_time + self.metric_expired_time_) ≤ now))).map Prod.fst
      then kCircuitBreakerClose else t.state id := by
  induction m generalizing t with
  | nil => simp [ErrorRateCircuitBreaker.expireLoop]
  | cons p m ih =>
    obtain ⟨k, e⟩ := p
    simp only [ErrorRateCircuitBreaker.expireLoop]
    split
    · next h =>
      rw [List.filter_cons_of_pos (by simpa using h)]
      show (self.expireLoop casTable now m _).table.state id = _
      rw [ih]
      by_cases hk : id = k
      · subst hk
        rw [casTable_force_close]
        simp
      · rw [casTable_translate_state_ne _ k id _ _ hk, casTable_translate_state_ne _ k id _ _ hk]
        simp only [List.map_cons, List.mem_cons, hk, false_or]
    · next h =>
      rw [List.filter_cons_of_neg (by simpa using h)]
      exact ih _

/-! ## Calls made by the loop -/

theorem evalEntry_calls_cases {σ : Type} (self : ErrorRateCircuitBreaker)
    (I : InstancesCircuitBreakerStatus σ) (now le : Int) (id : String) (e : ErrorRateStatus)
    (s : σ) :
    (self.evalEntry I now le id e s).calls = [] ∨
      ∃ src dst ok, (self.evalEntry I now le id e s).calls = [⟨id, src, dst, ok⟩] := by
  unfold ErrorRateCircuitBreaker.evalEntry
  split
  · split
    · exact Or.inr ⟨_, _, _, rfl⟩
    · exact Or.inl rfl
  · simp only []
    split
    · split
      · exact Or.inr ⟨_, _, _, rfl⟩
      · exact Or.inl rfl
    · split
      · split
        · exact Or.inr ⟨_, _, _, rfl⟩
        · split
          · exact Or.inr ⟨_, _, _, rfl⟩
          · exact Or.inl rfl
      · exact Or.inl rfl

theorem evalLoop_calls_keys {σ : Type} (self : ErrorRateCircuitBreaker)
    (I : InstancesCircuitBreakerStatus σ) (now le : Int)
    (m : List (String × ErrorRateStatus)) (s : σ) :
    ∀ c ∈ (self.evalLoop I now le m s).calls, c.instance_id ∈ m.map Prod.fst := by
  induction m generalizing s with
  | nil => intro c hc; simp [ErrorRateCircuitBreaker.evalLoop] at hc
  | cons p m ih =>
    obtain ⟨k, e⟩ := p
    intro c hc
    simp only [ErrorRateCircuitBreaker.evalLoop, List.mem_append] at hc
    rcases hc with hc | hc
    · rcases evalEntry_calls_cases self I now le k e s with h | ⟨src, dst, ok, h⟩
      · rw [h] at hc; simp at hc
      · rw [h, List.mem_singleton] at hc
        rw [hc]; simp
    · exact List.mem_cons_of_mem _ (ih _ c hc)

theorem evalLoop_calls_le_one {σ : Type} (self : ErrorRateCircuitBreaker)
    (I : InstancesCircuitBreakerStatus σ) (now le : Int)
    (m : List (String × ErrorRateStatus)) (s : σ) (hwk : WellKeyed m) (id : String) :
    ((self.evalLoop I now le m s).calls.filter
      (fun c => decide (c.instance_id = id))).length ≤ 1 := by
  induction m generalizing s with
  | nil => simp [ErrorRateCircuitBreaker.evalLoop]
  | cons p m ih =>
    obtain ⟨k, e⟩ := p
    unfold WellKeyed at hwk
    rw [List.map_cons, List.pairwise_cons] at hwk
    simp only [ErrorRateCircuitBreaker.evalLoop, List.filter_append, List.length_append]
    by_cases hk : k = id
    · -- the calls of the later entries are for other instances
      have hrest : ((self.evalLoop I now le m (self.evalEntry I now le k e s).table).calls.filter
          (fun c => decide (c.instance_id = id))) = [] := by
        rw [List.filter_eq_nil_iff]
        intro c hc
        have hmem := evalLoop_calls_keys self I now le m _ c hc
        have hlt := hwk.1 _ hmem
        have : c.instance_id ≠ id := by
          intro heq
          rw [heq, ← hk] at hlt
          exact lt_irrefl _ hlt
        simpa using this
      rw [hrest]
      rcases evalEntry_calls_cases self I now le k e s with h | ⟨src, dst, ok, h⟩
      · rw [h]; simp
      · rw [h]
        simp only [List.length_nil, add_zero]
        exact le_trans (List.length_filter_le _ _) (by simp)
    · have hfirst : ((self.evalEntry I now le k e s).calls.filter
          (fun c => decide (c.instance_id = id))) = [] := by
        rcases evalEntry_calls_cases self I now le k e s with h | ⟨src, dst, ok, h⟩
        · rw [h]; rfl
        · rw [h]; simp [hk]
      rw [hfirst]
      simp only [List.length_nil, zero_add]
      exact ih _ hwk.2

/-! ## The `float` model -/

theorem log2Floor_spec (fuel n : Nat) (h1 : 1 ≤ n) (h2 : n ≤ fuel) :
    2 ^ log2Floor fuel n ≤ n ∧ n < 2 ^ (log2Floor fuel n + 1) := by
  induction fuel generalizing n with
  | zero => omega
  | succ fuel ih =>
    unfold log2Floor
    split
    · simp; omega
    · have := ih (n / 2) (by omega) (by omega)
      rw [pow_succ, pow_succ]
      rw [pow_succ] at this
      omega

theorem floatOfNat_values :
    floatOfNat 16777216 = (8388608, 1) ∧ floatOfNat 16777217 = (8388608, 1) ∧
      floatOfNat 16777219 = (8388610, 1) ∧ floatOfNat 86400000 = (10800000, 3) ∧
      floatDiv (floatOfNat 1) (floatOfNat 3) = (11184811, -25) ∧
      bucketTimeOf 60000 12 = 5000 ∧ bucketTimeOf 1000 10 = 100 ∧ bucketTimeOf 1000 3 = 334 := by
  decide

theorem log2Floor_unique (fuel n x : Nat) (h1 : 1 ≤ n) (h2 : n ≤ fuel)
    (hx : 2 ^ x ≤ n ∧ n < 2 ^ (x + 1)) : log2Floor fuel n = x := by
  have hs := log2Floor_spec fuel n h1 h2
  by_contra hne
  rcases Nat.lt_or_gt_of_ne hne with h | h
  · have : 2 ^ (log2Floor fuel n + 1) ≤ 2 ^ x := Nat.pow_le_pow_right (by decide) h
    omega
  · have : 2 ^ (x + 1) ≤ 2 ^ log2Floor fuel n := Nat.pow_le_pow_right (by decide) h
    omega

theorem log2Floor_double (n : Nat) (h1 : 1 ≤ n) :
    log2Floor (2 * n) (2 * n) = log2Floor n n + 1 := by
  have hs := log2Floor_spec n n h1 (le_refl _)
  apply log2Floor_unique _ _ _ (by omega) (le_refl _)
  rw [pow_succ, pow_succ]
  rw [pow_succ] at hs
  omega

theorem ratLog2_one (n : Nat) (h1 : 1 ≤ n) : ratLog2 n 1 = (log2Floor n n : Int) := by
  have hs := log2Floor_spec n n h1 (le_refl _)
  unfold ratLog2
  have h0 : log2Floor 1 1 = 0 := by decide
  simp only [h0, Nat.cast_zero, sub_zero]
  rw [if_pos (Int.natCast_nonneg _)]
  simp only [Int.toNat_ofNat, one_mul]
  rw [if_pos (by simpa using hs.1)]

theorem roundCore_scale (num den : Nat) :
    (if 2 * ((2 * num) % (2 * den)) < 2 * den then (2 * num) / (2 * den)
      else if 2 * den < 2 * ((2 * num) % (2 * den)) then (2 * num) / (2 * den) + 1
      else if ((2 * num) / (2 * den)) % 2 = 0 then (2 * num) / (2 * den)
      else (2 * num) / (2 * den) + 1) =
    (if 2 * (num % den) < den then num / den
      else if den < 2 * (num % den) then num / den + 1
      else if (num / den) % 2 = 0 then num / den else num / den + 1) := by
  rw [Nat.mul_div_mul_left _ _ (by decide : 0 < 2), Nat.mul_mod_mul_left]
  split_ifs <;> omega

theorem roundFloat_double (K : Nat) (h1 : 1 ≤ K) :
    roundFloat (2 * K) 1 = ((roundFloat K 1).1, (roundFloat K 1).2 + 1) := by
  have hr1 := ratLog2_one K h1
  have hr2 := ratLog2_one (2 * K) (by omega)
  rw [log2Floor_double K h1] at hr2
  unfold roundFloat
  rw [if_neg (by omega), if_neg (by omega)]
  simp only [hr1, hr2]
  generalize log2Floor K K = e
  by_cases he : 23 ≤ e
  · obtain ⟨d, rfl⟩ : ∃ d, e = 23 + d := ⟨e - 23, by omega⟩
    have hs : ((23 + d : Nat) : Int) - 23 = (d : Int) := by push_cast; ring
    have hs2 : ((23 + d + 1 : Nat) : Int) - 23 = ((d + 1 : Nat) : Int) := by push_cast; ring
    rw [hs, hs2]
    simp only [Int.natCast_nonneg, if_true, Int.toNat_ofNat, one_mul]
    have hp : 2 ^ (d + 1) = 2 * 2 ^ d := by rw [pow_succ]; ring
    rw [hp, roundCore_scale K (2 ^ d)]
    simp
  · obtain ⟨d, hd⟩ : ∃ d, e + d = 22 := ⟨22 - e, by omega⟩
    have hs : (e : Int) - 23 = -((d + 1 : Nat) : Int) := by push_cast; omega
    have hs2 : ((e + 1 : Nat) : Int) - 23 = -(d : Int) := by push_cast; omega
    rw [hs, hs2]
    have hneg : ¬ (0 : Int) ≤ -((d + 1 : Nat) : Int) := by push_cast; omega
    simp only [hneg, if_false, neg_neg, Int.toNat_ofNat]
    cases d with
    | zero =>
      simp [Nat.mod_one, mul_comm]
    | succ d =>
      have hneg2 : ¬ (0 : Int) ≤ -((d + 1 : Nat) : Int) := by push_cast; omega
      simp only [hneg2, if_false, neg_neg, Int.toNat_ofNat]
      have hp : 2 * K * 2 ^ (d + 1) = K * 2 ^ (d + 1 + 1) := by
        rw [pow_succ 2 (d + 1)]; ring
      rw [hp]
      simp

theorem roundFloat_one_pos (K : Nat) (h1 : 1 ≤ K) :
    ∃ M : Nat, 1 ≤ M ∧ (roundFloat K 1).1 = (M : Int) := by
  have hr1 := ratLog2_one K h1
  have hspec := log2Floor_spec K K h1 (le_refl _)
  unfold roundFloat
  rw [if_neg (by omega)]
  simp only [hr1]
  refine ⟨_, ?_, rfl⟩
  generalize log2Floor K K = e at hspec
  by_cases he : 23 ≤ e
  · obtain ⟨d, rfl⟩ : ∃ d, e = 23 + d := ⟨e - 23, by omega⟩
    have hs : ((23 + d : Nat) : Int) - 23 = (d : Int) := by push_cast; ring
    rw [hs]
    simp only [Int.natCast_nonneg, if_true, Int.toNat_ofNat, one_mul]
    have hq : 1 ≤ K / 2 ^ d := by
      apply Nat.div_pos _ (by positivity)
      have : 2 ^ d ≤ 2 ^ (23 + d) := Nat.pow_le_pow_right (by decide) (by omega)
      omega
    split_ifs <;> omega
  · obtain ⟨d, hd⟩ : ∃ d, e + d = 22 := ⟨22 - e, by omega⟩
    have hs : (e : Int) - 23 = -((d + 1 : Nat) : Int) := by push_cast; omega
    rw [hs]
    have hneg : ¬ (0 : Int) ≤ -((d + 1 : Nat) : Int) := by push_cast; omega
    simp only [hneg, if_false, neg_neg, Int.toNat_ofNat]
    have hq : 1 ≤ K * 2 ^ (d + 1) := Nat.mul_pos (by omega) (by positivity)
    simp only [Nat.mod_one, Nat.div_one]
    split_ifs <;> omega

theorem roundFloat_half (M : Nat) (h1 : 1 ≤ M) : roundFloat M (2 * M) = (8388608, -24) := by
  have hlog : ratLog2 M (2 * M) = -1 := by
    unfold ratLog2
    rw [log2Floor_double M h1]
    have hk : ((log2Floor M M : Nat) : Int) - ((log2Floor M M + 1 : Nat) : Int) = -1 := by
      push_cast; ring
    simp only [hk]
    have h01 : ¬ (0 : Int) ≤ -1 := by decide
    have ht : (-(-1 : Int)).toNat = 1 := by decide
    simp only [h01, if_false, ht]
    rw [if_pos (by simp; omega)]
  unfold roundFloat
  rw [if_neg (by omega)]
  simp only [hlog]
  have hs : ¬ (0 : Int) ≤ -1 - 23 := by decide
  simp only [hs, if_false]
  have ht : (-(-1 - 23 : Int)).toNat = 24 := by decide
  rw [ht]
  have hq : M * 2 ^ 24 / (2 * M) = 8388608 := by
    have : M * 2 ^ 24 = (2 * M) * 8388608 := by ring
    rw [this, Nat.mul_div_cancel_left _ (by omega)]
  have hr : M * 2 ^ 24 % (2 * M) = 0 := by
    have : M * 2 ^ 24 = (2 * M) * 8388608 := by ring
    rw [this, Nat.mul_mod_right]
  rw [hq, hr]
  simp

theorem floatDiv_half (K : Nat) (h1 : 1 ≤ K) :
    floatDiv (floatOfNat K) (floatOfNat (2 * K)) = (8388608, -24) := by
  obtain ⟨M, hM, hMeq⟩ := roundFloat_one_pos K h1
  unfold floatDiv floatOfNat
  rw [roundFloat_double K h1]
  simp only [hMeq, Int.toNat_ofNat]
  have h1 : ((roundFloat K 1).2 - ((roundFloat K 1).2 + 1)).toNat = 0 := by
    have : (roundFloat K 1).2 - ((roundFloat K 1).2 + 1) = -1 := by ring
    rw [this]; rfl
  have h2 : ((roundFloat K 1).2 + 1 - (roundFloat K 1).2).toNat = 1 := by
    have : (roundFloat K 1).2 + 1 - (roundFloat K 1).2 = 1 := by ring
    rw [this]; rfl
  rw [h1, h2]
  have : M * 2 ^ 1 = 2 * M := by ring
  rw [pow_zero, mul_one, this]
  exact roundFloat_half M hM

theorem floatOfInt_natCast (n : Nat) : floatOfInt (n : Int) = floatOfNat n := by
  unfold floatOfInt
  rw [if_neg (by omega), Int.toNat_ofNat]

theorem floatQuot_half (K : Nat) (h1 : 1 ≤ K) :
    floatQuot (floatOfNat K) (floatOfNat (2 * K)) = (8388608, -24) := by
  obtain ⟨M, hM, hMeq⟩ := roundFloat_one_pos K h1
  have hdiv := floatDiv_half K h1
  have hb : floatOfNat (2 * K) = ((floatOfNat K).1, (floatOfNat K).2 + 1) :=
    roundFloat_double K h1
  have hM2 : (floatOfNat K).1 = (M : Int) := hMeq
  rw [hb] at hdiv ⊢
  generalize floatOfNat K = a at hdiv hM2 ⊢
  obtain ⟨m, s⟩ := a
  simp only at hM2
  subst hM2
  unfold floatQuot
  simp only [Int.natAbs_ofNat]
  rw [if_pos trivial]
  exact hdiv

theorem errorRateReached_half (K : Nat) (h1 : 1 ≤ K) (threshold : ℚ) :
    errorRateReached (K : Int) (2 * (K : Int)) threshold = decide (1 / 2 ≥ threshold) := by
  unfold errorRateReached
  rw [if_neg (by omega)]
  have h2 : (2 * (K : Int)) = ((2 * K : Nat) : Int) := by push_cast; ring
  rw [h2, floatOfInt_natCast, floatOfInt_natCast, floatQuot_half K h1]
  have hv : floatValue (8388608, -24) = 1 / 2 := by
    unfold floatValue
    norm_num
  rw [hv]

theorem errorRateReached_iff (err_req total_req : Int) (threshold : ℚ)
    (h : total_req ≠ 0) :
    errorRateReached err_req total_req threshold = true ↔
      floatValue (floatQuot (floatOfInt err_req) (floatOfInt total_req)) ≥ threshold := by
  unfold errorRateReached
  rw [if_neg h, decide_eq_true_eq]

/-! ## One instance through the loop and the sweep, with the table of the spec -/

theorem mapFind_split (m : List (String × ErrorRateStatus)) (id : String) (e : ErrorRateStatus)
    (h : mapFind m id = some e) :
    ∃ pre post, m = pre ++ (id, e) :: post ∧ id ∉ pre.map Prod.fst := by
  induction m with
  | nil => simp [mapFind] at h
  | cons p m ih =>
    obtain ⟨k, v⟩ := p
    simp only [mapFind] at h
    split at h
    · next hk =>
      subst hk
      have : v = e := Option.some.inj h
      subst this
      exact ⟨[], m, rfl, by simp⟩
    · next hk =>
      obtain ⟨pre, post, hm, hpre⟩ := ih h
      refine ⟨(k, v) :: pre, post, by rw [hm]; rfl, ?_⟩
      simp only [List.map_cons, List.mem_cons, not_or]
      exact ⟨fun h => hk h.symm, hpre⟩

theorem mapFind_of_mem (m : List (String × ErrorRateStatus)) (id : String)
    (e : ErrorRateStatus) (hwk : WellKeyed m) (h : (id, e) ∈ m) : mapFind m id = some e := by
  induction m with
  | nil => simp at h
  | cons p m ih =>
    obtain ⟨k, v⟩ := p
    unfold WellKeyed at hwk
    rw [List.map_cons, List.pairwise_cons] at hwk
    simp only [mapFind]
    rcases List.mem_cons.mp h with h1 | h1
    · have hk : id = k := congrArg Prod.fst h1
      have hv : e = v := congrArg Prod.snd h1
      rw [if_pos hk.symm, hv]
    · have hlt := hwk.1 id (List.mem_map_of_mem Prod.fst h1)
      rw [if_neg (fun hk => by rw [hk] at hlt; exact lt_irrefl _ hlt)]
      exact ih hwk.2 h1

theorem mapFind_filter (m : List (String × ErrorRateStatus)) (id : String)
    (e : ErrorRateStatus) (p : String × ErrorRateStatus → Bool)
    (h : mapFind m id = some e) (hp : p (id, e) = true) :
    mapFind (m.filter p) id = some e := by
  induction m with
  | nil => simp [mapFind] at h
  | cons x m ih =>
    obtain ⟨k, v⟩ := x
    simp only [mapFind] at h
    split at h
    · next hk =>
      subst hk
      have : v = e := Option.some.inj h
      subst this
      rw [List.filter_cons_of_pos hp]
      simp [mapFind]
    · next hk =>
      by_cases hx : p (k, v) = true
      · rw [List.filter_cons_of_pos hx]
        simp only [mapFind]
        rw [if_neg hk]
        exact ih h
      · rw [List.filter_cons_of_neg hx]
        exact ih h

theorem translate_casTable_congr (self : ErrorRateCircuitBreaker) (now : Int) (id : String)
    (e : ErrorRateStatus) (t u : StatusTable) (src dst : CircuitBreakerStatus) (c : Bool)
    (hs : u.state id = t.state id) :
    (self.translate casTable now id e u src dst c).entry =
        (self.translate casTable now id e t src dst c).entry ∧
      (self.translate casTable now id e u src dst c).calls =
        (self.translate casTable now id e t src dst c).calls ∧
      (self.translate casTable now id e u src dst c).table.state id =
        (self.translate casTable now id e t src dst c).table.state id := by
  simp only [ErrorRateCircuitBreaker.translate, casTable, StatusTable.TranslateStatus, hs]
  by_cases h : t.state id = src <;> simp [h, hs]

theorem evalEntry_casTable_congr (self : ErrorRateCircuitBreaker) (now le : Int) (id : String)
    (e : ErrorRateStatus) (t u : StatusTable) (hs : u.state id = t.state id)
    (ha : u.auto_half_open = t.auto_half_open) :
    (self.evalEntry casTable now le id e u).entry = (self.evalEntry casTable now le id e t).entry ∧
      (self.evalEntry casTable now le id e u).calls =
        (self.evalEntry casTable now le id e t).calls ∧
      (self.evalEntry casTable now le id e u).table.state id =
        (self.evalEntry casTable now le id e t).table.state id := by
  have hau : casTable.AutoHalfOpenEnable u = casTable.AutoHalfOpenEnable t := ha
  unfold ErrorRateCircuitBreaker.evalEntry
  rw [hau]
  split
  · split
    · exact translate_casTable_congr self now id e t u _ _ _ hs
    · exact ⟨rfl, rfl, hs⟩
  · simp only []
    split
    · split
      · exact translate_casTable_congr self now id e t u _ _ _ hs
      · exact ⟨rfl, rfl, hs⟩
    · split
      · split
        · exact translate_casTable_congr self now id e t u _ _ _ hs
        · split
          · exact translate_casTable_congr self now id e t u _ _ _ hs
          · exact ⟨rfl, rfl, hs⟩
      · exact ⟨rfl, rfl, hs⟩

theorem casTable_translate_auto (t : StatusTable) (k : String)
    (src dst : CircuitBreakerStatus) :
    (casTable.TranslateStatus t k src dst).2.auto_half_open = t.auto_half_open := by
  show (StatusTable.TranslateStatus t k src dst).2.auto_half_open = _
  unfold StatusTable.TranslateStatus
  split <;> rfl

theorem evalLoop_casTable_auto (self : ErrorRateCircuitBreaker) (now le : Int)
    (m : List (String × ErrorRateStatus)) (t : StatusTable) :
    (self.evalLoop casTable now le m t).table.auto_half_open = t.auto_half_open := by
  induction m generalizing t with
  | nil => rfl
  | cons p m ih =>
    obtain ⟨k, v⟩ := p
    simp only [ErrorRateCircuitBreaker.evalLoop]
    rw [ih]
    rcases evalEntry_table_cases self casTable now le k v t with h1 | ⟨src, dst, h1⟩
    · rw [h1]
    · rw [h1]; exact casTable_translate_auto t k src dst

theorem evalLoop_casTable_at (self : ErrorRateCircuitBreaker) (now le : Int)
    (m : List (String × ErrorRateStatus)) (t : StatusTable) (id : String)
    (e : ErrorRateStatus) (hwk : WellKeyed m) (h : mapFind m id = some e) :
    mapFind (self.evalLoop casTable now le m t).entries id =
        some (self.evalEntry casTable now le id e t).entry ∧
      (self.evalLoop casTable now le m t).table.state id =
        (self.evalEntry casTable now le id e t).table.state id := by
  obtain ⟨pre, post, hm, hpre⟩ := mapFind_split m id e h
  subst hm
  have hpost := hwk.not_mem_post
  have hcong := evalEntry_casTable_congr self now le id e t
    (self.evalLoop casTable now le pre t).table
    (evalLoop_casTable_state_of_not_mem self now le id pre t hpre)
    (evalLoop_casTable_auto self now le pre t)
  rw [evalLoop_append]
  constructor
  · show mapFind (_ ++ (id, _) :: _) id = _
    rw [mapFind_append_cons _ _ _ _ (by rw [evalLoop_keys]; exact hpre), hcong.1]
  · show (self.evalLoop casTable now le post _).table.state id = _
    rw [evalLoop_casTable_state_of_not_mem self now le id post _ hpost, hcong.2.2]

theorem evalLoop_wellKeyed {σ : Type} (self : ErrorRateCircuitBreaker)
    (I : InstancesCircuitBreakerStatus σ) (now le : Int)
    (m : List (String × ErrorRateStatus)) (s : σ) (hwk : WellKeyed m) :
    WellKeyed (self.evalLoop I now le m s).entries := by
  unfold WellKeyed
  rw [evalLoop_keys]
  exact hwk

theorem expireLoop_casTable_at (self : ErrorRateCircuitBreaker) (sweep : Int)
    (m : List (String × ErrorRateStatus)) (t : StatusTable) (id : String)
    (e : ErrorRateStatus) (hwk : WellKeyed m) (h : mapFind m id = some e)
    (hkeep : ¬ u64 (e.last_access_time + self.metric_expired_time_) ≤ sweep) :
    mapFind (self.expireLoop casTable sweep m t).entries id = some e ∧
      (self.expireLoop casTable sweep m t).table.state id = t.state id := by
  constructor
  · rw [expireLoop_entries]
    exact mapFind_filter m id e _ h (by simpa using hkeep)
  · rw [expireLoop_casTable_state, if_neg]
    rw [List.mem_map]
    rintro ⟨p, hp, hpid⟩
    rw [List.mem_filter] at hp
    obtain ⟨k, v⟩ := p
    have hk : k = id := hpid
    subst hk
    have := mapFind_of_mem m k v hwk hp.1
    rw [h] at this
    have hv : e = v := Option.some.inj this
    subst hv
    exact hkeep (by simpa using hp.2)

theorem evalEntry_last_access {σ : Type} (self : ErrorRateCircuitBreaker)
    (I : InstancesCircuitBreakerStatus σ) (now le : Int) (id : String) (e : ErrorRateStatus)
    (s : σ) : (self.evalEntry I now le id e s).entry.last_access_time = e.last_access_time := by
  have ht : ∀ src dst c,
      (self.translate I now id e s src dst c).entry.last_access_time = e.last_access_time := by
    intro src dst c
    simp only [ErrorRateCircuitBreaker.translate]
    split <;> rfl
  unfold ErrorRateCircuitBreaker.evalEntry
  split
  · split
    · exact ht _ _ _
    · rfl
  · simp only []
    split
    · split
      · exact ht _ _ _
      · rfl
    · split
      · split
        · exact ht _ _ _
        · split
          · exact ht _ _ _
          · rfl
      · rfl

theorem TimingCircuitBreak_casTable_at (self : ErrorRateCircuitBreaker) (now sweep : Int)
    (t : StatusTable) (id : String) (e : ErrorRateStatus)
    (hW : u64 self.metric_bucket_time_ ≠ 0) (hwk : WellKeyed self.error_rate_map_)
    (h : mapFind self.error_rate_map_ id = some e)
    (hkeep : ¬ u64 (e.last_access_time + self.metric_expired_time_) ≤ sweep) :
    ∃ after table calls,
      self.TimingCircuitBreak casTable now sweep t = some (kReturnOk, after, table, calls) ∧
      mapFind after.error_rate_map_ id =
        some (self.evalEntry casTable now (self.lastEndBucketTime now) id e t).entry ∧
      table.state id =
        (self.evalEntry casTable now (self.lastEndBucketTime now) id e t).table.state id := by
  have hloop := evalLoop_casTable_at self now (self.lastEndBucketTime now)
    self.error_rate_map_ t id e hwk h
  have hsweep := expireLoop_casTable_at
    { self with error_rate_map_ :=
        (self.evalLoop casTable now (self.lastEndBucketTime now) self.error_rate_map_ t).entries }
    sweep
    (self.evalLoop casTable now (self.lastEndBucketTime now) self.error_rate_map_ t).entries
    (self.evalLoop casTable now (self.lastEndBucketTime now) self.error_rate_map_ t).table id
    (self.evalEntry casTable now (self.lastEndBucketTime now) id e t).entry
    (evalLoop_wellKeyed self casTable now _ _ t hwk) hloop.1
    (by rw [evalEntry_last_access]; exact hkeep)
  refine ⟨_, _, _, TimingCircuitBreak_eq self casTable now sweep t hW, hsweep.1, ?_⟩
  exact hsweep.2.trans hloop.2

/-! ## Runs of reports: key order, status and window counts -/

theorem mapInsert_keys (m : List (String × ErrorRateStatus)) (id : String)
    (v : ErrorRateStatus) :
    ∀ k ∈ (mapInsert m id v).map Prod.fst, k = id ∨ k ∈ m.map Prod.fst := by
  induction m with
  | nil => intro k hk; simp [mapInsert] at hk; exact Or.inl hk
  | cons p m ih =>
    obtain ⟨a, w⟩ := p
    intro k hk
    simp only [mapInsert] at hk
    split at hk
    · next h =>
      simp only [List.map_cons, List.mem_cons] at hk ⊢
      rcases hk with hk | hk
      · exact Or.inr (Or.inl hk)
      · exact Or.inr (Or.inr hk)
    · split at hk
      · simp only [List.map_cons, List.mem_cons] at hk ⊢
        rcases hk with hk | hk | hk
        · exact Or.inl hk
        · exact Or.inr (Or.inl hk)
        · exact Or.inr (Or.inr hk)
      · simp only [List.map_cons, List.mem_cons] at hk ⊢
        rcases hk with hk | hk
        · exact Or.inr (Or.inl hk)
        · rcases ih k hk with h | h
          · exact Or.inl h
          · exact Or.inr (Or.inr h)

theorem mapInsert_wellKeyed (m : List (String × ErrorRateStatus)) (id : String)
    (v : ErrorRateStatus) (hwk : WellKeyed m) : WellKeyed (mapInsert m id v) := by
  induction m with
  | nil => simp [mapInsert, WellKeyed]
  | cons p m ih =>
    obtain ⟨a, w⟩ := p
    unfold WellKeyed at hwk ⊢
    rw [List.map_cons, List.pairwise_cons] at hwk
    simp only [mapInsert]
    split
    · next h =>
      rw [List.map_cons, List.pairwise_cons]
      exact hwk
    · next h =>
      split
      · next hlt =>
        rw [List.map_cons, List.pairwise_cons, List.map_cons, List.pairwise_cons]
        refine ⟨?_, hwk⟩
        intro k hk
        rcases List.mem_cons.mp hk with hk | hk
        · rw [hk]; exact hlt
        · exact lt_trans hlt (hwk.1 k hk)
      · next hlt =>
        rw [List.map_cons, List.pairwise_cons]
        refine ⟨?_, ih hwk.2⟩
        intro k hk
        rcases mapInsert_keys m id v k hk with hk | hk
        · rw [hk]
          rcases lt_trichotomy a id with h1 | h1 | h1
          · exact h1
          · exact absurd h1 h
          · exact absurd h1 hlt
        · exact hwk.1 k hk

theorem RealTimeCircuitBreak_entry {σ : Type} (self : ErrorRateCircuitBreaker)
    (heap : Nat → Int × Int) (id : String) (ret : CallRetStatus) (now : Int) (s : σ)
    (hW : 0 < self.metric_bucket_time_) (hW2 : self.metric_bucket_time_ < 2 ^ 64)
    (hN : 0 < self.metric_num_buckets_) (hN2 : self.metric_num_buckets_ < 2 ^ 64)
    (hlen : ∀ e, mapFind self.error_rate_map_ id = some e →
      (e.buckets.length : Int) = self.metric_num_buckets_) :
    ∃ (after : ErrorRateCircuitBreaker) (e1 : ErrorRateStatus),
      self.RealTimeCircuitBreak heap id ret now s = some (kReturnOk, after, s) ∧
      after = { self with error_rate_map_ := after.error_rate_map_ } ∧
      mapFind after.error_rate_map_ id = some e1 ∧
      e1.status = (self.entryOrFresh heap id 0).status ∧
      e1.last_update_time = (self.entryOrFresh heap id 0).last_update_time ∧
      e1.last_access_time = now ∧
      (WellKeyed self.error_rate_map_ → WellKeyed after.error_rate_map_) := by
  obtain ⟨prev, _, hrun⟩ := RealTimeCircuitBreak_eq self heap id ret now s hW hW2 hN hN2 hlen
  have hst : ∀ a : Int, (self.entryOrFresh heap id a).status =
        (self.entryOrFresh heap id 0).status ∧
      (self.entryOrFresh heap id a).last_update_time =
        (self.entryOrFresh heap id 0).last_update_time := by
    intro a
    unfold ErrorRateCircuitBreaker.entryOrFresh
    cases mapFind self.error_rate_map_ id <;> exact ⟨rfl, rfl⟩
  refine ⟨_, _, hrun, rfl, mapFind_mapInsert_self _ _ _, (hst now).1, (hst now).2, rfl, ?_⟩
  intro hwk
  exact mapInsert_wellKeyed _ _ _ (mapInsert_wellKeyed _ _ _ hwk)

theorem reportAll_entry (heap : Nat → Int × Int) (id : String) (width n : Int)
    (hW : 0 < width) (hW2 : width < 2 ^ 64) (hN : 0 < n) (hN2 : n < 2 ^ 64)
    (calls : List (Int × CallRetStatus)) :
    ∀ (self after : ErrorRateCircuitBreaker),
      self.metric_bucket_time_ = width → self.metric_num_buckets_ = n →
      (∀ e, mapFind self.error_rate_map_ id = some e → (e.buckets.length : Int) = n) →
      self.reportAll heap id calls = some after →
      after = { self with error_rate_map_ := after.error_rate_map_ } ∧
      (after.entryOrFresh heap id 0).status = (self.entryOrFresh heap id 0).status ∧
      (after.entryOrFresh heap id 0).last_update_time =
        (self.entryOrFresh heap id 0).last_update_time ∧
      (WellKeyed self.error_rate_map_ → WellKeyed after.error_rate_map_) := by
  induction calls with
  | nil =>
    intro self after _ _ _ hrun
    have : self = after := Option.some.inj hrun
    subst this
    exact ⟨rfl, rfl, rfl, fun h => h⟩
  | cons c rest ih =>
    intro self after hw hn hlen hrun
    obtain ⟨mid, e1, hstep, hmid, hfind, hst, hlu, _, hwk⟩ :=
      RealTimeCircuitBreak_entry self heap id c.2 c.1 ()
        (by rw [hw]; exact hW) (by rw [hw]; exact hW2) (by rw [hn]; exact hN)
        (by rw [hn]; exact hN2) (by rw [hn]; exact hlen)
    obtain ⟨prev, _, hrun2⟩ := RealTimeCircuitBreak_eq self heap id c.2 c.1 ()
        (by rw [hw]; exact hW) (by rw [hw]; exact hW2) (by rw [hn]; exact hN)
        (by rw [hn]; exact hN2) (by rw [hn]; exact hlen)
    simp only [ErrorRateCircuitBreaker.reportAll, hstep] at hrun
    have hmidlen : ∀ e, mapFind mid.error_rate_map_ id = some e →
        (e.buckets.length : Int) = n := by
      intro e he
      rw [hstep] at hrun2
      have hmideq := (Prod.mk.inj (Prod.mk.inj (Option.some.inj hrun2)).2).1
      rw [hmideq] at he
      rw [mapFind_mapInsert_self] at he
      have := Option.some.inj he
      rw [← this]
      show (((self.entryOrFresh heap id c.1).buckets.set _ _).length : Int) = n
      rw [List.length_set]
      have h := entryOrFresh_length self heap id c.1 (by rw [hn]; exact hN)
        (by rw [hn]; exact hlen)
      rw [hn] at h
      exact h
    have hmw : mid.metric_bucket_time_ = width := by rw [hmid]; exact hw
    have hmn : mid.metric_num_buckets_ = n := by rw [hmid]; exact hn
    obtain ⟨ha, hs2, hl2, hwk2⟩ := ih mid after hmw hmn hmidlen hrun
    refine ⟨?_, ?_, ?_, fun h => hwk2 (hwk h)⟩
    · rw [ha, hmid]
    · rw [hs2, entryOrFresh_of_find mid heap id 0 e1 hfind, hst]
    · rw [hl2, entryOrFresh_of_find mid heap id 0 e1 hfind, hlu]

theorem reportAll_window_counts (self : ErrorRateCircuitBreaker) (heap : Nat → Int × Int)
    (id : String) (calls : List (Int × CallRetStatus)) (now : Int)
    (hW : 0 < self.metric_bucket_time_) (hW2 : self.metric_bucket_time_ < 2 ^ 64)
    (hN : 0 < self.metric_num_buckets_) (hN2 : self.metric_num_buckets_ < 2 ^ 64)
    (hfresh : ∀ e, mapFind self.error_rate_map_ id = some e →
      (e.buckets.length : Int) = self.metric_num_buckets_ ∧
      ∀ bk ∈ e.buckets, bk.bucket_time = 0)
    (hsorted : (calls.map Prod.fst).Pairwise (fun a b => a ≤ b))
    (hrange : ∀ c ∈ calls, 0 ≤ c.1 ∧ c.1 ≤ now)
    (hnow : now < 2 ^ 64)
    (hwin : self.metric_num_buckets_ ≤ now / self.metric_bucket_time_) :
    ∃ after : ErrorRateCircuitBreaker,
      self.reportAll heap id calls = some after ∧
      (calls ≠ [] → ∃ e, mapFind after.error_rate_map_ id = some e) ∧
      ∀ e, mapFind after.error_rate_map_ id = some e →
        BucketsCount after.metric_num_buckets_ (after.lastEndBucketTime now) e.buckets =
          (callsAfter self.metric_bucket_time_
              (now / self.metric_bucket_time_ - self.metric_num_buckets_) calls,
            failuresAfter self.metric_bucket_time_
              (now / self.metric_bucket_time_ - self.metric_num_buckets_) calls) := by
  have hinit : WindowInv self.metric_num_buckets_ self.metric_bucket_time_ 0
      (self.entryOrFresh heap id 0).buckets [] := by
    cases hf : mapFind self.error_rate_map_ id with
    | none =>
      have : (self.entryOrFresh heap id 0).buckets =
          newBuckets heap self.metric_num_buckets_ := by
        unfold ErrorRateCircuitBreaker.entryOrFresh; rw [hf]; rfl
      rw [this]
      exact WindowInv_zero _ _ _
        (by rw [newBuckets_length]; exact Int.toNat_of_nonneg (le_of_lt hN))
        (newBuckets_bucket_time heap _)
    | some e =>
      rw [entryOrFresh_of_find self heap id 0 e hf]
      exact WindowInv_zero _ _ _ (hfresh e hf).1 (hfresh e hf).2
  obtain ⟨after, hafter, haw, han, hinv, hex⟩ :=
    reportAll_inv heap id self.metric_bucket_time_ self.metric_num_buckets_
      (now / self.metric_bucket_time_) hW hW2 hN hN2 calls self [] 0 rfl rfl hinit hsorted
      (by
        intro c hc
        have := hrange c hc
        exact ⟨Int.ediv_nonneg this.1 (le_of_lt hW), Int.ediv_le_ediv hW this.2⟩)
      (by omega)
  refine ⟨after, hafter, fun hne => hex (Or.inr hne), ?_⟩
  intro e he
  rw [entryOrFresh_of_find after heap id 0 e he, List.nil_append] at hinv
  rw [lastEndBucketTime_eq after now (by rw [haw]; exact hW) (by rw [haw]; exact hW2)
    (by rw [han]; exact hN) (by rw [han]; exact hN2) hnow (by rw [haw, han]; exact hwin),
    haw, han, BucketsCount_eq_sum _ _ _ hinv.1]
  obtain ⟨ht, he2⟩ := hinv.2.2 (now / self.metric_bucket_time_ - self.metric_num_buckets_)
    (by omega) (by omega)
  rw [ht, he2]

theorem callsAfter_all (width bound : Int) (cs : List (Int × CallRetStatus))
    (h : ∀ c ∈ cs, bound < c.1 / width) : callsAfter width bound cs = cs.length := by
  unfold callsAfter
  congr 1
  rw [List.countP_eq_length]
  intro c hc
  simpa using h c hc

theorem failuresAfter_all (width bound : Int) (cs : List (Int × CallRetStatus))
    (h : ∀ c ∈ cs, bound < c.1 / width) (hfail : ∀ c ∈ cs, c.2 ≠ kCallRetOk) :
    failuresAfter width bound cs = cs.length := by
  unfold failuresAfter
  congr 1
  rw [List.countP_eq_length]
  intro c hc
  simpa using ⟨h c hc, hfail c hc⟩

theorem failuresAfter_none (width bound : Int) (cs : List (Int × CallRetStatus))
    (hok : ∀ c ∈ cs, c.2 = kCallRetOk) : failuresAfter width bound cs = 0 := by
  unfold failuresAfter
  have : cs.countP (fun c => decide (bound < c.1 / width) && decide (c.2 ≠ kCallRetOk)) = 0 := by
    rw [List.countP_eq_zero]
    intro c hc
    simp [hok c hc]
  rw [this]; rfl

theorem failuresAfter_concat (width bound : Int) (as bs : List (Int × CallRetStatus)) :
    failuresAfter width bound (as ++ bs) =
      failuresAfter width bound as + failuresAfter width bound bs := by
  unfold failuresAfter
  rw [List.countP_append]
  push_cast
  rfl

theorem evalEntry_half_failures (self : ErrorRateCircuitBreaker) (now le : Int) (id : String)
    (e : ErrorRateStatus) (t : StatusTable) (K : Nat)
    (hst : e.status = kCircuitBreakerClose) (hts : t.state id = kCircuitBreakerClose)
    (hvol : 0 < self.request_volume_threshold_) (hK : self.request_volume_threshold_ ≤ K)
    (hcnt : BucketsCount self.metric_num_buckets_ le e.buckets = (2 * (K : Int), (K : Int))) :
    ((self.evalEntry casTable now le id e t).entry.status = kCircuitBreakerClose ↔
        1 / 2 < self.error_rate_threshold_) ∧
      (¬ 1 / 2 < self.error_rate_threshold_ →
        (self.evalEntry casTable now le id e t).entry.status = kCircuitBreakerOpen ∧
        (self.evalEntry casTable now le id e t).entry.last_update_time = now) ∧
      (self.evalEntry casTable now le id e t).table.state id =
        (self.evalEntry casTable now le id e t).entry.status := by
  have hq := errorRateReached_half K (by omega) self.error_rate_threshold_
  have hev : self.evalEntry casTable now le id e t =
      if 2 * (K : Int) ≥ self.request_volume_threshold_ ∧
          (1 : ℚ) / 2 ≥ self.error_rate_threshold_ then
        self.translate casTable now id e t kCircuitBreakerClose kCircuitBreakerOpen false
      else ⟨e, t, []⟩ := by
    rw [evalEntry_closed self casTable now le id e t hst]
    simp only [hcnt, hq, decide_eq_true_eq]
  by_cases hthr : 1 / 2 < self.error_rate_threshold_
  · rw [hev, if_neg (fun h => absurd hthr (not_lt.mpr h.2))]
    exact ⟨⟨fun _ => hthr, fun _ => hst⟩, fun h => absurd hthr h, hts.trans hst.symm⟩
  · have hok := casTable_translate_ok t id kCircuitBreakerClose kCircuitBreakerOpen hts
    rw [hev, if_pos ⟨by omega, not_lt.mp hthr⟩,
      translate_entry_ok self casTable now id e t _ _ _ hok.1, translate_table]
    exact ⟨⟨fun h => (by cases h), fun h => absurd h hthr⟩, fun _ => ⟨rfl, rfl⟩, hok.2⟩

theorem mem_mapInsert (m : List (String × ErrorRateStatus)) (id : String)
    (v : ErrorRateStatus) (p : String × ErrorRateStatus) (h : p ∈ mapInsert m id v) :
    p = (id, v) ∨ p ∈ m := by
  induction m with
  | nil => simp [mapInsert] at h; exact Or.inl h
  | cons x m ih =>
    obtain ⟨k, w⟩ := x
    simp only [mapInsert] at h
    split at h
    · next hk =>
      rcases List.mem_cons.mp h with h | h
      · left; rw [h, hk]
      · right; exact List.mem_cons_of_mem _ h
    · split at h
      · rcases List.mem_cons.mp h with h | h
        · exact Or.inl h
        · exact Or.inr h
      · rcases List.mem_cons.mp h with h | h
        · right; rw [h]; exact List.mem_cons_self _ _
        · rcases ih h with h | h
          · exact Or.inl h
          · exact Or.inr (List.mem_cons_of_mem _ h)

theorem mapFind_mem (m : List (String × ErrorRateStatus)) (id : String) (e : ErrorRateStatus)
    (h : mapFind m id = some e) : (id, e) ∈ m := by
  obtain ⟨pre, post, hm, _⟩ := mapFind_split m id e h
  rw [hm]; simp

theorem recordBucket_good (all : Prop) (epoch : Int) (ret : CallRetStatus) (bk : ErrorRateBucket)
    (h : GoodBucket all bk) : GoodBucket all (recordBucket epoch ret bk) := by
  rw [recordBucket_eq]
  unfold GoodBucket at h ⊢
  intro he
  simp only at he ⊢
  by_cases hp : bk.bucket_time = epoch
  · have := h (by rw [hp]; exact he)
    rw [if_pos hp, if_pos hp]
    split <;> omega
  · rw [if_neg hp, if_neg hp]
    split <;> omega

theorem ClearBuckets_good (all : Prop) (n : Int) (bs : List ErrorRateBucket)
    (h : ∀ bk ∈ bs, GoodBucket all bk) : ∀ bk ∈ ClearBuckets n bs, GoodBucket all bk := by
  intro bk hbk
  unfold ClearBuckets at hbk
  rcases List.mem_append.mp hbk with h1 | h1
  · simp only [List.mem_map] at h1
    obtain ⟨_, _, rfl⟩ := h1
    intro _
    exact ⟨le_refl _, le_refl _⟩
  · exact h bk (List.mem_of_mem_drop h1)

theorem evalEntry_buckets_cases {σ : Type} (self : ErrorRateCircuitBreaker)
    (I : InstancesCircuitBreakerStatus σ) (now le : Int) (id : String) (e : ErrorRateStatus)
    (s : σ) :
    (self.evalEntry I now le id e s).entry.buckets = e.buckets ∨
      (self.evalEntry I now le id e s).entry.buckets =
        ClearBuckets self.metric_num_buckets_ e.buckets := by
  have ht : ∀ src dst c,
      (self.translate I now id e s src dst c).entry.buckets = e.buckets ∨
        (self.translate I now id e s src dst c).entry.buckets =
          ClearBuckets self.metric_num_buckets_ e.buckets := by
    intro src dst c
    simp only [ErrorRateCircuitBreaker.translate]
    split
    · cases c
      · exact Or.inl rfl
      · exact Or.inr rfl
    · exact Or.inl rfl
  unfold ErrorRateCircuitBreaker.evalEntry
  split
  · split
    · exact ht _ _ _
    · exact Or.inl rfl
  · simp only []
    split
    · split
      · exact ht _ _ _
      · exact Or.inl rfl
    · split
      · split
        · exact ht _ _ _
        · split
          · exact ht _ _ _
          · exact Or.inl rfl
      · exact Or.inl rfl

theorem evalLoop_good {σ : Type} (all : Prop) (self : ErrorRateCircuitBreaker)
    (I : InstancesCircuitBreakerStatus σ) (now le : Int)
    (m : List (String × ErrorRateStatus)) (s : σ) (h : GoodStore all m) :
    GoodStore all (self.evalLoop I now le m s).entries := by
  induction m generalizing s with
  | nil => intro p hp; simp [ErrorRateCircuitBreaker.evalLoop] at hp
  | cons x m ih =>
    obtain ⟨k, e⟩ := x
    intro p hp
    simp only [ErrorRateCircuitBreaker.evalLoop] at hp
    rcases List.mem_cons.mp hp with hp | hp
    · rw [hp]
      have he : ∀ bk ∈ e.buckets, GoodBucket all bk := h (k, e) (List.mem_cons_self _ _)
      rcases evalEntry_buckets_cases self I now le k e s with hb | hb
      · show ∀ bk ∈ (self.evalEntry I now le k e s).entry.buckets, GoodBucket all bk
        rw [hb]; exact he
      · show ∀ bk ∈ (self.evalEntry I now le k e s).entry.buckets, GoodBucket all bk
        rw [hb]; exact ClearBuckets_good all _ _ he
    · exact ih _ (fun q hq => h q (List.mem_cons_of_mem _ hq)) p hp

theorem expireLoop_good {σ : Type} (all : Prop) (self : ErrorRateCircuitBreaker)
    (I : InstancesCircuitBreakerStatus σ) (now : Int)
    (m : List (String × ErrorRateStatus)) (s : σ) (h : GoodStore all m) :
    GoodStore all (self.expireLoop I now m s).entries := by
  rw [expireLoop_entries]
  intro p hp
  exact h p (List.mem_of_mem_filter hp)

theorem RealTimeCircuitBreak_good {σ : Type} (all : Prop) (self after : ErrorRateCircuitBreaker)
    (heap : Nat → Int × Int) (id : String) (ret : CallRetStatus) (now : Int) (s s1 : σ)
    (code : ReturnCode) (h : GoodStore all self.error_rate_map_)
    (hheap : all → ∀ i, 0 ≤ (heap i).2 ∧ (heap i).2 ≤ (heap i).1)
    (hrun : self.RealTimeCircuitBreak heap id ret now s = some (code, after, s1)) :
    GoodStore all after.error_rate_map_ := by
  have hgot : ∀ bk ∈ (self.GetOrCreateErrorRateStatus heap id now).2.buckets, GoodBucket all bk := by
    unfold ErrorRateCircuitBreaker.GetOrCreateErrorRateStatus
    cases hf : mapFind self.error_rate_map_ id with
    | none =>
      intro bk hbk hne
      rcases hne with ha | hne
      · simp only [newBuckets, List.mem_map] at hbk
        obtain ⟨i, _, rfl⟩ := hbk
        exact hheap ha i
      · exact absurd (newBuckets_bucket_time heap _ bk hbk) hne
    | some e => exact h (id, e) (mapFind_mem _ _ _ hf)
  have hgot1 : GoodStore all (self.GetOrCreateErrorRateStatus heap id now).1 := by
    intro p hp
    have hrep : (self.GetOrCreateErrorRateStatus heap id now).1 =
        mapInsert self.error_rate_map_ id (self.GetOrCreateErrorRateStatus heap id now).2 := by
      unfold ErrorRateCircuitBreaker.GetOrCreateErrorRateStatus
      cases mapFind self.error_rate_map_ id <;> rfl
    rw [hrep] at hp
    rcases mem_mapInsert _ _ _ _ hp with hp | hp
    · rw [hp]; exact hgot
    · exact h p hp
  unfold ErrorRateCircuitBreaker.RealTimeCircuitBreak at hrun
  simp only [] at hrun
  split at hrun
  · cases hrun
  · split at hrun
    · cases hrun
    · next bk hbk =>
      have hafter := (Prod.mk.inj (Prod.mk.inj (Option.some.inj hrun)).2).1
      rw [← hafter]
      intro p hp
      rcases mem_mapInsert _ _ _ _ hp with hp | hp
      · rw [hp]
        intro x hx
        rcases List.mem_or_eq_of_mem_set hx with hx | hx
        · exact hgot x hx
        · rw [hx]
          exact recordBucket_good all _ _ _ (hgot bk (List.getElem?_mem hbk))
      · exact hgot1 p hp

theorem TimingCircuitBreak_good {σ : Type} (all : Prop) (self after : ErrorRateCircuitBreaker)
    (I : InstancesCircuitBreakerStatus σ) (now sweep : Int) (s s1 : σ) (code : ReturnCode)
    (calls : List TranslateCall) (h : GoodStore all self.error_rate_map_)
    (hrun : self.TimingCircuitBreak I now sweep s = some (code, after, s1, calls)) :
    GoodStore all after.error_rate_map_ := by
  unfold ErrorRateCircuitBreaker.TimingCircuitBreak at hrun
  split at hrun
  · cases hrun
  · have hafter := (Prod.mk.inj (Prod.mk.inj (Option.some.inj hrun)).2).1
    rw [← hafter]
    exact expireLoop_good all _ I sweep _ _ (evalLoop_good all self I now _ _ s h)

theorem reachable_good (all : Prop) (alloc : (Nat → Int × Int) → Prop)
    (hheap : all → ∀ heap, alloc heap → ∀ i, 0 ≤ (heap i).2 ∧ (heap i).2 ≤ (heap i).1)
    (start b : ErrorRateCircuitBreaker) (h : Reachable alloc start b) :
    GoodStore all b.error_rate_map_ := by
  induction h with
  | init h0 => rw [h0]; intro p hp; simp at hp
  | record b after heap id ret now code _ ha hrun ih =>
    exact RealTimeCircuitBreak_good all b after heap id ret now () () code ih
      (fun hall => hheap hall heap ha) hrun
  | timing b after I now sweep s s1 code calls _ hrun ih =>
    exact TimingCircuitBreak_good all b after I now sweep s s1 code calls ih hrun
  | expire b I now s _ ih =>
    exact expireLoop_good all b I now _ s ih

theorem afterGarbage_run :
    scenarioBreaker.RealTimeCircuitBreak garbageHeap "A" kCallRetOk 100300 () =
      some (kReturnOk, afterGarbage, ()) := by
  rfl

theorem afterGarbage_reachable : Reachable (fun _ => True) scenarioBreaker afterGarbage :=
  Reachable.record scenarioBreaker afterGarbage garbageHeap "A" kCallRetOk 100300 kReturnOk
    (Reachable.init rfl) trivial afterGarbage_run

/-! ## Entries and table in step; the sweep after a stale probe -/

theorem casTable_compareAndSwap : CompareAndSwap casTable StatusTable.state := by
  intro s id src dst
  show ((StatusTable.TranslateStatus s id src dst).1 = true ↔ s.state id = src) ∧
    (∀ k, (StatusTable.TranslateStatus s id src dst).2.state k =
      if s.state id = src ∧ k = id then dst else s.state k)
  unfold StatusTable.TranslateStatus
  by_cases h : s.state id = src
  · simp [h]
  · simp [h]

theorem evalEntry_outcome {σ : Type} (self : ErrorRateCircuitBreaker)
    (I : InstancesCircuitBreakerStatus σ) (now le : Int) (id : String) (e : ErrorRateStatus)
    (s : σ) :
    ((self.evalEntry I now le id e s).calls = [] ∧
        (self.evalEntry I now le id e s).entry = e ∧
        (self.evalEntry I now le id e s).table = s) ∨
      ∃ dst,
        (self.evalEntry I now le id e s).calls =
          [⟨id, e.status, dst, (I.TranslateStatus s id e.status dst).1⟩] ∧
        (self.evalEntry I now le id e s).table = (I.TranslateStatus s id e.status dst).2 ∧
        (self.evalEntry I now le id e s).entry.status =
          (if (I.TranslateStatus s id e.status dst).1 = true then dst else e.status) ∧
        ((I.TranslateStatus s id e.status dst).1 = false →
          (self.evalEntry I now le id e s).entry = e) := by
  have ht : ∀ dst c,
      (self.translate I now id e s e.status dst c).calls =
          [⟨id, e.status, dst, (I.TranslateStatus s id e.status dst).1⟩] ∧
        (self.translate I now id e s e.status dst c).table =
          (I.TranslateStatus s id e.status dst).2 ∧
        (self.translate I now id e s e.status dst c).entry.status =
          (if (I.TranslateStatus s id e.status dst).1 = true then dst else e.status) ∧
        ((I.TranslateStatus s id e.status dst).1 = false →
          (self.translate I now id e s e.status dst c).entry = e) := by
    intro dst c
    refine ⟨rfl, rfl, ?_, fun h => translate_entry_fail self I now id e s _ _ c h⟩
    by_cases h : (I.TranslateStatus s id e.status dst).1 = true
    · rw [translate_entry_ok self I now id e s _ _ c h, if_pos h]
    · rw [translate_entry_fail self I now id e s _ _ c (by simpa using h), if_neg h]
  unfold ErrorRateCircuitBreaker.evalEntry
  split
  · next h =>
    split
    · right; rw [← h]; exact ⟨_, ht _ _⟩
    · exact Or.inl ⟨rfl, rfl, rfl⟩
  · simp only []
    split
    · next h =>
      split
      · right; rw [← h]; exact ⟨_, ht _ _⟩
      · exact Or.inl ⟨rfl, rfl, rfl⟩
    · split
      · next h =>
        split
        · right; rw [← h]; exact ⟨_, ht _ _⟩
        · split
          · right; rw [← h]; exact ⟨_, ht _ _⟩
          · exact Or.inl ⟨rfl, rfl, rfl⟩
      · exact Or.inl ⟨rfl, rfl, rfl⟩

theorem evalEntry_sync {σ : Type} (self : ErrorRateCircuitBreaker)
    (I : InstancesCircuitBreakerStatus σ) (view : σ → String → CircuitBreakerStatus)
    (hcas : CompareAndSwap I view) (now le : Int) (id : String) (e : ErrorRateStatus) (s : σ)
    (hsync : view s id = e.status) :
    view (self.evalEntry I now le id e s).table id = (self.evalEntry I now le id e s).entry.status ∧
      ∀ k, k ≠ id → view (self.evalEntry I now le id e s).table k = view s k := by
  rcases evalEntry_outcome self I now le id e s with ⟨_, h2, h3⟩ | ⟨dst, _, h2, h3, _⟩
  · rw [h2, h3]; exact ⟨hsync, fun _ _ => rfl⟩
  · have hok := ((hcas s id e.status dst).1).2 hsync
    rw [h2, h3, if_pos hok]
    constructor
    · rw [(hcas s id e.status dst).2 id, if_pos ⟨hsync, rfl⟩]
    · intro k hk
      rw [(hcas s id e.status dst).2 k, if_neg (fun h => hk h.2)]

theorem evalEntry_view_ne {σ : Type} (self : ErrorRateCircuitBreaker)
    (I : InstancesCircuitBreakerStatus σ) (view : σ → String → CircuitBreakerStatus)
    (hcas : CompareAndSwap I view) (now le : Int) (id : String) (e : ErrorRateStatus) (s : σ)
    (k : String) (hk : k ≠ id) :
    view (self.evalEntry I now le id e s).table k = view s k := by
  rcases evalEntry_outcome self I now le id e s with ⟨_, _, h3⟩ | ⟨dst, _, h2, _, _⟩
  · rw [h3]
  · rw [h2, (hcas s id e.status dst).2 k, if_neg (fun h => hk h.2)]

theorem evalLoop_view_of_not_mem {σ : Type} (self : ErrorRateCircuitBreaker)
    (I : InstancesCircuitBreakerStatus σ) (view : σ → String → CircuitBreakerStatus)
    (hcas : CompareAndSwap I view) (now le : Int) (k : String)
    (m : List (String × ErrorRateStatus)) (s : σ) (h : k ∉ m.map Prod.fst) :
    view (self.evalLoop I now le m s).table k = view s k := by
  induction m generalizing s with
  | nil => rfl
  | cons x m ih =>
    obtain ⟨id, e⟩ := x
    simp only [List.map_cons, List.mem_cons, not_or] at h
    show view (self.evalLoop I now le m (self.evalEntry I now le id e s).table).table k = _
    rw [ih _ h.2]
    exact evalEntry_view_ne self I view hcas now le id e s k h.1

theorem evalLoop_sync {σ : Type} (self : ErrorRateCircuitBreaker)
    (I : InstancesCircuitBreakerStatus σ) (view : σ → String → CircuitBreakerStatus)
    (hcas : CompareAndSwap I view) (now le : Int)
    (m : List (String × ErrorRateStatus)) (s : σ) (hwk : WellKeyed m)
    (hsync : ∀ p ∈ m, view s p.1 = p.2.status) :
    ∀ p ∈ (self.evalLoop I now le m s).entries,
      view (self.evalLoop I now le m s).table p.1 = p.2.status := by
  induction m generalizing s with
  | nil => intro p hp; simp [ErrorRateCircuitBreaker.evalLoop] at hp
  | cons x m ih =>
    obtain ⟨id, e⟩ := x
    have hwk2 : WellKeyed m := by
      unfold WellKeyed at hwk ⊢
      exact (List.pairwise_cons.mp hwk).2
    have hid : id ∉ m.map Prod.fst := by
      unfold WellKeyed at hwk
      intro hmem
      exact lt_irrefl _ ((List.pairwise_cons.mp hwk).1 id hmem)
    have he := evalEntry_sync self I view hcas now le id e s
      (hsync (id, e) (List.mem_cons_self _ _))
    intro p hp
    show view (self.evalLoop I now le m (self.evalEntry I now le id e s).table).table p.1 = _
    have hp2 : p = (id, (self.evalEntry I now le id e s).entry) ∨
        p ∈ (self.evalLoop I now le m (self.evalEntry I now le id e s).table).entries :=
      List.mem_cons.mp hp
    rcases hp2 with hp2 | hp2
    · rw [hp2]
      show view (self.evalLoop I now le m (self.evalEntry I now le id e s).table).table id = _
      rw [evalLoop_view_of_not_mem self I view hcas now le id m _ hid]
      exact he.1
    · refine ih _ hwk2 ?_ p hp2
      intro q hq
      have hne : q.1 ≠ id := by
        intro h
        exact hid (h ▸ List.mem_map_of_mem Prod.fst hq)
      rw [he.2 q.1 hne]
      exact hsync q (List.mem_cons_of_mem _ hq)

theorem evalLoop_calls_from {σ : Type} (self : ErrorRateCircuitBreaker)
    (I : InstancesCircuitBreakerStatus σ) (now le : Int)
    (m : List (String × ErrorRateStatus)) (s : σ) :
    ∀ c ∈ (self.evalLoop I now le m s).calls,
      ∃ e, (c.instance_id, e) ∈ m ∧ c.from_status = e.status := by
  induction m generalizing s with
  | nil => intro c hc; simp [ErrorRateCircuitBreaker.evalLoop] at hc
  | cons x m ih =>
    obtain ⟨id, e⟩ := x
    intro c hc
    have hc2 : c ∈ (self.evalEntry I now le id e s).calls ++
        (self.evalLoop I now le m (self.evalEntry I now le id e s).table).calls := hc
    rcases List.mem_append.mp hc2 with h | h
    · rcases evalEntry_outcome self I now le id e s with ⟨h1, _, _⟩ | ⟨dst, h1, _, _, _⟩
      · rw [h1] at h; simp at h
      · rw [h1] at h
        rw [List.mem_singleton.mp h]
        exact ⟨e, List.mem_cons_self _ _, rfl⟩
    · obtain ⟨e1, h1, h2⟩ := ih _ c h
      exact ⟨e1, List.mem_cons_of_mem _ h1, h2⟩

theorem evalLoop_status_change {σ : Type} (self : ErrorRateCircuitBreaker)
    (I : InstancesCircuitBreakerStatus σ) (now le : Int)
    (m : List (String × ErrorRateStatus)) (s : σ) (i : Nat) (p q : String × ErrorRateStatus)
    (hp : m[i]? = some p) (hq : (self.evalLoop I now le m s).entries[i]? = some q) :
    q.1 = p.1 ∧
      (q.2 = p.2 ∨
        (⟨p.1, p.2.status, q.2.status, true⟩ : TranslateCall) ∈
          (self.evalLoop I now le m s).calls) := by
  induction m generalizing s i with
  | nil => simp at hp
  | cons x m ih =>
    obtain ⟨id, e⟩ := x
    cases i with
    | zero =>
      have hp1 : (id, e) = p := by simpa using hp
      have hq1 : (id, (self.evalEntry I now le id e s).entry) = q := by
        simpa [ErrorRateCircuitBreaker.evalLoop] using hq
      subst hp1
      subst hq1
      refine ⟨rfl, ?_⟩
      rcases evalEntry_outcome self I now le id e s with ⟨_, h2, _⟩ | ⟨dst, h1, _, h3, h4⟩
      · exact Or.inl h2
      · by_cases hok : (I.TranslateStatus s id e.status dst).1 = true
        · right
          show (⟨id, e.status, (self.evalEntry I now le id e s).entry.status, true⟩ :
              TranslateCall) ∈
            (self.evalEntry I now le id e s).calls ++
              (self.evalLoop I now le m (self.evalEntry I now le id e s).table).calls
          rw [h1, h3, if_pos hok, hok]
          simp
        · exact Or.inl (h4 (by simpa using hok))
    | succ j =>
      have hp1 : m[j]? = some p := by simpa using hp
      have hq1 : (self.evalLoop I now le m (self.evalEntry I now le id e s).table).entries[j]? =
          some q := by
        simpa [ErrorRateCircuitBreaker.evalLoop] using hq
      obtain ⟨h1, h2⟩ := ih _ j hp1 hq1
      refine ⟨h1, ?_⟩
      rcases h2 with h2 | h2
      · exact Or.inl h2
      · right
        show _ ∈ (self.evalEntry I now le id e s).calls ++
          (self.evalLoop I now le m (self.evalEntry I now le id e s).table).calls
        exact List.mem_append_right _ h2

theorem expireLoop_calls_keys {σ : Type} (self : ErrorRateCircuitBreaker)
    (I : InstancesCircuitBreakerStatus σ) (now : Int)
    (m : List (String × ErrorRateStatus)) (s : σ) :
    ∀ c ∈ (self.expireLoop I now m s).calls, c.instance_id ∈ m.map Prod.fst := by
  induction m generalizing s with
  | nil => intro c hc; simp [ErrorRateCircuitBreaker.expireLoop] at hc
  | cons p m ih =>
    obtain ⟨k, e⟩ := p
    intro c hc
    simp only [ErrorRateCircuitBreaker.expireLoop] at hc
    split at hc
    · rcases List.mem_cons.mp hc with h | h
      · rw [h]; exact List.mem_cons_self _ _
      · rcases List.mem_cons.mp h with h | h
        · rw [h]; exact List.mem_cons_self _ _
        · exact List.mem_cons_of_mem _ (ih _ c h)
    · exact List.mem_cons_of_mem _ (ih _ c hc)

theorem expireLoop_casTable_calls_at (self : ErrorRateCircuitBreaker) (sweep : Int)
    (m : List (String × ErrorRateStatus)) (t : StatusTable) (id : String)
    (e : ErrorRateStatus) (hwk : WellKeyed m) (h : mapFind m id = some e)
    (hdue : u64 (e.last_access_time + self.metric_expired_time_) ≤ sweep)
    (hst : t.state id = kCircuitBreakerOpen) :
    (self.expireLoop casTable sweep m t).calls.filter (fun c => decide (c.instance_id = id)) =
      [⟨id, kCircuitBreakerOpen, kCircuitBreakerClose, true⟩,
        ⟨id, kCircuitBreakerHalfOpen, kCircuitBreakerClose, false⟩] := by
  induction m generalizing t with
  | nil => simp [mapFind] at h
  | cons p m ih =>
    obtain ⟨k, v⟩ := p
    unfold WellKeyed at hwk
    rw [List.map_cons, List.pairwise_cons] at hwk
    simp only [mapFind] at h
    by_cases hk : k = id
    · rw [if_pos hk] at h
      have hv : v = e := Option.some.inj h
      subst hv
      subst hk
      have hrest : ∀ u, ((self.expireLoop casTable sweep m u).calls.filter
          (fun c => decide (c.instance_id = k))) = [] := by
        intro u
        rw [List.filter_eq_nil_iff]
        intro c hc
        have hmem := expireLoop_calls_keys self casTable sweep m u c hc
        have hlt := hwk.1 _ hmem
        have : c.instance_id ≠ k := by
          intro heq
          rw [heq] at hlt
          exact lt_irrefl _ hlt
        simpa using this
      have h1 := casTable_translate_ok t k kCircuitBreakerOpen kCircuitBreakerClose hst
      have h2 : (casTable.TranslateStatus
          (casTable.TranslateStatus t k kCircuitBreakerOpen kCircuitBreakerClose).2 k
          kCircuitBreakerHalfOpen kCircuitBreakerClose).1 = false := by
        show (StatusTable.TranslateStatus
          (casTable.TranslateStatus t k kCircuitBreakerOpen kCircuitBreakerClose).2 k
          kCircuitBreakerHalfOpen kCircuitBreakerClose).1 = false
        unfold StatusTable.TranslateStatus
        rw [h1.2]
        simp
      simp only [ErrorRateCircuitBreaker.expireLoop]
      rw [if_pos hdue]
      simp only [List.filter_cons, decide_True, if_true, hrest, h1.1, h2]
    · rw [if_neg hk] at h
      have hne : id ≠ k := fun hh => hk hh.symm
      simp only [ErrorRateCircuitBreaker.expireLoop]
      split
      · simp only [List.filter_cons, hk, decide_False, Bool.false_eq_true, if_false]
        apply ih _ hwk.2 h
        rw [casTable_translate_state_ne _ k id _ _ hne,
          casTable_translate_state_ne _ k id _ _ hne]
        exact hst
      · exact ih _ hwk.2 h hst

theorem evalLoop_casTable_calls_at (self : ErrorRateCircuitBreaker) (now le : Int)
    (m : List (String × ErrorRateStatus)) (t : StatusTable) (id : String)
    (e : ErrorRateStatus) (hwk : WellKeyed m) (h : mapFind m id = some e) :
    (self.evalLoop casTable now le m t).calls.filter (fun c => decide (c.instance_id = id)) =
      (self.evalEntry casTable now le id e t).calls.filter
        (fun c => decide (c.instance_id = id)) := by
  obtain ⟨pre, post, hm, hpre⟩ := mapFind_split m id e h
  subst hm
  have hpost := hwk.not_mem_post
  have hcong := evalEntry_casTable_congr self now le id e t
    (self.evalLoop casTable now le pre t).table
    (evalLoop_casTable_state_of_not_mem self now le id pre t hpre)
    (evalLoop_casTable_auto self now le pre t)
  have hnil : ∀ (l : List (String × ErrorRateStatus)) (u : StatusTable),
      id ∉ l.map Prod.fst →
      ((self.evalLoop casTable now le l u).calls.filter
        (fun c => decide (c.instance_id = id))) = [] := by
    intro l u hl
    rw [List.filter_eq_nil_iff]
    intro c hc
    have hmem := evalLoop_calls_keys self casTable now le l u c hc
    have : c.instance_id ≠ id := fun heq => hl (heq ▸ hmem)
    simpa using this
  rw [evalLoop_append]
  simp only [List.filter_append]
  rw [hnil pre t hpre, hnil post _ hpost, hcong.2.1]
  simp

theorem mapFind_filter_none (m : List (String × ErrorRateStatus)) (id : String)
    (e : ErrorRateStatus) (p : String × ErrorRateStatus → Bool) (hwk : WellKeyed m)
    (h : mapFind m id = some e) (hp : p (id, e) = false) :
    mapFind (m.filter p) id = none := by
  apply mapFind_of_not_mem
  rw [List.mem_map]
  rintro ⟨q, hq, hqid⟩
  rw [List.mem_filter] at hq
  obtain ⟨k, v⟩ := q
  have hk : k = id := hqid
  subst hk
  have := mapFind_of_mem m k v hwk hq.1
  rw [h] at this
  have hv : e = v := Option.some.inj this
  subst hv
  rw [hp] at hq
  exact absurd hq.2 (by simp)

theorem evalEntry_casTable_stale (self : ErrorRateCircuitBreaker) (now le : Int)
    (id : String) (e : ErrorRateStatus) (t : StatusTable)
    (hst : e.status = kCircuitBreakerHalfOpen) (htab : t.state id = kCircuitBreakerHalfOpen)
    (hnot : ¬ (BucketsCount self.metric_num_buckets_ le e.buckets).1 -
        (BucketsCount self.metric_num_buckets_ le e.buckets).2 ≥
      self.success_count_after_half_open_)
    (hstale : u64 (e.last_access_time + u64 (100 * self.sleep_window_)) ≤ now) :
    (self.evalEntry casTable now le id e t).entry =
        { e with
          last_update_time := now
          status := kCircuitBreakerOpen
          buckets := ClearBuckets self.metric_num_buckets_ e.buckets } ∧
      (self.evalEntry casTable now le id e t).calls =
        [⟨id, kCircuitBreakerHalfOpen, kCircuitBreakerOpen, true⟩] ∧
      (self.evalEntry casTable now le id e t).table.state id = kCircuitBreakerOpen := by
  have hok := casTable_translate_ok t id kCircuitBreakerHalfOpen kCircuitBreakerOpen htab
  rw [evalEntry_halfOpen self casTable now le id e t hst, if_neg hnot, if_pos (Or.inr hstale)]
  refine ⟨?_, ?_, ?_⟩
  · rw [translate_entry_ok self casTable now id e t _ _ true hok.1]
    rfl
  · rw [translate_calls, hok.1]
  · rw [translate_table]; exact hok.2

/-! ## Claims -/

/-- C1 as stated fails: with the threshold `0.1f = 13421773 / 2^27` and an entry whose
aggregate is 10 calls and 1 error, the exact ratio `1 / 10` is below the threshold, so the
condition of the claim is false, and yet the loop requests Closed to Open: the `float`
quotient of line 159 is `13421773 / 2^27`, which equals the threshold. -/
theorem C1_counterexample :
    tenthEntry.status = kCircuitBreakerClose ∧
      BucketsCount tenthBreaker.metric_num_buckets_ (tenthBreaker.lastEndBucketTime 100400)
        tenthEntry.buckets = (10, 1) ∧
      ¬ ((10 : Int) ≥ tenthBreaker.request_volume_threshold_ ∧
          ((1 : Int) : ℚ) / ((10 : Int) : ℚ) ≥ tenthBreaker.error_rate_threshold_) ∧
      floatQuot (floatOfInt 1) (floatOfInt 10) = (13421773, -27) ∧
      (tenthBreaker.evalEntry casTable 100400 (tenthBreaker.lastEndBucketTime 100400) "A"
          tenthEntry (uniformTable kCircuitBreakerClose)).calls =
        [⟨"A", kCircuitBreakerClose, kCircuitBreakerOpen, true⟩] ∧
      (tenthBreaker.evalEntry casTable 100400 (tenthBreaker.lastEndBucketTime 100400) "A"
          tenthEntry (uniformTable kCircuitBreakerClose)).entry.status =
        kCircuitBreakerOpen := by
  have hcnt : BucketsCount tenthBreaker.metric_num_buckets_
      (tenthBreaker.lastEndBucketTime 100400) tenthEntry.buckets = (10, 1) := by decide
  have hq : floatQuot (floatOfInt 1) (floatOfInt 10) = (13421773, -27) := by decide
  have hreach : errorRateReached 1 10 tenthBreaker.error_rate_threshold_ = true := by
    unfold errorRateReached
    rw [if_neg (by decide), hq]
    simp only [decide_eq_true_eq]
    norm_num [floatValue, tenthBreaker, scenarioBreaker]
  have hev : tenthBreaker.evalEntry casTable 100400 (tenthBreaker.lastEndBucketTime 100400)
      "A" tenthEntry (uniformTable kCircuitBreakerClose) =
      tenthBreaker.translate casTable 100400 "A" tenthEntry (uniformTable kCircuitBreakerClose)
        kCircuitBreakerClose kCircuitBreakerOpen false := by
    rw [evalEntry_closed tenthBreaker casTable 100400 _ "A" tenthEntry _ (by decide), hcnt]
    exact if_pos ⟨by decide, hreach⟩
  refine ⟨by decide, hcnt, ?_, hq, ?_, ?_⟩
  · intro h
    have h2 := h.2
    norm_num [tenthBreaker, scenarioBreaker] at h2
  · rw [hev]; rfl
  · rw [hev]; rfl

/-- C1, amended: a Closed entry in the evaluation loop. With `(total, errors)` the
aggregate of its buckets, `TranslateStatus(id, Closed, Open)` is called exactly when
`total ≥ request_volume_threshold` and the `float` quotient of line 159, namely `errors`
and `total` each converted to `float` and their quotient rounded to `float`, is at least
`error_rate_threshold` (and then `total ≠ 0`); on success the entry becomes Open with
`last_update_time = now` and the same buckets; when the condition fails or the call fails
the entry is unchanged. -/
theorem C1_closed_entry {σ : Type} (self : ErrorRateCircuitBreaker)
    (I : InstancesCircuitBreakerStatus σ) (now : Int)
    (pre post : List (String × ErrorRateStatus)) (id : String) (e : ErrorRateStatus) (s : σ)
    (hvol : 0 < self.request_volume_threshold_)
    (hst : e.status = kCircuitBreakerClose) :
    let le := self.lastEndBucketTime now
    let before := self.evalLoop I now le pre s
    let here := self.evalEntry I now le id e before.table
    let rest := self.evalLoop I now le post here.table
    let cnt := BucketsCount self.metric_num_buckets_ le e.buckets
    let r := I.TranslateStatus before.table id kCircuitBreakerClose kCircuitBreakerOpen
    self.evalLoop I now le (pre ++ (id, e) :: post) s =
        ⟨before.entries ++ (id, here.entry) :: rest.entries, rest.table,
          before.calls ++ (here.calls ++ rest.calls)⟩ ∧
      ((cnt.1 ≥ self.request_volume_threshold_ ∧
          floatValue (floatQuot (floatOfInt cnt.2) (floatOfInt cnt.1)) ≥
            self.error_rate_threshold_) →
        cnt.1 ≠ 0 ∧
        here.calls = [⟨id, kCircuitBreakerClose, kCircuitBreakerOpen, r.1⟩] ∧
        here.table = r.2 ∧
        (r.1 = true → here.entry =
          { e with status := kCircuitBreakerOpen, last_update_time := now }) ∧
        (r.1 = false → here.entry = e)) ∧
      (¬ (cnt.1 ≥ self.request_volume_threshold_ ∧
          floatValue (floatQuot (floatOfInt cnt.2) (floatOfInt cnt.1)) ≥
            self.error_rate_threshold_) →
        here.calls = [] ∧ here.table = before.table ∧ here.entry = e) := by
  intro le before here rest cnt r
  have hiff : (cnt.1 ≥ self.request_volume_threshold_ ∧
        errorRateReached cnt.2 cnt.1 self.error_rate_threshold_ = true) ↔
      (cnt.1 ≥ self.request_volume_threshold_ ∧
        floatValue (floatQuot (floatOfInt cnt.2) (floatOfInt cnt.1)) ≥
          self.error_rate_threshold_) := by
    constructor
    · intro h
      exact ⟨h.1, (errorRateReached_iff cnt.2 cnt.1 _ (by omega)).mp h.2⟩
    · intro h
      exact ⟨h.1, (errorRateReached_iff cnt.2 cnt.1 _ (by omega)).mpr h.2⟩
  refine ⟨evalLoop_append self I now le pre post id e s, ?_, ?_⟩
  · intro hc
    have hev : here = self.translate I now id e before.table kCircuitBreakerClose
        kCircuitBreakerOpen false := by
      show self.evalEntry I now le id e before.table = _
      rw [evalEntry_closed self I now le id e before.table hst]
      exact if_pos (hiff.mpr hc)
    refine ⟨by omega, ?_, ?_, ?_, ?_⟩
    · rw [hev]; rfl
    · rw [hev]; rfl
    · intro hr
      rw [hev]
      simp only [ErrorRateCircuitBreaker.translate]
      rw [if_pos hr]; simp
    · intro hr
      rw [hev]
      simp only [ErrorRateCircuitBreaker.translate]
      rw [if_neg (by rw [hr]; decide)]
  · intro hc
    have hev : here = ⟨e, before.table, []⟩ := by
      show self.evalEntry I now le id e before.table = _
      rw [evalEntry_closed self I now le id e before.table hst]
      exact if_neg (fun h => hc (hiff.mp h))
    rw [hev]; exact ⟨rfl, rfl, rfl⟩

/-- Witness of C1: scenario 2 of spec 8 shifted to `t = 100400`; ten calls of which six
failed give the `float` quotient `10066330 / 2^24` and open the instance. -/
theorem C1_closed_entry_witness :
    0 < scenarioBreaker.request_volume_threshold_ ∧
      failingEntry.status = kCircuitBreakerClose ∧
      floatQuot (floatOfInt 6) (floatOfInt 10) = (10066330, -24) ∧
      (scenarioBreaker.evalEntry casTable 100400 (scenarioBreaker.lastEndBucketTime 100400) "A"
          failingEntry (uniformTable kCircuitBreakerClose)).calls =
        [⟨"A", kCircuitBreakerClose, kCircuitBreakerOpen, true⟩] ∧
      (scenarioBreaker.evalEntry casTable 100400 (scenarioBreaker.lastEndBucketTime 100400) "A"
          failingEntry (uniformTable kCircuitBreakerClose)).entry =
        { failingEntry with status := kCircuitBreakerOpen, last_update_time := 100400 } := by
  have hcnt : BucketsCount scenarioBreaker.metric_num_buckets_
      (scenarioBreaker.lastEndBucketTime 100400) failingEntry.buckets = (10, 6) := by decide
  have hq : floatQuot (floatOfInt 6) (floatOfInt 10) = (10066330, -24) := by decide
  have h := (C1_closed_entry scenarioBreaker casTable 100400 [] [] "A" failingEntry
    (uniformTable kCircuitBreakerClose) (by decide) (by decide)).2.1
    (by rw [hcnt]; exact ⟨by decide, by rw [hq]; norm_num [floatValue, scenarioBreaker]⟩)
  exact ⟨by decide, by decide, hq, h.2.1, h.2.2.2.1 (by decide)⟩

/-- C2: an Open entry in the evaluation loop. `TranslateStatus(id, Open, HalfOpen)` is
called exactly when auto-half-open is enabled and `last_update_time + sleep_window ≤ now`;
on success the entry becomes HalfOpen with `last_update_time = now` and cleared buckets,
otherwise it is unchanged. The entry never becomes Closed, no transition to Closed is
requested, and the buckets do not influence the decision. -/
theorem C2_open_entry {σ : Type} (self : ErrorRateCircuitBreaker)
    (I : InstancesCircuitBreakerStatus σ) (now : Int)
    (pre post : List (String × ErrorRateStatus)) (id : String) (e : ErrorRateStatus) (s : σ)
    (hst : e.status = kCircuitBreakerOpen)
    (hlo : 0 ≤ e.last_update_time + self.sleep_window_)
    (hhi : e.last_update_time + self.sleep_window_ < 2 ^ 64) :
    let le := self.lastEndBucketTime now
    let before := self.evalLoop I now le pre s
    let here := self.evalEntry I now le id e before.table
    let rest := self.evalLoop I now le post here.table
    let r := I.TranslateStatus before.table id kCircuitBreakerOpen kCircuitBreakerHalfOpen
    self.evalLoop I now le (pre ++ (id, e) :: post) s =
        ⟨before.entries ++ (id, here.entry) :: rest.entries, rest.table,
          before.calls ++ (here.calls ++ rest.calls)⟩ ∧
      ((I.AutoHalfOpenEnable before.table = true ∧
          e.last_update_time + self.sleep_window_ ≤ now) →
        here.calls = [⟨id, kCircuitBreakerOpen, kCircuitBreakerHalfOpen, r.1⟩] ∧
        here.table = r.2 ∧
        (r.1 = true → here.entry =
          { e with
            status := kCircuitBreakerHalfOpen
            last_update_time := now
            buckets := ClearBuckets self.metric_num_buckets_ e.buckets }) ∧
        (r.1 = false → here.entry = e)) ∧
      (¬ (I.AutoHalfOpenEnable before.table = true ∧
          e.last_update_time + self.sleep_window_ ≤ now) →
        here.calls = [] ∧ here.table = before.table ∧ here.entry = e) ∧
      here.entry.status ≠ kCircuitBreakerClose ∧
      (∀ c ∈ here.calls, c.to_status ≠ kCircuitBreakerClose) ∧
      (∀ bs : List ErrorRateBucket,
        let other := self.evalEntry I now le id { e with buckets := bs } before.table
        other.calls = here.calls ∧ other.table = here.table ∧
        other.entry.status = here.entry.status ∧
        other.entry.last_update_time = here.entry.last_update_time) := by
  intro le before here rest r
  have hu : u64 (e.last_update_time + self.sleep_window_) =
      e.last_update_time + self.sleep_window_ := u64_eq_self hlo hhi
  have hev : here =
      if I.AutoHalfOpenEnable before.table = true ∧
          e.last_update_time + self.sleep_window_ ≤ now then
        self.translate I now id e before.table kCircuitBreakerOpen kCircuitBreakerHalfOpen true
      else ⟨e, before.table, []⟩ := by
    show self.evalEntry I now le id e before.table = _
    rw [evalEntry_open self I now le id e before.table hst, hu]
  refine ⟨evalLoop_append self I now le pre post id e s, ?_, ?_, ?_, ?_, ?_⟩
  · intro hc
    rw [hev, if_pos hc]
    refine ⟨rfl, rfl, ?_, ?_⟩
    · intro hr
      rw [translate_entry_ok self I now id e before.table _ _ _ hr]; simp
    · intro hr
      exact translate_entry_fail self I now id e before.table _ _ _ hr
  · intro hc
    rw [hev, if_neg hc]
    exact ⟨rfl, rfl, rfl⟩
  · rw [hev]
    split
    · cases hr : r.1
      · rw [translate_entry_fail self I now id e before.table _ _ _ hr, hst]; decide
      · rw [translate_entry_ok self I now id e before.table _ _ _ hr]; simp
    · show e.status ≠ _
      rw [hst]; decide
  · intro c hcm
    rw [hev] at hcm
    split at hcm
    · rw [translate_calls] at hcm
      simp only [List.mem_singleton] at hcm
      rw [hcm]; simp
    · simp at hcm
  · intro bs other
    have hev2 : other =
        if I.AutoHalfOpenEnable before.table = true ∧
            e.last_update_time + self.sleep_window_ ≤ now then
          self.translate I now id { e with buckets := bs } before.table kCircuitBreakerOpen
            kCircuitBreakerHalfOpen true
        else ⟨{ e with buckets := bs }, before.table, []⟩ := by
      show self.evalEntry I now le id { e with buckets := bs } before.table = _
      rw [evalEntry_open self I now le id { e with buckets := bs } before.table hst]
      show (if _ ∧ u64 (e.last_update_time + self.sleep_window_) ≤ now then _ else _) = _
      rw [hu]
    rw [hev, hev2]
    split
    · refine ⟨rfl, rfl, ?_⟩
      cases hr : r.1
      · rw [translate_entry_fail self I now id e before.table _ _ _ hr,
          translate_entry_fail self I now id _ before.table _ _ _ hr]
        exact ⟨rfl, rfl⟩
      · rw [translate_entry_ok self I now id e before.table _ _ _ hr,
          translate_entry_ok self I now id _ before.table _ _ _ hr]
        exact ⟨rfl, rfl⟩
    · exact ⟨rfl, rfl, rfl, rfl⟩

/-- Witness of C2: an instance Open since 100400 is probed at 100900 with a sleep window of
500 ms. -/
theorem C2_open_entry_witness :
    openEntry.status = kCircuitBreakerOpen ∧
      0 ≤ openEntry.last_update_time + scenarioBreaker.sleep_window_ ∧
      openEntry.last_update_time + scenarioBreaker.sleep_window_ < 2 ^ 64 ∧
      (scenarioBreaker.evalEntry casTable 100900 (scenarioBreaker.lastEndBucketTime 100900) "A"
          openEntry (uniformTable kCircuitBreakerOpen)).calls =
        [⟨"A", kCircuitBreakerOpen, kCircuitBreakerHalfOpen, true⟩] := by
  have h := (C2_open_entry scenarioBreaker casTable 100900 [] [] "A" openEntry
    (uniformTable kCircuitBreakerOpen) (by decide) (by decide) (by decide)).2.1
    (by decide)
  exact ⟨by decide, by decide, by decide, h.1⟩

/-- C3: a HalfOpen entry in the evaluation loop whose aggregate has
`total - errors ≥ success_count_after_half_open`. The only call is
`TranslateStatus(id, HalfOpen, Closed)`, whatever the number of errors; on success the
entry becomes Closed with `last_update_time = now` and cleared buckets. With exactly
`success_count_after_half_open` successes and no failure, and the table of the spec holding
HalfOpen for the instance, the entry is Closed after the loop and the table holds Closed
after the loop and after the whole `TimingCircuitBreak`. -/
theorem C3_half_open_recover {σ : Type} (self : ErrorRateCircuitBreaker)
    (I : InstancesCircuitBreakerStatus σ) (now : Int)
    (pre post : List (String × ErrorRateStatus)) (id : String) (e : ErrorRateStatus) (s : σ)
    (hst : e.status = kCircuitBreakerHalfOpen) :
    let le := self.lastEndBucketTime now
    let before := self.evalLoop I now le pre s
    let here := self.evalEntry I now le id e before.table
    let rest := self.evalLoop I now le post here.table
    let cnt := BucketsCount self.metric_num_buckets_ le e.buckets
    let r := I.TranslateStatus before.table id kCircuitBreakerHalfOpen kCircuitBreakerClose
    let closed : ErrorRateStatus :=
      { e with
        status := kCircuitBreakerClose
        last_update_time := now
        buckets := ClearBuckets self.metric_num_buckets_ e.buckets }
    self.evalLoop I now le (pre ++ (id, e) :: post) s =
        ⟨before.entries ++ (id, here.entry) :: rest.entries, rest.table,
          before.calls ++ (here.calls ++ rest.calls)⟩ ∧
      (cnt.1 - cnt.2 ≥ self.success_count_after_half_open_ →
        here.calls = [⟨id, kCircuitBreakerHalfOpen, kCircuitBreakerClose, r.1⟩] ∧
        (∀ c ∈ here.calls, c.to_status ≠ kCircuitBreakerOpen) ∧
        here.table = r.2 ∧
        (r.1 = true → here.entry = closed) ∧
        (r.1 = false → here.entry = e)) ∧
      (cnt.1 = self.success_count_after_half_open_ → cnt.2 = 0 →
        ∀ (t : StatusTable) (sweep_time : Int),
          WellKeyed (pre ++ (id, e) :: post) → t.state id = kCircuitBreakerHalfOpen →
          mapFind (self.evalLoop casTable now le (pre ++ (id, e) :: post) t).entries id =
              some closed ∧
            (self.evalLoop casTable now le (pre ++ (id, e) :: post) t).table.state id =
              kCircuitBreakerClose ∧
            (self.error_rate_map_ = pre ++ (id, e) :: post →
              u64 self.metric_bucket_time_ ≠ 0 →
              ∃ b t1 calls,
                self.TimingCircuitBreak casTable now sweep_time t =
                    some (kReturnOk, b, t1, calls) ∧
                  t1.state id = kCircuitBreakerClose)) := by
  intro le before here rest cnt r closed
  have hev : ∀ (τ : Type) (J : InstancesCircuitBreakerStatus τ) (u : τ),
      cnt.1 - cnt.2 ≥ self.success_count_after_half_open_ →
      self.evalEntry J now le id e u =
        self.translate J now id e u kCircuitBreakerHalfOpen kCircuitBreakerClose true := by
    intro τ J u hc
    rw [evalEntry_halfOpen self J now le id e u hst, if_pos hc]
  refine ⟨evalLoop_append self I now le pre post id e s, ?_, ?_⟩
  · intro hc
    have h1 : here = self.translate I now id e before.table kCircuitBreakerHalfOpen
        kCircuitBreakerClose true := hev σ I before.table hc
    rw [h1]
    refine ⟨rfl, ?_, rfl, ?_, ?_⟩
    · intro c hcm
      rw [translate_calls] at hcm
      simp only [List.mem_singleton] at hcm
      rw [hcm]; simp
    · intro hr
      rw [translate_entry_ok self I now id e before.table _ _ _ hr]; simp [closed]
    · intro hr
      exact translate_entry_fail self I now id e before.table _ _ _ hr
  · intro h1 h2 t sweep_time hwk ht
    have hc : cnt.1 - cnt.2 ≥ self.success_count_after_half_open_ := by omega
    have hpre := hwk.not_mem_pre
    have hpost := hwk.not_mem_post
    have hbefore : (self.evalLoop casTable now le pre t).table.state id =
        kCircuitBreakerHalfOpen := by
      rw [evalLoop_casTable_state_of_not_mem self now le id pre t hpre]; exact ht
    have hok := casTable_translate_ok _ id kCircuitBreakerHalfOpen kCircuitBreakerClose hbefore
    have hentry : (self.evalEntry casTable now le id e
        (self.evalLoop casTable now le pre t).table).entry = closed := by
      rw [hev _ casTable _ hc, translate_entry_ok self casTable now id e _ _ _ _ hok.1]
      simp [closed]
    have htable : (self.evalLoop casTable now le (pre ++ (id, e) :: post) t).table.state id =
        kCircuitBreakerClose := by
      rw [evalLoop_append]
      show (self.evalLoop casTable now le post _).table.state id = _
      rw [evalLoop_casTable_state_of_not_mem self now le id post _ hpost, hev _ casTable _ hc,
        translate_table]
      exact hok.2
    refine ⟨?_, htable, ?_⟩
    · rw [evalLoop_append]
      show mapFind (_ ++ (id, _) :: _) id = _
      rw [mapFind_append_cons _ _ _ _ (by rw [evalLoop_keys]; exact hpre), hentry]
    · intro hmap hW
      refine ⟨_, _, _, TimingCircuitBreak_eq self casTable now sweep_time t hW, ?_⟩
      rw [hmap]
      exact expireLoop_casTable_closed _ sweep_time id _ _ htable

/-- Witness of C3: three successful probes close the instance. -/
theorem C3_half_open_recover_witness :
    recoveredEntry.status = kCircuitBreakerHalfOpen ∧
      WellKeyed ([] ++ ("A", recoveredEntry) :: []) ∧
      mapFind (scenarioBreaker.evalLoop casTable 100950
          (scenarioBreaker.lastEndBucketTime 100950) ([] ++ ("A", recoveredEntry) :: [])
          (uniformTable kCircuitBreakerHalfOpen)).entries "A" =
        some { recoveredEntry with
          status := kCircuitBreakerClose
          last_update_time := 100950
          buckets := ClearBuckets scenarioBreaker.metric_num_buckets_ recoveredEntry.buckets } := by
  have hwk : WellKeyed ([] ++ ("A", recoveredEntry) :: []) := by
    simp [WellKeyed]
  have h := (C3_half_open_recover scenarioBreaker casTable 100950 [] [] "A" recoveredEntry
    (uniformTable kCircuitBreakerHalfOpen) (by decide)).2.2 (by decide) (by decide)
    (uniformTable kCircuitBreakerHalfOpen) 100950 hwk (by decide)
  exact ⟨by decide, hwk, h.1⟩

/-- C4 as stated fails in both directions at `now = 150000` with `sleep_window = 500`. An
entry HalfOpen since 100000 and last reported at 149000 has
`last_update_time + 100 × sleep_window ≤ now` and the loop makes no call; an entry HalfOpen
since 149000 and last reported at 100000 satisfies neither condition of the claim and the
loop calls `TranslateStatus(id, HalfOpen, Open)`. -/
theorem C4_counterexample :
    (probedEntry.status = kCircuitBreakerHalfOpen ∧
      (BucketsCount scenarioBreaker.metric_num_buckets_
          (scenarioBreaker.lastEndBucketTime 150000) probedEntry.buckets).1 -
        (BucketsCount scenarioBreaker.metric_num_buckets_
          (scenarioBreaker.lastEndBucketTime 150000) probedEntry.buckets).2 <
        scenarioBreaker.success_count_after_half_open_ ∧
      probedEntry.last_update_time + 100 * scenarioBreaker.sleep_window_ ≤ 150000 ∧
      (scenarioBreaker.evalLoop casTable 150000 (scenarioBreaker.lastEndBucketTime 150000)
        [("A", probedEntry)] (uniformTable kCircuitBreakerHalfOpen)).calls = []) ∧
    (idleEntry.status = kCircuitBreakerHalfOpen ∧
      (BucketsCount scenarioBreaker.metric_num_buckets_
          (scenarioBreaker.lastEndBucketTime 150000) idleEntry.buckets).1 -
        (BucketsCount scenarioBreaker.metric_num_buckets_
          (scenarioBreaker.lastEndBucketTime 150000) idleEntry.buckets).2 <
        scenarioBreaker.success_count_after_half_open_ ∧
      ¬ ((BucketsCount scenarioBreaker.metric_num_buckets_
          (scenarioBreaker.lastEndBucketTime 150000) idleEntry.buckets).2 >
          scenarioBreaker.request_count_after_half_open_ -
            scenarioBreaker.success_count_after_half_open_ ∨
        idleEntry.last_update_time + 100 * scenarioBreaker.sleep_window_ ≤ 150000) ∧
      (scenarioBreaker.evalLoop casTable 150000 (scenarioBreaker.lastEndBucketTime 150000)
        [("A", idleEntry)] (uniformTable kCircuitBreakerHalfOpen)).calls =
        [⟨"A", kCircuitBreakerHalfOpen, kCircuitBreakerOpen, true⟩]) := by
  decide

/-- C4, amended: a HalfOpen entry in the evaluation loop whose aggregate has
`total - errors < success_count_after_half_open`. `TranslateStatus(id, HalfOpen, Open)` is
called exactly when `errors > request_count_after_half_open - success_count_after_half_open`
or `last_access_time + 100 × sleep_window ≤ now`: the guard is measured from the last
reported call on the instance. On success the entry becomes Open with
`last_update_time = now` and cleared buckets; otherwise it is unchanged. -/
theorem C4_half_open_reopen {σ : Type} (self : ErrorRateCircuitBreaker)
    (I : InstancesCircuitBreakerStatus σ) (now : Int)
    (pre post : List (String × ErrorRateStatus)) (id : String) (e : ErrorRateStatus) (s : σ)
    (hst : e.status = kCircuitBreakerHalfOpen)
    (hfail : (BucketsCount self.metric_num_buckets_ (self.lastEndBucketTime now) e.buckets).1 -
        (BucketsCount self.metric_num_buckets_ (self.lastEndBucketTime now) e.buckets).2 <
      self.success_count_after_half_open_)
    (hsw : 0 ≤ self.sleep_window_) (hla : 0 ≤ e.last_access_time)
    (hhi : e.last_access_time + 100 * self.sleep_window_ < 2 ^ 64) :
    let le := self.lastEndBucketTime now
    let before := self.evalLoop I now le pre s
    let here := self.evalEntry I now le id e before.table
    let rest := self.evalLoop I now le post here.table
    let cnt := BucketsCount self.metric_num_buckets_ le e.buckets
    let r := I.TranslateStatus before.table id kCircuitBreakerHalfOpen kCircuitBreakerOpen
    self.evalLoop I now le (pre ++ (id, e) :: post) s =
        ⟨before.entries ++ (id, here.entry) :: rest.entries, rest.table,
          before.calls ++ (here.calls ++ rest.calls)⟩ ∧
      ((cnt.2 > self.request_count_after_half_open_ - self.success_count_after_half_open_ ∨
          e.last_access_time + 100 * self.sleep_window_ ≤ now) →
        here.calls = [⟨id, kCircuitBreakerHalfOpen, kCircuitBreakerOpen, r.1⟩] ∧
        here.table = r.2 ∧
        (r.1 = true → here.entry =
          { e with
            status := kCircuitBreakerOpen
            last_update_time := now
            buckets := ClearBuckets self.metric_num_buckets_ e.buckets }) ∧
        (r.1 = false → here.entry = e)) ∧
      (¬ (cnt.2 > self.request_count_after_half_open_ - self.success_count_after_half_open_ ∨
          e.last_access_time + 100 * self.sleep_window_ ≤ now) →
        here.calls = [] ∧ here.table = before.table ∧ here.entry = e) := by
  intro le before here rest cnt r
  have hu : u64 (e.last_access_time + u64 (100 * self.sleep_window_)) =
      e.last_access_time + 100 * self.sleep_window_ := by
    rw [u64_eq_self (x := 100 * self.sleep_window_) (by omega) (by omega)]
    exact u64_eq_self (by omega) hhi
  have hev : here =
      if cnt.2 > self.request_count_after_half_open_ - self.success_count_after_half_open_ ∨
          e.last_access_time + 100 * self.sleep_window_ ≤ now then
        self.translate I now id e before.table kCircuitBreakerHalfOpen kCircuitBreakerOpen true
      else ⟨e, before.table, []⟩ := by
    show self.evalEntry I now le id e before.table = _
    rw [evalEntry_halfOpen self I now le id e before.table hst, if_neg (not_le.mpr hfail), hu]
  refine ⟨evalLoop_append self I now le pre post id e s, ?_, ?_⟩
  · intro hc
    rw [hev, if_pos hc]
    refine ⟨rfl, rfl, ?_, ?_⟩
    · intro hr
      rw [translate_entry_ok self I now id e before.table _ _ _ hr]; simp
    · intro hr
      exact translate_entry_fail self I now id e before.table _ _ _ hr
  · intro hc
    rw [hev, if_neg hc]
    exact ⟨rfl, rfl, rfl⟩

/-- Witness of C4: two failed probes exceed `4 - 3` and re-open the instance. -/
theorem C4_half_open_reopen_witness :
    relapsedEntry.status = kCircuitBreakerHalfOpen ∧
      0 ≤ scenarioBreaker.sleep_window_ ∧ 0 ≤ relapsedEntry.last_access_time ∧
      relapsedEntry.last_access_time + 100 * scenarioBreaker.sleep_window_ < 2 ^ 64 ∧
      (scenarioBreaker.evalEntry casTable 100950 (scenarioBreaker.lastEndBucketTime 100950) "A"
          relapsedEntry (uniformTable kCircuitBreakerHalfOpen)).calls =
        [⟨"A", kCircuitBreakerHalfOpen, kCircuitBreakerOpen, true⟩] := by
  have h := (C4_half_open_reopen scenarioBreaker casTable 100950 [] [] "A" relapsedEntry
    (uniformTable kCircuitBreakerHalfOpen) (by decide) (by decide) (by decide) (by decide)
    (by decide)).2.1 (by decide)
  exact ⟨by decide, by decide, by decide, by decide, h.1⟩

/-- C5: with a positive bucket width `W` and bucket count `N` (what `Init` leaves) and `N`
buckets in the stored entry, `RealTimeCircuitBreak` returns `kReturnOk`; afterwards the entry
exists (created Closed, `last_update_time = 0`, all epochs 0 when it was absent) with
`last_access_time = now`; the index `i = (now / W) mod N` is in `[0, N)`; bucket `i` has epoch
`now / W`, its total is the previous total (0 after an epoch change) plus 1 and its errors the
previous errors (0 after an epoch change) plus 1 exactly for an outcome other than
`kCallRetOk`; the other buckets, the status, `last_update_time`, the parameters, the other
entries and the status table are unchanged. -/
theorem C5_real_time_record {σ : Type} (self : ErrorRateCircuitBreaker)
    (heap : Nat → Int × Int) (id : String) (ret : CallRetStatus) (now : Int) (s : σ)
    (hW : 0 < self.metric_bucket_time_) (hW2 : self.metric_bucket_time_ < 2 ^ 64)
    (hN : 0 < self.metric_num_buckets_) (hN2 : self.metric_num_buckets_ < 2 ^ 64)
    (hlen : ∀ e, mapFind self.error_rate_map_ id = some e →
      (e.buckets.length : Int) = self.metric_num_buckets_) :
    let epoch := now / self.metric_bucket_time_
    let i := epoch % self.metric_num_buckets_
    let fresh : ErrorRateStatus :=
      ⟨kCircuitBreakerClose, newBuckets heap self.metric_num_buckets_, 0, now⟩
    let old := (mapFind self.error_rate_map_ id).getD fresh
    0 ≤ i ∧ i < self.metric_num_buckets_ ∧
      (∀ b ∈ fresh.buckets, b.bucket_time = 0) ∧
      ∃ (after : ErrorRateCircuitBreaker) (e1 : ErrorRateStatus) (prev : ErrorRateBucket),
        self.RealTimeCircuitBreak heap id ret now s = some (kReturnOk, after, s) ∧
        after = { self with error_rate_map_ := after.error_rate_map_ } ∧
        mapFind after.error_rate_map_ id = some e1 ∧
        old.buckets[i.toNat]? = some prev ∧
        e1.last_access_time = now ∧
        e1.status = old.status ∧
        e1.last_update_time = old.last_update_time ∧
        e1.buckets.length = old.buckets.length ∧
        e1.buckets[i.toNat]? = some
          ⟨epoch,
            (if prev.bucket_time = epoch then prev.total_count else 0) + 1,
            (if prev.bucket_time = epoch then prev.error_count else 0) +
              (if ret = kCallRetOk then 0 else 1)⟩ ∧
        (∀ j : Nat, j ≠ i.toNat → e1.buckets[j]? = old.buckets[j]?) ∧
        (∀ id', id' ≠ id →
          mapFind after.error_rate_map_ id' = mapFind self.error_rate_map_ id') := by
  intro epoch i fresh old
  have hi0 : 0 ≤ i := Int.emod_nonneg _ (ne_of_gt hN)
  have hi1 : i < self.metric_num_buckets_ := Int.emod_lt_of_pos _ hN
  refine ⟨hi0, hi1, newBuckets_bucket_time heap _, ?_⟩
  obtain ⟨prev, hprev, hrun⟩ := RealTimeCircuitBreak_eq self heap id ret now s hW hW2 hN hN2 hlen
  have holdlen : (old.buckets.length : Int) = self.metric_num_buckets_ :=
    entryOrFresh_length self heap id now hN hlen
  have hilt : i.toNat < old.buckets.length := by omega
  refine ⟨_, _, prev, hrun, rfl, mapFind_mapInsert_self _ _ _, hprev, rfl, rfl, rfl, ?_, ?_, ?_,
    ?_⟩
  · show (old.buckets.set i.toNat (recordBucket epoch ret prev)).length = _
    rw [List.length_set]
  · show (old.buckets.set i.toNat (recordBucket epoch ret prev))[i.toNat]? = _
    rw [List.getElem?_set_self hilt, recordBucket_eq]
  · intro j hj
    show (old.buckets.set i.toNat (recordBucket epoch ret prev))[j]? = _
    rw [List.getElem?_set_ne (fun h => hj h.symm)]
  · intro id' hne
    show mapFind (mapInsert (mapInsert _ _ _) _ _) id' = _
    rw [mapFind_mapInsert_ne _ _ _ _ hne, mapFind_mapInsert_ne _ _ _ _ hne]

/-- Witness of C5: a failed call at `t = 100350` on the entry holding 10 calls and 6 errors in
the bucket of epoch 1003. -/
theorem C5_real_time_record_witness :
    (0 < scenarioStore.metric_bucket_time_ ∧ scenarioStore.metric_bucket_time_ < 2 ^ 64 ∧
      0 < scenarioStore.metric_num_buckets_ ∧ scenarioStore.metric_num_buckets_ < 2 ^ 64 ∧
      (∀ e, mapFind scenarioStore.error_rate_map_ "A" = some e →
        (e.buckets.length : Int) = scenarioStore.metric_num_buckets_)) ∧
    ∃ after e1,
      scenarioStore.RealTimeCircuitBreak (fun _ => (0, 0)) "A" kCallRetError 100350 () =
        some (kReturnOk, after, ()) ∧
      mapFind after.error_rate_map_ "A" = some e1 ∧
      e1.buckets[3]? = some ⟨1003, 11, 7⟩ := by
  have hlen : ∀ e, mapFind scenarioStore.error_rate_map_ "A" = some e →
      (e.buckets.length : Int) = scenarioStore.metric_num_buckets_ := by
    intro e he
    have : e = failingEntry := by
      simp [scenarioStore, mapFind] at he
      exact he.symm
    subst this
    decide
  obtain ⟨_, _, _, after, e1, prev, hrun, _, hfind, hprev, _, _, _, _, hb, _⟩ :=
    C5_real_time_record scenarioStore (fun _ => (0, 0)) "A" kCallRetError 100350 ()
      (by decide) (by decide) (by decide) (by decide) hlen
  have hp : prev = ⟨1003, 10, 6⟩ := (Option.some.inj hprev).symm
  subst hp
  exact ⟨⟨by decide, by decide, by decide, by decide, hlen⟩, after, e1, hrun, hfind, hb⟩

/-- C6 at a pass time with `now / W < N` (scenario 2 of spec 8: `W = 100`, `N = 10`, ten
calls at `t = 300`, pass at `t = 400`). The bucket of slot 3 has the non-zero epoch 3 and
`now / W - N = -6 < 3`, so the claim counts its 10 calls and 6 errors; line 135 computes the
bound `2^64 - 6` and the aggregate is `(0, 0)`, also when the bucket is produced by
`RealTimeCircuitBreak` itself, and the loop makes no call. -/
theorem C6_small_time_aggregate :
    (bucketsWith 3 ⟨3, 10, 6⟩)[3]? = some ⟨3, 10, 6⟩ ∧
      (3 : Int) ≠ 0 ∧ (400 : Int) / scenarioBreaker.metric_bucket_time_ -
        scenarioBreaker.metric_num_buckets_ < 3 ∧
      scenarioBreaker.lastEndBucketTime 400 = 18446744073709551610 ∧
      BucketsCount scenarioBreaker.metric_num_buckets_ (scenarioBreaker.lastEndBucketTime 400)
        (bucketsWith 3 ⟨3, 10, 6⟩) = (0, 0) ∧
      (scenarioBreaker.reportAll (fun _ => (0, 0)) "A" scenarioTwoCalls).map
          (fun b => (mapFind b.error_rate_map_ "A").map
            (fun e => (e.buckets[3]?,
              BucketsCount b.metric_num_buckets_ (b.lastEndBucketTime 400) e.buckets))) =
        some (some (some ⟨3, 10, 6⟩, (0, 0))) ∧
      (scenarioBreaker.evalLoop casTable 400 (scenarioBreaker.lastEndBucketTime 400)
        [("A", ⟨kCircuitBreakerClose, bucketsWith 3 ⟨3, 10, 6⟩, 0, 300⟩)]
        (uniformTable kCircuitBreakerClose)).calls = [] := by
  decide

/-- C7: starting from an entry that is absent or has all bucket epochs 0, after the calls
`(t_j, outcome_j)` reported in order with non-decreasing clock values `0 ≤ t_j ≤ now`, and with
`now / W ≥ N`, the run of `RealTimeCircuitBreak` succeeds and the aggregate
`TimingCircuitBreak` evaluates at `now` is: total = number of calls with
`now / W - N < t_j / W`, errors = number of those whose outcome is not `kCallRetOk`. A slot
reused for a newer epoch adds nothing of the older epoch. -/
theorem C7_window_counts (self : ErrorRateCircuitBreaker) (heap : Nat → Int × Int)
    (id : String) (calls : List (Int × CallRetStatus)) (now : Int)
    (hW : 0 < self.metric_bucket_time_) (hW2 : self.metric_bucket_time_ < 2 ^ 64)
    (hN : 0 < self.metric_num_buckets_) (hN2 : self.metric_num_buckets_ < 2 ^ 64)
    (hfresh : ∀ e, mapFind self.error_rate_map_ id = some e →
      (e.buckets.length : Int) = self.metric_num_buckets_ ∧
      ∀ bk ∈ e.buckets, bk.bucket_time = 0)
    (hsorted : (calls.map Prod.fst).Pairwise (fun a b => a ≤ b))
    (hrange : ∀ c ∈ calls, 0 ≤ c.1 ∧ c.1 ≤ now)
    (hnow : now < 2 ^ 64)
    (hwin : self.metric_num_buckets_ ≤ now / self.metric_bucket_time_) :
    ∃ after : ErrorRateCircuitBreaker,
      self.reportAll heap id calls = some after ∧
      (calls ≠ [] → ∃ e, mapFind after.error_rate_map_ id = some e) ∧
      ∀ e, mapFind after.error_rate_map_ id = some e →
        BucketsCount after.metric_num_buckets_ (after.lastEndBucketTime now) e.buckets =
          (((calls.countP (fun c =>
              decide (now / self.metric_bucket_time_ - self.metric_num_buckets_ <
                c.1 / self.metric_bucket_time_)) : Nat) : Int),
            ((calls.countP (fun c =>
              decide (now / self.metric_bucket_time_ - self.metric_num_buckets_ <
                c.1 / self.metric_bucket_time_) && decide (c.2 ≠ kCallRetOk)) : Nat) : Int)) := by
  have hinit : WindowInv self.metric_num_buckets_ self.metric_bucket_time_ 0
      (self.entryOrFresh heap id 0).buckets [] := by
    cases hf : mapFind self.error_rate_map_ id with
    | none =>
      have : (self.entryOrFresh heap id 0).buckets =
          newBuckets heap self.metric_num_buckets_ := by
        unfold ErrorRateCircuitBreaker.entryOrFresh; rw [hf]; rfl
      rw [this]
      exact WindowInv_zero _ _ _
        (by rw [newBuckets_length]; exact Int.toNat_of_nonneg (le_of_lt hN))
        (newBuckets_bucket_time heap _)
    | some e =>
      rw [entryOrFresh_of_find self heap id 0 e hf]
      exact WindowInv_zero _ _ _ (hfresh e hf).1 (hfresh e hf).2
  obtain ⟨after, hafter, haw, han, hinv, hex⟩ :=
    reportAll_inv heap id self.metric_bucket_time_ self.metric_num_buckets_
      (now / self.metric_bucket_time_) hW hW2 hN hN2 calls self [] 0 rfl rfl hinit hsorted
      (by
        intro c hc
        have := hrange c hc
        exact ⟨Int.ediv_nonneg this.1 (le_of_lt hW), Int.ediv_le_ediv hW this.2⟩)
      (by omega)
  refine ⟨after, hafter, fun hne => hex (Or.inr hne), ?_⟩
  intro e he
  rw [entryOrFresh_of_find after heap id 0 e he, List.nil_append] at hinv
  rw [lastEndBucketTime_eq after now (by rw [haw]; exact hW) (by rw [haw]; exact hW2)
    (by rw [han]; exact hN) (by rw [han]; exact hN2) hnow (by rw [haw, han]; exact hwin),
    haw, han, BucketsCount_eq_sum _ _ _ hinv.1]
  obtain ⟨ht, he2⟩ := hinv.2.2 (now / self.metric_bucket_time_ - self.metric_num_buckets_)
    (by omega) (by omega)
  rw [ht, he2]
  rfl

/-- Witness of C7: two calls in epoch 993 and three in epoch 1003 share slot 3; at
`t = 100400` the window holds the three calls of epoch 1003, two of them failed. -/
theorem C7_window_counts_witness :
    (0 < scenarioBreaker.metric_bucket_time_ ∧ scenarioBreaker.metric_bucket_time_ < 2 ^ 64 ∧
      0 < scenarioBreaker.metric_num_buckets_ ∧ scenarioBreaker.metric_num_buckets_ < 2 ^ 64 ∧
      (reusedSlotCalls.map Prod.fst).Pairwise (fun a b => a ≤ b) ∧
      (∀ c ∈ reusedSlotCalls, 0 ≤ c.1 ∧ c.1 ≤ 100400) ∧
      scenarioBreaker.metric_num_buckets_ ≤ 100400 / scenarioBreaker.metric_bucket_time_) ∧
    ∃ after e,
      scenarioBreaker.reportAll (fun _ => (5, 5)) "A" reusedSlotCalls = some after ∧
      mapFind after.error_rate_map_ "A" = some e ∧
      BucketsCount after.metric_num_buckets_ (after.lastEndBucketTime 100400) e.buckets =
        (3, 2) := by
  have h1 : (reusedSlotCalls.map Prod.fst).Pairwise (fun a b => a ≤ b) := by decide
  have h2 : ∀ c ∈ reusedSlotCalls, 0 ≤ c.1 ∧ c.1 ≤ 100400 := by decide
  obtain ⟨after, hrun, hex, hagg⟩ := C7_window_counts scenarioBreaker (fun _ => (5, 5)) "A"
    reusedSlotCalls 100400 (by decide) (by decide) (by decide) (by decide)
    (by intro e he; simp [scenarioBreaker, mapFind] at he) h1 h2 (by decide) (by decide)
  obtain ⟨e, he⟩ := hex (by decide)
  exact ⟨⟨by decide, by decide, by decide, by decide, h1, h2, by decide⟩, after, e, hrun, he,
    (hagg e he).trans (by decide)⟩

/-- C8: `CheckAndExpiredMetric` at `now` with the table of the spec, for entries whose
`last_access_time + metric_expired_time` does not wrap. The parameters are unchanged, the
store holds exactly the previous entries with `last_access_time + metric_expired_time > now`,
in order and unchanged; the table state of every removed instance is Closed whatever it was,
and the state of every instance that is not the key of a removed entry is unchanged. -/
theorem C8_expired_metric (self : ErrorRateCircuitBreaker) (now : Int) (t : StatusTable)
    (hrange : ∀ p ∈ self.error_rate_map_,
      0 ≤ p.2.last_access_time + self.metric_expired_time_ ∧
      p.2.last_access_time + self.metric_expired_time_ < 2 ^ 64) :
    let r := self.CheckAndExpiredMetric casTable now t
    r.1 = { self with error_rate_map_ := r.1.error_rate_map_ } ∧
    r.1.error_rate_map_ = self.error_rate_map_.filter
      (fun p => decide (p.2.last_access_time + self.metric_expired_time_ > now)) ∧
    (∀ p ∈ self.error_rate_map_,
      p.2.last_access_time + self.metric_expired_time_ ≤ now →
        r.2.1.state p.1 = kCircuitBreakerClose) ∧
    (∀ id : String,
      (∀ p ∈ self.error_rate_map_,
        p.2.last_access_time + self.metric_expired_time_ ≤ now → p.1 ≠ id) →
        r.2.1.state id = t.state id) := by
  intro r
  have hu : ∀ p ∈ self.error_rate_map_,
      u64 (p.2.last_access_time + self.metric_expired_time_) =
        p.2.last_access_time + self.metric_expired_time_ :=
    fun p hp => u64_eq_self (hrange p hp).1 (hrange p hp).2
  refine ⟨rfl, ?_, ?_, ?_⟩
  · show (self.expireLoop casTable now self.error_rate_map_ t).entries = _
    rw [expireLoop_entries]
    apply List.filter_congr
    intro p hp
    rw [hu p hp]
    simp
  · intro p hp hexp
    show (self.expireLoop casTable now self.error_rate_map_ t).table.state p.1 = _
    rw [expireLoop_casTable_state, if_pos]
    rw [List.mem_map]
    refine ⟨p, ?_, rfl⟩
    rw [List.mem_filter]
    refine ⟨hp, ?_⟩
    rw [hu p hp]
    simpa using hexp
  · intro id hid
    show (self.expireLoop casTable now self.error_rate_map_ t).table.state id = _
    rw [expireLoop_casTable_state, if_neg]
    rw [List.mem_map]
    rintro ⟨p, hp, rfl⟩
    rw [List.mem_filter] at hp
    have := hp.2
    rw [hu p hp.1] at this
    exact hid p hp.1 (by simpa using this) rfl

/-- Witness of C8: at `t = 160500` the entry of "A" (last reported at 100300) is removed
and "A" is forced from Open to Closed; the entry of "B" (last reported at 100950) and the
state of "B" stay. -/
theorem C8_expired_metric_witness :
    (∀ p ∈ agedStore.error_rate_map_,
      0 ≤ p.2.last_access_time + agedStore.metric_expired_time_ ∧
      p.2.last_access_time + agedStore.metric_expired_time_ < 2 ^ 64) ∧
    (agedStore.CheckAndExpiredMetric casTable 160500
        (uniformTable kCircuitBreakerOpen)).1.error_rate_map_ = [("B", recoveredEntry)] ∧
    (agedStore.CheckAndExpiredMetric casTable 160500
        (uniformTable kCircuitBreakerOpen)).2.1.state "A" = kCircuitBreakerClose ∧
    (agedStore.CheckAndExpiredMetric casTable 160500
        (uniformTable kCircuitBreakerOpen)).2.1.state "B" = kCircuitBreakerOpen := by
  have hr : ∀ p ∈ agedStore.error_rate_map_,
      0 ≤ p.2.last_access_time + agedStore.metric_expired_time_ ∧
      p.2.last_access_time + agedStore.metric_expired_time_ < 2 ^ 64 := by decide
  have h := C8_expired_metric agedStore 160500 (uniformTable kCircuitBreakerOpen) hr
  exact ⟨hr, h.2.1.trans (by decide), h.2.2.1 ("A", openEntry) (by decide) (by decide),
    h.2.2.2 "B" (by decide)⟩

/-- C9: in one evaluation loop over a store with distinct keys, for every instance at most
one `TranslateStatus` call is made, hence at most one succeeds, whatever the table
implementation, the statuses and the counts; every call is for an instance of the store. -/
theorem C9_one_request_per_instance {σ : Type} (self : ErrorRateCircuitBreaker)
    (I : InstancesCircuitBreakerStatus σ) (now : Int) (s : σ)
    (hwk : WellKeyed self.error_rate_map_) (id : String) :
    let pass := self.evalLoop I now (self.lastEndBucketTime now) self.error_rate_map_ s
    (pass.calls.filter (fun c => decide (c.instance_id = id))).length ≤ 1 ∧
      (pass.calls.filter (fun c => decide (c.instance_id = id) && c.result)).length ≤ 1 ∧
      (∀ c ∈ pass.calls, c.instance_id ∈ self.error_rate_map_.map Prod.fst) := by
  intro pass
  have h1 := evalLoop_calls_le_one self I now (self.lastEndBucketTime now)
    self.error_rate_map_ s hwk id
  refine ⟨h1, le_trans ?_ h1, evalLoop_calls_keys self I now _ _ s⟩
  have : pass.calls.filter (fun c => decide (c.instance_id = id) && c.result) =
      (pass.calls.filter (fun c => decide (c.instance_id = id))).filter (fun c => c.result) := by
    rw [List.filter_filter]
    congr 1
    funext c
    exact Bool.and_comm _ _
  rw [this]
  exact List.length_filter_le _ _

/-- Witness of C9: a loop over the entries of "A" (Open) and "B" (HalfOpen) makes one
call for each. -/
theorem C9_one_request_per_instance_witness :
    WellKeyed agedStore.error_rate_map_ ∧
      ((agedStore.evalLoop casTable 100950 (agedStore.lastEndBucketTime 100950)
          agedStore.error_rate_map_ (uniformTable kCircuitBreakerHalfOpen)).calls.filter
        (fun c => decide (c.instance_id = "B"))).length ≤ 1 ∧
      (agedStore.evalLoop casTable 100950 (agedStore.lastEndBucketTime 100950)
          agedStore.error_rate_map_ (uniformTable kCircuitBreakerHalfOpen)).calls =
        [⟨"A", kCircuitBreakerOpen, kCircuitBreakerHalfOpen, false⟩,
          ⟨"B", kCircuitBreakerHalfOpen, kCircuitBreakerClose, true⟩] := by
  have hwk : WellKeyed agedStore.error_rate_map_ := by
    simp only [WellKeyed, agedStore, List.map_cons, List.map_nil, List.pairwise_cons,
      List.mem_singleton, forall_eq, List.not_mem_nil, false_implies, implies_true,
      List.Pairwise.nil, and_true, String.lt_iff_toList_lt]
    decide
  exact ⟨hwk, (C9_one_request_per_instance agedStore casTable 100950
    (uniformTable kCircuitBreakerHalfOpen) hwk "B").1, by decide⟩

/-- C10 as stated fails for a configured success count of 20 with a probe budget of 10: the
value is valid (positive) and `Init` leaves 10, neither the configured value nor the
default 8. -/
theorem C10_counterexample :
    0 < eagerConfig.successCountAfterHalfOpen ∧
      (ErrorRateCircuitBreaker.new.Init eagerConfig).2.success_count_after_half_open_ ≠
        eagerConfig.successCountAfterHalfOpen ∧
      (ErrorRateCircuitBreaker.new.Init eagerConfig).2.success_count_after_half_open_ ≠ 8 ∧
      (ErrorRateCircuitBreaker.new.Init eagerConfig).2.success_count_after_half_open_ = 10 := by
  decide

/-- C10, amended: `Init` returns `kReturnOk`; each of `request_volume_threshold`,
`metric_stat_time_window`, `num_buckets`, `sleep_window`, `request_count_after_half_open`,
`metric_expired_time` is its configured value when that is positive and its default (10,
60000, 12, 30000, 10, 60000) otherwise; `error_rate_threshold` is its configured value when
that lies in the open interval (0, 1) and 1/2 otherwise; `success_count_after_half_open`
is 8 when the configured value is not positive, the validated
`request_count_after_half_open` when the configured value exceeds it, and the configured
value otherwise. All eight are strictly positive and `0 < error_rate_threshold < 1`; the
store is untouched. -/
theorem C10_init_validates (self : ErrorRateCircuitBreaker) (config : Config) :
    let r := self.Init config
    r.1 = kReturnOk ∧
    r.2.request_volume_threshold_ =
      (if config.requestVolumeThreshold ≤ 0 then 10 else config.requestVolumeThreshold) ∧
    r.2.error_rate_threshold_ =
      (if config.errorRateThreshold ≤ 0 ∨ config.errorRateThreshold ≥ 1 then 1 / 2
        else config.errorRateThreshold) ∧
    r.2.metric_stat_time_window_ =
      (if config.metricStatTimeWindow ≤ 0 then 60000 else config.metricStatTimeWindow) ∧
    r.2.metric_num_buckets_ =
      (if config.metricNumBuckets ≤ 0 then 12 else config.metricNumBuckets) ∧
    r.2.sleep_window_ = (if config.sleepWindow ≤ 0 then 30000 else config.sleepWindow) ∧
    r.2.request_count_after_half_open_ =
      (if config.requestCountAfterHalfOpen ≤ 0 then 10
        else config.requestCountAfterHalfOpen) ∧
    r.2.success_count_after_half_open_ =
      (if config.successCountAfterHalfOpen ≤ 0 then 8
        else if config.successCountAfterHalfOpen > r.2.request_count_after_half_open_ then
          r.2.request_count_after_half_open_
        else config.successCountAfterHalfOpen) ∧
    r.2.metric_expired_time_ =
      (if config.metricExpiredTime ≤ 0 then 60000 else config.metricExpiredTime) ∧
    0 < r.2.request_volume_threshold_ ∧
    (0 < r.2.error_rate_threshold_ ∧ r.2.error_rate_threshold_ < 1) ∧
    0 < r.2.metric_stat_time_window_ ∧
    0 < r.2.metric_num_buckets_ ∧
    0 < r.2.sleep_window_ ∧
    0 < r.2.request_count_after_half_open_ ∧
    0 < r.2.success_count_after_half_open_ ∧
    0 < r.2.metric_expired_time_ ∧
    r.2.error_rate_map_ = self.error_rate_map_ := by
  intro r
  refine ⟨rfl, rfl, rfl, rfl, rfl, rfl, rfl, rfl, rfl, ?_, ?_, ?_, ?_, ?_, ?_, ?_, ?_, rfl⟩
  · show 0 < (if config.requestVolumeThreshold ≤ 0 then kRequestVolumeThresholdDefault
      else config.requestVolumeThreshold)
    unfold kRequestVolumeThresholdDefault
    split <;> omega
  · show 0 < (if config.errorRateThreshold ≤ 0 ∨ config.errorRateThreshold ≥ 1 then
        kErrorRateThresholdDefault else config.errorRateThreshold) ∧
      (if config.errorRateThreshold ≤ 0 ∨ config.errorRateThreshold ≥ 1 then
        kErrorRateThresholdDefault else config.errorRateThreshold) < 1
    unfold kErrorRateThresholdDefault
    split
    · norm_num
    · next h =>
      rw [not_or, not_le, not_le] at h
      exact h
  · show 0 < (if config.metricStatTimeWindow ≤ 0 then kMetricStatTimeWindowDefault
      else config.metricStatTimeWindow)
    unfold kMetricStatTimeWindowDefault
    split <;> omega
  · show 0 < (if config.metricNumBuckets ≤ 0 then kMetricNumBucketsDefault
      else config.metricNumBuckets)
    unfold kMetricNumBucketsDefault
    split <;> omega
  · show 0 < (if config.sleepWindow ≤ 0 then kHalfOpenSleepWindowDefault
      else config.sleepWindow)
    unfold kHalfOpenSleepWindowDefault
    split <;> omega
  · show 0 < (if config.requestCountAfterHalfOpen ≤ 0 then kRequestCountAfterHalfOpenDefault
      else config.requestCountAfterHalfOpen)
    unfold kRequestCountAfterHalfOpenDefault
    split <;> omega
  · show 0 < (if config.successCountAfterHalfOpen ≤ 0 then kSuccessCountAfterHalfOpenDefault
      else if config.successCountAfterHalfOpen >
          (if config.requestCountAfterHalfOpen ≤ 0 then kRequestCountAfterHalfOpenDefault
            else config.requestCountAfterHalfOpen) then
        (if config.requestCountAfterHalfOpen ≤ 0 then kRequestCountAfterHalfOpenDefault
          else config.requestCountAfterHalfOpen)
      else config.successCountAfterHalfOpen)
    unfold kSuccessCountAfterHalfOpenDefault kRequestCountAfterHalfOpenDefault
    split
    · omega
    · split
      · split <;> omega
      · omega
  · show 0 < (if config.metricExpiredTime ≤ 0 then kMetricExpiredTimeDefault
      else config.metricExpiredTime)
    unfold kMetricExpiredTimeDefault
    split <;> omega

/-- C11 fails when the configured success count is not positive: with a probe budget of 5
`Init` leaves `success_count_after_half_open = 8 > 5 = request_count_after_half_open`,
because the clamp of lines 97-98 is the `else` branch of the default of lines 95-96. In
general the success count is at most the probe budget after `Init` exactly when the
configured success count is positive or the validated budget is at least 8. -/
theorem C11_default_exceeds_budget :
    (ErrorRateCircuitBreaker.new.Init smallBudgetConfig).2.request_count_after_half_open_ = 5 ∧
      (ErrorRateCircuitBreaker.new.Init smallBudgetConfig).2.success_count_after_half_open_ = 8 ∧
      ¬ (ErrorRateCircuitBreaker.new.Init smallBudgetConfig).2.success_count_after_half_open_ ≤
        (ErrorRateCircuitBreaker.new.Init smallBudgetConfig).2.request_count_after_half_open_ ∧
      ∀ (self : ErrorRateCircuitBreaker) (config : Config),
        ((self.Init config).2.success_count_after_half_open_ ≤
            (self.Init config).2.request_count_after_half_open_ ↔
          (0 < config.successCountAfterHalfOpen ∨
            8 ≤ (self.Init config).2.request_count_after_half_open_)) := by
  refine ⟨by decide, by decide, by decide, ?_⟩
  intro self config
  show (if config.successCountAfterHalfOpen ≤ 0 then kSuccessCountAfterHalfOpenDefault
      else if config.successCountAfterHalfOpen >
          (if config.requestCountAfterHalfOpen ≤ 0 then kRequestCountAfterHalfOpenDefault
            else config.requestCountAfterHalfOpen) then
        (if config.requestCountAfterHalfOpen ≤ 0 then kRequestCountAfterHalfOpenDefault
          else config.requestCountAfterHalfOpen)
      else config.successCountAfterHalfOpen) ≤
      (if config.requestCountAfterHalfOpen ≤ 0 then kRequestCountAfterHalfOpenDefault
        else config.requestCountAfterHalfOpen) ↔
    (0 < config.successCountAfterHalfOpen ∨
      8 ≤ (if config.requestCountAfterHalfOpen ≤ 0 then kRequestCountAfterHalfOpenDefault
        else config.requestCountAfterHalfOpen))
  unfold kSuccessCountAfterHalfOpenDefault kRequestCountAfterHalfOpenDefault
  split_ifs <;> omega

/-- C12 fails for a window of 24 hours in 7 buckets: `86400000 / 7 = 12342857.14...` is
rounded to the `float` 12342857 before `ceilf`, so `metric_bucket_time = 12342857` while the
ceiling is 12342858, and `7 × 12342857 = 86399999` is less than the window. -/
theorem C12_day_window_bucket_width :
    (ErrorRateCircuitBreaker.new.Init dayConfig).2.metric_stat_time_window_ = 86400000 ∧
      (ErrorRateCircuitBreaker.new.Init dayConfig).2.metric_num_buckets_ = 7 ∧
      floatOfNat 86400000 = (10800000, 3) ∧ floatOfNat 7 = (14680064, -21) ∧
      floatDiv (10800000, 3) (14680064, -21) = (12342857, 0) ∧
      (ErrorRateCircuitBreaker.new.Init dayConfig).2.metric_bucket_time_ = 12342857 ∧
      Int.ceil ((86400000 : ℚ) / 7) = 12342858 ∧
      (ErrorRateCircuitBreaker.new.Init dayConfig).2.metric_num_buckets_ *
          (ErrorRateCircuitBreaker.new.Init dayConfig).2.metric_bucket_time_ <
        (ErrorRateCircuitBreaker.new.Init dayConfig).2.metric_stat_time_window_ := by
  refine ⟨by decide, by decide, by decide, by decide, by decide, by decide, ?_, by decide⟩
  rw [Int.ceil_eq_iff]
  constructor <;> norm_num

/-- C13: for a store with distinct keys and a table of the spec holding Closed for the
instance, whose entry is absent or Closed with all epochs 0: after `K ≥
request_volume_threshold` failures followed by `K` successes, reported in order with clock
values whose epochs lie in the window of a pass at `now` (`now / W ≥ N`), the run of reports
succeeds and leaves a Closed entry; after the evaluation loop at `now` the entry is Closed
exactly when `1/2 < error_rate_threshold`, otherwise it is Open with
`last_update_time = now`, and the table holds the same state. The same holds after the
whole `TimingCircuitBreak` when the entry is not due for the expiry sweep. -/
theorem C13_half_failures (self : ErrorRateCircuitBreaker) (heap : Nat → Int × Int)
    (id : String) (fails succs : List (Int × CallRetStatus)) (K : Nat) (now sweep : Int)
    (t : StatusTable)
    (hW : 0 < self.metric_bucket_time_) (hW2 : self.metric_bucket_time_ < 2 ^ 64)
    (hN : 0 < self.metric_num_buckets_) (hN2 : self.metric_num_buckets_ < 2 ^ 64)
    (hvol : 0 < self.request_volume_threshold_) (hK : self.request_volume_threshold_ ≤ K)
    (hwk : WellKeyed self.error_rate_map_)
    (hfresh : ∀ e, mapFind self.error_rate_map_ id = some e →
      (e.buckets.length : Int) = self.metric_num_buckets_ ∧
      (∀ bk ∈ e.buckets, bk.bucket_time = 0) ∧ e.status = kCircuitBreakerClose)
    (hfails : fails.length = K ∧ ∀ c ∈ fails, c.2 ≠ kCallRetOk)
    (hsuccs : succs.length = K ∧ ∀ c ∈ succs, c.2 = kCallRetOk)
    (hsorted : ((fails ++ succs).map Prod.fst).Pairwise (fun a b => a ≤ b))
    (hrange : ∀ c ∈ fails ++ succs, 0 ≤ c.1 ∧ c.1 ≤ now ∧
      now / self.metric_bucket_time_ - self.metric_num_buckets_ < c.1 / self.metric_bucket_time_)
    (hnow : now < 2 ^ 64)
    (hwin : self.metric_num_buckets_ ≤ now / self.metric_bucket_time_)
    (hts : t.state id = kCircuitBreakerClose) :
    ∃ (after : ErrorRateCircuitBreaker) (e0 e : ErrorRateStatus),
      self.reportAll heap id (fails ++ succs) = some after ∧
      mapFind after.error_rate_map_ id = some e0 ∧ e0.status = kCircuitBreakerClose ∧
      mapFind (after.evalLoop casTable now (after.lastEndBucketTime now)
        after.error_rate_map_ t).entries id = some e ∧
      (after.evalLoop casTable now (after.lastEndBucketTime now)
        after.error_rate_map_ t).table.state id = e.status ∧
      (e.status = kCircuitBreakerClose ↔ 1 / 2 < self.error_rate_threshold_) ∧
      (¬ 1 / 2 < self.error_rate_threshold_ →
        e.status = kCircuitBreakerOpen ∧ e.last_update_time = now) ∧
      (¬ u64 (e0.last_access_time + self.metric_expired_time_) ≤ sweep →
        ∃ b table calls,
          after.TimingCircuitBreak casTable now sweep t = some (kReturnOk, b, table, calls) ∧
          mapFind b.error_rate_map_ id = some e ∧ table.state id = e.status) := by
  have hKpos : 0 < K := by omega
  have hne : fails ++ succs ≠ [] := by
    intro h
    have := congrArg List.length h
    rw [List.length_append, hfails.1] at this
    simp at this
    omega
  obtain ⟨after, hrun, hex, hagg⟩ := reportAll_window_counts self heap id (fails ++ succs) now
    hW hW2 hN hN2 (fun e he => ⟨(hfresh e he).1, (hfresh e he).2.1⟩) hsorted
    (fun c hc => ⟨(hrange c hc).1, (hrange c hc).2.1⟩) hnow hwin
  obtain ⟨e0, he0⟩ := hex hne
  obtain ⟨hafter, hstatus, _, hwk2⟩ := reportAll_entry heap id self.metric_bucket_time_
    self.metric_num_buckets_ hW hW2 hN hN2 (fails ++ succs) self after rfl rfl
    (fun e he => (hfresh e he).1) hrun
  have hst0 : e0.status = kCircuitBreakerClose := by
    rw [entryOrFresh_of_find after heap id 0 e0 he0] at hstatus
    rw [hstatus]
    cases hf : mapFind self.error_rate_map_ id with
    | none =>
      unfold ErrorRateCircuitBreaker.entryOrFresh; rw [hf]; rfl
    | some e1 =>
      rw [entryOrFresh_of_find self heap id 0 e1 hf]
      exact (hfresh e1 hf).2.2
  have hpar : after.request_volume_threshold_ = self.request_volume_threshold_ ∧
      after.error_rate_threshold_ = self.error_rate_threshold_ ∧
      after.metric_bucket_time_ = self.metric_bucket_time_ ∧
      after.metric_expired_time_ = self.metric_expired_time_ := by
    rw [hafter]; exact ⟨rfl, rfl, rfl, rfl⟩
  have hin : ∀ c ∈ fails ++ succs,
      now / self.metric_bucket_time_ - self.metric_num_buckets_ <
        c.1 / self.metric_bucket_time_ := fun c hc => (hrange c hc).2.2
  have hcnt : BucketsCount after.metric_num_buckets_ (after.lastEndBucketTime now) e0.buckets =
      (2 * (K : Int), (K : Int)) := by
    rw [hagg e0 he0, callsAfter_all _ _ _ hin, failuresAfter_concat,
      failuresAfter_all _ _ fails (fun c hc => hin c (List.mem_append_left _ hc)) hfails.2,
      failuresAfter_none _ _ succs hsuccs.2, List.length_append, hfails.1, hsuccs.1]
    push_cast
    congr 1
    ring
  have hev := evalEntry_half_failures after now (after.lastEndBucketTime now) id e0 t K hst0 hts
    (by rw [hpar.1]; exact hvol) (by rw [hpar.1]; exact hK) hcnt
  rw [hpar.2.1] at hev
  have hloop := evalLoop_casTable_at after now (after.lastEndBucketTime now)
    after.error_rate_map_ t id e0 (hwk2 hwk) he0
  refine ⟨after, e0, _, hrun, he0, hst0, hloop.1, hloop.2.trans hev.2.2, hev.1, hev.2.1, ?_⟩
  intro hkeep
  have hW0 : u64 after.metric_bucket_time_ ≠ 0 := by
    rw [hpar.2.2.1, u64_eq_self (le_of_lt hW) hW2]; omega
  obtain ⟨b, table, calls, hrunT, hb, htab⟩ := TimingCircuitBreak_casTable_at after now sweep t
    id e0 hW0 (hwk2 hwk) he0 (by rw [hpar.2.2.2]; exact hkeep)
  exact ⟨b, table, calls, hrunT, hb, htab.trans hev.2.2⟩

/-- Witness of C13: ten failures and ten successes with the threshold 1/2 open the
instance at `t = 100400`. -/
theorem C13_half_failures_witness :
    (scenarioBreaker.request_volume_threshold_ ≤ (10 : Nat) ∧
      tenFailures.length = 10 ∧ tenSuccesses.length = 10 ∧
      ((tenFailures ++ tenSuccesses).map Prod.fst).Pairwise (fun a b => a ≤ b) ∧
      (uniformTable kCircuitBreakerClose).state "A" = kCircuitBreakerClose) ∧
    ∃ after e,
      scenarioBreaker.reportAll (fun _ => (0, 0)) "A" (tenFailures ++ tenSuccesses) =
        some after ∧
      mapFind (after.evalLoop casTable 100400 (after.lastEndBucketTime 100400)
        after.error_rate_map_ (uniformTable kCircuitBreakerClose)).entries "A" = some e ∧
      e.status = kCircuitBreakerOpen ∧ e.last_update_time = 100400 := by
  have hsorted : ((tenFailures ++ tenSuccesses).map Prod.fst).Pairwise (fun a b => a ≤ b) := by
    decide
  obtain ⟨after, e0, e, hrun, _, _, hloop, _, _, hopen, _⟩ :=
    C13_half_failures scenarioBreaker (fun _ => (0, 0)) "A" tenFailures tenSuccesses 10 100400
      100400 (uniformTable kCircuitBreakerClose) (by decide) (by decide) (by decide) (by decide)
      (by decide) (by decide) (by simp [WellKeyed, scenarioBreaker])
      (by intro e he; simp [scenarioBreaker, mapFind] at he)
      ⟨by decide, by decide⟩ ⟨by decide, by decide⟩ hsorted (by decide) (by decide) (by decide)
      rfl
  have hthr : ¬ (1 : ℚ) / 2 < scenarioBreaker.error_rate_threshold_ := by
    norm_num [scenarioBreaker]
  exact ⟨⟨by decide, by decide, by decide, hsorted, rfl⟩, after, e, hrun, hloop,
    (hopen hthr).1, (hopen hthr).2⟩

/-- C14, as stated, fails: the breaker of the scenarios, with an empty store, records one
successful call of `"A"` at `t = 100300`; the bucket array of the new entry is allocated in
storage holding 0 calls and 7 errors per cell, and creating the entry writes the epochs
only. In the state reached, nine buckets of `"A"` count 0 calls and 7 errors. -/
theorem C14_counterexample :
    scenarioBreaker.error_rate_map_ = [] ∧
      scenarioBreaker.RealTimeCircuitBreak garbageHeap "A" kCallRetOk 100300 () =
        some (kReturnOk, afterGarbage, ()) ∧
      Reachable (fun _ => True) scenarioBreaker afterGarbage ∧
      afterGarbage.error_rate_map_.map
          (fun p => (p.1, p.2.buckets.map
            (fun bk => (bk.bucket_time, bk.total_count, bk.error_count)))) =
        [("A", [(0, 0, 7), (0, 0, 7), (0, 0, 7), (1003, 1, 0), (0, 0, 7), (0, 0, 7),
          (0, 0, 7), (0, 0, 7), (0, 0, 7), (0, 0, 7)])] ∧
      ¬ (∀ p ∈ afterGarbage.error_rate_map_, ∀ bk ∈ p.2.buckets,
          bk.total_count ≥ bk.error_count ∧ bk.error_count ≥ 0) := by
  refine ⟨rfl, afterGarbage_run, afterGarbage_reachable, by decide, ?_⟩
  intro h
  have h0 := h ("A", ⟨kCircuitBreakerClose,
    [⟨0, 0, 7⟩, ⟨0, 0, 7⟩, ⟨0, 0, 7⟩, ⟨1003, 1, 0⟩, ⟨0, 0, 7⟩, ⟨0, 0, 7⟩,
      ⟨0, 0, 7⟩, ⟨0, 0, 7⟩, ⟨0, 0, 7⟩, ⟨0, 0, 7⟩], 0, 100300⟩) (by decide) ⟨0, 0, 7⟩ (by decide)
  exact absurd h0.1 (by decide)

/-- C14, amended: in every state reachable from a breaker with an empty store by calls of
`RealTimeCircuitBreak`, `TimingCircuitBreak` and `CheckAndExpiredMetric`, every bucket
with a non-zero epoch of every entry satisfies `total_count ≥ error_count ≥ 0`; and every
bucket of every entry does, when the storage in which new bucket arrays are allocated
holds counters with `total_count ≥ error_count ≥ 0` (zeroed storage, for one). -/
theorem C14_bucket_counters (alloc : (Nat → Int × Int) → Prop)
    (start b : ErrorRateCircuitBreaker) (h : Reachable alloc start b) :
    (∀ p ∈ b.error_rate_map_, ∀ bk ∈ p.2.buckets, bk.bucket_time ≠ 0 →
        bk.total_count ≥ bk.error_count ∧ bk.error_count ≥ 0) ∧
      ((∀ heap, alloc heap → ∀ i, (heap i).1 ≥ (heap i).2 ∧ (heap i).2 ≥ 0) →
        ∀ p ∈ b.error_rate_map_, ∀ bk ∈ p.2.buckets,
          bk.total_count ≥ bk.error_count ∧ bk.error_count ≥ 0) := by
  constructor
  · intro p hp bk hbk hne
    have := reachable_good False alloc (fun hf => hf.elim) start b h p hp bk hbk (Or.inr hne)
    exact ⟨this.2, this.1⟩
  · intro hheap p hp bk hbk
    have := reachable_good True alloc
      (fun _ heap ha i => ⟨(hheap heap ha i).2, (hheap heap ha i).1⟩) start b h p hp bk hbk
      (Or.inl trivial)
    exact ⟨this.2, this.1⟩

/-- Witness of C14: the state reached by one report with the new bucket array allocated
in storage holding 0 calls and 7 errors per cell. -/
theorem C14_bucket_counters_witness :
    Reachable (fun _ => True) scenarioBreaker afterGarbage ∧
      (∀ p ∈ afterGarbage.error_rate_map_, ∀ bk ∈ p.2.buckets, bk.bucket_time ≠ 0 →
        bk.total_count ≥ bk.error_count ∧ bk.error_count ≥ 0) :=
  ⟨afterGarbage_reachable,
    (C14_bucket_counters (fun _ => True) scenarioBreaker afterGarbage
      afterGarbage_reachable).1⟩

/-- C15 on the code: after 10 successes at `t = 100` and the pass at `t = 200` instance "A"
is Closed, as claimed; after 6 failures and 4 successes at `t = 300` and the pass at
`t = 400` it is still Closed with `last_update_time = 0` and the pass makes no call, where
the claim has it Open with `last_update_time = 400`: at `t = 400`, `now / W - N = 4 - 10`
wraps on line 135 and no bucket is counted. -/
theorem C15_scenario_one_two :
    scenarioOneTwo =
      some ((some (kCircuitBreakerClose, 0), kCircuitBreakerClose),
        (some (kCircuitBreakerClose, 0), kCircuitBreakerClose), []) := by
  decide

/-- C16 as stated fails: for the entry Open since `t = 400` and a sleep window of 500 ms the
pass at `t = 850` makes no call and leaves the entry Open with its buckets, since
`400 + 500 = 900 > 850`. -/
theorem C16_counterexample :
    scenarioThree 850 =
      some ((some (kCircuitBreakerOpen, 400), kCircuitBreakerOpen),
        some (bucketsWith 3 ⟨3, 10, 6⟩), []) := by
  decide

/-- C16, amended: with `sleep_window = 500`, auto-half-open enabled, an entry that is Open
with `last_update_time = 400`, the table of the spec holding Open, and the entry not due for
the expiry sweep, `TimingCircuitBreak` at `now` returns `kReturnOk`; for `now < 900` (so at
`t = 850`) the entry and the table state are unchanged; for `now ≥ 900` the entry is HalfOpen
with `last_update_time = now` and cleared buckets and the table holds HalfOpen. -/
theorem C16_open_dwell (self : ErrorRateCircuitBreaker) (now sweep : Int) (t : StatusTable)
    (id : String) (e : ErrorRateStatus)
    (hsleep : self.sleep_window_ = 500)
    (hW : u64 self.metric_bucket_time_ ≠ 0)
    (hwk : WellKeyed self.error_rate_map_)
    (hfind : mapFind self.error_rate_map_ id = some e)
    (hst : e.status = kCircuitBreakerOpen) (hlu : e.last_update_time = 400)
    (hts : t.state id = kCircuitBreakerOpen) (hauto : t.auto_half_open = true)
    (hkeep : ¬ u64 (e.last_access_time + self.metric_expired_time_) ≤ sweep) :
    ∃ after table calls,
      self.TimingCircuitBreak casTable now sweep t = some (kReturnOk, after, table, calls) ∧
      (now < 900 →
        mapFind after.error_rate_map_ id = some e ∧ table.state id = kCircuitBreakerOpen) ∧
      (900 ≤ now →
        mapFind after.error_rate_map_ id =
          some { e with
            status := kCircuitBreakerHalfOpen
            last_update_time := now
            buckets := ClearBuckets self.metric_num_buckets_ e.buckets } ∧
        table.state id = kCircuitBreakerHalfOpen) := by
  obtain ⟨after, table, calls, hrun, hentry, htable⟩ :=
    TimingCircuitBreak_casTable_at self now sweep t id e hW hwk hfind hkeep
  have hu : u64 (e.last_update_time + self.sleep_window_) = 900 := by
    rw [hlu, hsleep]; decide
  have hev := evalEntry_open self casTable now (self.lastEndBucketTime now) id e t hst
  rw [hu] at hev
  have hau : casTable.AutoHalfOpenEnable t = true := hauto
  refine ⟨after, table, calls, hrun, ?_, ?_⟩
  · intro hlt
    rw [if_neg (by rw [hau]; simp; omega)] at hev
    rw [hev] at hentry htable
    exact ⟨hentry, htable.trans hts⟩
  · intro hge
    rw [if_pos ⟨hau, hge⟩] at hev
    have hok := casTable_translate_ok t id kCircuitBreakerOpen kCircuitBreakerHalfOpen hts
    rw [hev, translate_entry_ok self casTable now id e t _ _ _ hok.1] at hentry
    rw [hev, translate_table] at htable
    refine ⟨?_, htable.trans hok.2⟩
    rw [hentry]; simp

/-- Witness of C16: the pass at `t = 900` on the scenario store. -/
theorem C16_open_dwell_witness :
    (scenarioThreeStore.sleep_window_ = 500 ∧ u64 scenarioThreeStore.metric_bucket_time_ ≠ 0 ∧
      WellKeyed scenarioThreeStore.error_rate_map_) ∧
    scenarioThree 900 =
      some ((some (kCircuitBreakerHalfOpen, 900), kCircuitBreakerHalfOpen),
        some (ClearBuckets 10 (bucketsWith 3 ⟨3, 10, 6⟩)),
        [⟨"A", kCircuitBreakerOpen, kCircuitBreakerHalfOpen, true⟩]) ∧
    ∃ after table calls,
      scenarioThreeStore.TimingCircuitBreak casTable 900 900
          (uniformTable kCircuitBreakerOpen) = some (kReturnOk, after, table, calls) ∧
        table.state "A" = kCircuitBreakerHalfOpen := by
  have hwk : WellKeyed scenarioThreeStore.error_rate_map_ := by
    simp [WellKeyed, scenarioThreeStore]
  obtain ⟨after, table, calls, hrun, _, h2⟩ :=
    C16_open_dwell scenarioThreeStore 900 900 (uniformTable kCircuitBreakerOpen) "A"
      ⟨kCircuitBreakerOpen, bucketsWith 3 ⟨3, 10, 6⟩, 400, 300⟩
      (by decide) (by decide) hwk (by decide) (by decide) (by decide) (by decide) (by decide)
      (by decide)
  exact ⟨⟨by decide, by decide, hwk⟩, by decide, after, table, calls, hrun, (h2 (by decide)).2⟩

/-- C17 on the code: with the entry HalfOpen, its buckets cleared and 3 successes recorded
at `t = 900`, the pass at `t = 950` makes no call and leaves the instance HalfOpen, where the
claim has it Closed: `now / W - N = 9 - 10` wraps on line 135 and the 3 successes are not
counted. The same scenario 100000 ms later closes the instance. -/
theorem C17_scenario_four :
    scenarioFour 0 =
        some ((some (kCircuitBreakerHalfOpen, 850), kCircuitBreakerHalfOpen), []) ∧
      scenarioFour 100000 =
        some ((some (kCircuitBreakerClose, 100950), kCircuitBreakerClose),
          [⟨"A", kCircuitBreakerHalfOpen, kCircuitBreakerClose, true⟩]) := by
  exact ⟨by decide, by decide⟩

/-- C18: `SimpleHashLoadBalancer::ChooseInstance` returns what the selection of spec 4.7
returns. When `ignore_half_open` is not set and `TryChooseHalfOpenInstance` yields an
instance, the result is `kReturnOk` with that instance; otherwise, with a non-empty
available list, it is `kReturnOk` with the element at `hash_key mod size`, which is in
bounds and is determined by `hash_key` and the list. With `ignore_half_open` set
`TryChooseHalfOpenInstance` is not called and the service state is unchanged; otherwise it
is called once, with the half-open set. -/
theorem C18_hash_choose {ι σ : Type} (service_instances : ServiceInstances ι σ)
    (criteria : Criteria) (s : σ) :
    let r := SimpleHashLoadBalancer.ChooseInstance service_instances criteria s
    let tried := service_instances.TryChooseHalfOpenInstance s
      service_instances.GetHalfOpenInstances
    (r.code, r.next) = hashChooseReference service_instances criteria s ∧
    (criteria.ignore_half_open_ = false → ∀ x, tried.1 = some x →
      r.code = kReturnOk ∧ r.next = some x) ∧
    ((criteria.ignore_half_open_ = true ∨ tried.1 = none) →
      service_instances.GetAvailableInstances ≠ [] →
      r.code = kReturnOk ∧
      ∃ h : criteria.hash_key_ % service_instances.GetAvailableInstances.length <
          service_instances.GetAvailableInstances.length,
        r.next = some (service_instances.GetAvailableInstances.get
          ⟨criteria.hash_key_ % service_instances.GetAvailableInstances.length, h⟩)) ∧
    (criteria.ignore_half_open_ = true → r.admissions = [] ∧ r.service = s) ∧
    (criteria.ignore_half_open_ = false →
      r.admissions = [service_instances.GetHalfOpenInstances] ∧ r.service = tried.2) := by
  intro r tried
  cases hig : criteria.ignore_half_open_ with
  | true =>
    have hr : r = if service_instances.GetAvailableInstances.isEmpty then
          ⟨kReturnInstanceNotFound, none, s, []⟩
        else ⟨kReturnOk, service_instances.GetAvailableInstances[
          criteria.hash_key_ % service_instances.GetAvailableInstances.length]?, s, []⟩ := by
      show SimpleHashLoadBalancer.ChooseInstance service_instances criteria s = _
      simp [SimpleHashLoadBalancer.ChooseInstance, hig]
    refine ⟨?_, ?_, ?_, ?_, ?_⟩
    · rw [hr]
      unfold hashChooseReference
      rw [hig]
      cases service_instances.GetAvailableInstances <;> simp
    · intro h; cases h
    · intro _ hne
      obtain ⟨y, ys, hys⟩ := List.exists_cons_of_ne_nil hne
      have hlt : criteria.hash_key_ % service_instances.GetAvailableInstances.length <
          service_instances.GetAvailableInstances.length :=
        Nat.mod_lt _ (by rw [hys]; simp)
      rw [hr, if_neg (by rw [hys]; simp)]
      exact ⟨rfl, hlt, List.getElem?_eq_getElem hlt⟩
    · intro _; rw [hr]; split <;> exact ⟨rfl, rfl⟩
    · intro h; cases h
  | false =>
    cases htr : tried.1 with
    | some x =>
      have hr : r = ⟨kReturnOk, some x, tried.2, [service_instances.GetHalfOpenInstances]⟩ := by
        show SimpleHashLoadBalancer.ChooseInstance service_instances criteria s = _
        simp only [SimpleHashLoadBalancer.ChooseInstance, hig, if_true]
        have : (service_instances.TryChooseHalfOpenInstance s
          service_instances.GetHalfOpenInstances).1 = some x := htr
        simp [this]
      refine ⟨?_, ?_, ?_, ?_, ?_⟩
      · rw [hr]
        unfold hashChooseReference
        have : (service_instances.TryChooseHalfOpenInstance s
          service_instances.GetHalfOpenInstances).1 = some x := htr
        simp [hig, this]
      · intro _ y hy
        have : x = y := Option.some.inj hy
        rw [hr, this]; exact ⟨rfl, rfl⟩
      · intro h
        rcases h with h | h <;> cases h
      · intro h; cases h
      · intro _; rw [hr]; exact ⟨rfl, rfl⟩
    | none =>
      have hr : r = if service_instances.GetAvailableInstances.isEmpty then
            ⟨kReturnInstanceNotFound, none, tried.2, [service_instances.GetHalfOpenInstances]⟩
          else ⟨kReturnOk, service_instances.GetAvailableInstances[
            criteria.hash_key_ % service_instances.GetAvailableInstances.length]?, tried.2,
            [service_instances.GetHalfOpenInstances]⟩ := by
        show SimpleHashLoadBalancer.ChooseInstance service_instances criteria s = _
        simp only [SimpleHashLoadBalancer.ChooseInstance, hig, if_true]
        have : (service_instances.TryChooseHalfOpenInstance s
          service_instances.GetHalfOpenInstances).1 = none := htr
        simp [this]
      refine ⟨?_, ?_, ?_, ?_, ?_⟩
      · rw [hr]
        unfold hashChooseReference
        have : (service_instances.TryChooseHalfOpenInstance s
          service_instances.GetHalfOpenInstances).1 = none := htr
        simp only [hig, this]
        cases service_instances.GetAvailableInstances <;> simp
      · intro _ y hy; cases hy
      · intro _ hne
        obtain ⟨y, ys, hys⟩ := List.exists_cons_of_ne_nil hne
        have hlt : criteria.hash_key_ % service_instances.GetAvailableInstances.length <
            service_instances.GetAvailableInstances.length :=
          Nat.mod_lt _ (by rw [hys]; simp)
        rw [hr, if_neg (by rw [hys]; simp)]
        exact ⟨rfl, hlt, List.getElem?_eq_getElem hlt⟩
      · intro h; cases h
      · intro _; rw [hr]; split <;> exact ⟨rfl, rfl⟩

/-- Witness of C18: three available instances, `ignore_half_open` set, `hash_key = 7`: the
instance at index `7 mod 3 = 1`. -/
theorem C18_hash_choose_witness :
    steadyService.GetAvailableInstances ≠ [] ∧
      (SimpleHashLoadBalancer.ChooseInstance steadyService ⟨true, 7⟩ ()).code = kReturnOk ∧
      (SimpleHashLoadBalancer.ChooseInstance steadyService ⟨true, 7⟩ ()).next = some "i1" := by
  exact ⟨by decide, by decide, by decide⟩

/-- C19 as stated fails when a half-open instance is admitted: with an empty available list,
the half-open set `{h1}` and `ignore_half_open` not set, the result is `kReturnOk` with
`h1`. -/
theorem C19_counterexample :
    probingService.GetAvailableInstances = [] ∧
      (SimpleHashLoadBalancer.ChooseInstance probingService ⟨false, 0⟩ ()).code = kReturnOk ∧
      (SimpleHashLoadBalancer.ChooseInstance probingService ⟨false, 0⟩ ()).next =
        some "h1" := by
  decide

/-- C19, amended: when the available list is empty and no half-open instance is admitted
(`ignore_half_open` is set, or `TryChooseHalfOpenInstance` yields none), the result is
`kReturnInstanceNotFound` and `next` is NULL. -/
theorem C19_empty_available {ι σ : Type} (service_instances : ServiceInstances ι σ)
    (criteria : Criteria) (s : σ)
    (hempty : service_instances.GetAvailableInstances = [])
    (hnone : criteria.ignore_half_open_ = true ∨
      (service_instances.TryChooseHalfOpenInstance s
        service_instances.GetHalfOpenInstances).1 = none) :
    (SimpleHashLoadBalancer.ChooseInstance service_instances criteria s).code =
        kReturnInstanceNotFound ∧
      (SimpleHashLoadBalancer.ChooseInstance service_instances criteria s).next = none := by
  unfold SimpleHashLoadBalancer.ChooseInstance
  rcases hnone with h | h
  · simp [h, hempty]
  · cases hig : criteria.ignore_half_open_ <;> simp [h, hempty]

/-- Witness of C19: the empty available list with `ignore_half_open` set. -/
theorem C19_empty_available_witness :
    probingService.GetAvailableInstances = [] ∧
      (SimpleHashLoadBalancer.ChooseInstance probingService ⟨true, 0⟩ ()).code =
        kReturnInstanceNotFound ∧
      (SimpleHashLoadBalancer.ChooseInstance probingService ⟨true, 0⟩ ()).next = none :=
  ⟨by decide, C19_empty_available probingService ⟨true, 0⟩ () (by decide) (Or.inl rfl)⟩

/-- C20: `UdpHealthChecker::DetectInstance` returns `kReturnInvalidConfig` exactly when the
send payload is empty, and then makes no exchange; otherwise it makes one exchange (with a
response buffer exactly when a receive payload is configured) and returns
`kReturnNetworkFailed` exactly when the exchange returns a negative code; otherwise
`kReturnServerError` exactly when a receive payload is configured and the response differs
from it; otherwise `kReturnOk`, in particular whenever no receive payload is configured.
`detect_result.return_code` is the returned code, `detect_type` the name of the UDP
checker and `elapse` the difference of the two clock values. -/
theorem C20_udp_detect (self : UdpHealthChecker) (net : UdpCall → Int × List UInt8)
    (host : String) (port : Int) (start_time_ms end_time_ms : Int) :
    let r := self.DetectInstance net host port start_time_ms end_time_ms
    let call : UdpCall :=
      ⟨host, port, self.timeout_ms_, self.send_package_, !self.receive_package_.isEmpty⟩
    (r.code = kReturnInvalidConfig ↔ self.send_package_ = []) ∧
    (self.send_package_ = [] → r.exchanges = []) ∧
    (self.send_package_ ≠ [] →
      r.exchanges = [call] ∧
      (r.code = kReturnNetworkFailed ↔ (net call).1 < 0) ∧
      (¬ (net call).1 < 0 →
        (r.code = kReturnServerError ↔
          (self.receive_package_ ≠ [] ∧ (net call).2 ≠ self.receive_package_)) ∧
        (r.code = kReturnOk ↔
          ¬ (self.receive_package_ ≠ [] ∧ (net call).2 ≠ self.receive_package_)) ∧
        (self.receive_package_ = [] → r.code = kReturnOk))) ∧
    r.detect_result.return_code = r.code ∧
    r.detect_result.detect_type = kPluginUdpHealthChecker ∧
    r.detect_result.elapse = u64 (end_time_ms - start_time_ms) := by
  simp only [UdpHealthChecker.DetectInstance]
  generalize net ⟨host, port, self.timeout_ms_, self.send_package_,
    !self.receive_package_.isEmpty⟩ = res
  by_cases hs : self.send_package_ = []
  · simp [hs]
  · have hse : self.send_package_.isEmpty = false := by
      cases hx : self.send_package_ with
      | nil => exact absurd hx hs
      | cons a l => rfl
    by_cases hneg : res.1 < 0
    · simp [hs, hse, hneg]
    · by_cases hrecv : self.receive_package_ = []
      · simp [hs, hse, hneg, hrecv]
      · have hre : self.receive_package_.isEmpty = false := by
          cases hx : self.receive_package_ with
          | nil => exact absurd hx hrecv
          | cons a l => rfl
        by_cases hdiff : res.2 = self.receive_package_
        · simp [hs, hse, hneg, hrecv, hre, hdiff]
        · have hdiff2 : ¬ self.receive_package_ = res.2 := fun h => hdiff h.symm
          simp [hs, hse, hneg, hrecv, hre, hdiff, hdiff2]

/-- Witness of C20: a checker with a send payload and no receive payload succeeds on a
non-negative return code, whatever the exchange would have answered. -/
theorem C20_udp_detect_witness :
    sendOnlyChecker.send_package_ ≠ [] ∧ sendOnlyChecker.receive_package_ = [] ∧
      (sendOnlyChecker.DetectInstance (fun _ => (0, [9])) "10.0.0.1" 8000 100 103).code =
        kReturnOk ∧
      (sendOnlyChecker.DetectInstance (fun _ => (0, [9])) "10.0.0.1" 8000 100 103).exchanges =
        [⟨"10.0.0.1", 8000, 500, [1, 2], false⟩] := by
  have h := (C20_udp_detect sendOnlyChecker (fun _ => (0, [9])) "10.0.0.1" 8000 100 103).2.2.1
    (by decide)
  exact ⟨by decide, by decide, (h.2.2 (by decide)).2.2 (by decide), h.1⟩

/-- C21: the response built by `CreateResponse(c, w)` has result code `c`, wait time `w`
and a result info whose three fields are 0; the response built by `CreateResponse(c, i)`
has result code `c`, wait time 0 and result info `i`. -/
theorem C21_create_response (c : QuotaResultCode) (w : Int) (i : QuotaResultInfo) :
    (QuotaResponseImpl.CreateResponse c w).GetResultCode = c ∧
      (QuotaResponseImpl.CreateResponse c w).GetWaitTime = w ∧
      (QuotaResponseImpl.CreateResponse c w).GetQuotaResultInfo.all_quota_ = 0 ∧
      (QuotaResponseImpl.CreateResponse c w).GetQuotaResultInfo.duration_ = 0 ∧
      (QuotaResponseImpl.CreateResponse c w).GetQuotaResultInfo.left_quota_ = 0 ∧
      (QuotaResponseImpl.CreateResponseInfo c i).GetResultCode = c ∧
      (QuotaResponseImpl.CreateResponseInfo c i).GetWaitTime = 0 ∧
      (QuotaResponseImpl.CreateResponseInfo c i).GetQuotaResultInfo = i :=
  ⟨rfl, rfl, rfl, rfl, rfl, rfl, rfl, rfl⟩

/-- C22: let the store have distinct keys, let the table, read through `view`, make a
transition exactly when the state of the instance is the requested from-state (then setting
it to the to-state and nothing else), and let every entry's status equal the table state of
its instance before the evaluation loop of `TimingCircuitBreak`. Then after the loop every
entry's status equals the table state of its instance; the entry at each position keeps its
key and is unchanged unless the loop made a successful call from its old status to its new
status; and every call the loop makes is for an entry of the store, from that entry's
status. -/
theorem C22_mirror_in_step {σ : Type} (self : ErrorRateCircuitBreaker)
    (I : InstancesCircuitBreakerStatus σ) (view : σ → String → CircuitBreakerStatus)
    (now : Int) (s : σ)
    (hwk : WellKeyed self.error_rate_map_)
    (hcas : CompareAndSwap I view)
    (hsync : ∀ p ∈ self.error_rate_map_, view s p.1 = p.2.status) :
    let pass := self.evalLoop I now (self.lastEndBucketTime now) self.error_rate_map_ s
    (∀ p ∈ pass.entries, view pass.table p.1 = p.2.status) ∧
      (∀ (i : Nat) (p q : String × ErrorRateStatus),
        self.error_rate_map_[i]? = some p → pass.entries[i]? = some q →
          q.1 = p.1 ∧
            (q.2 = p.2 ∨
              (⟨p.1, p.2.status, q.2.status, true⟩ : TranslateCall) ∈ pass.calls)) ∧
      (∀ c ∈ pass.calls,
        ∃ e, (c.instance_id, e) ∈ self.error_rate_map_ ∧ c.from_status = e.status) := by
  intro pass
  exact ⟨evalLoop_sync self I view hcas now _ _ s hwk hsync,
    fun i p q hp hq => evalLoop_status_change self I now _ _ s i p q hp hq,
    evalLoop_calls_from self I now _ _ s⟩

/-- Witness of C22: the store with "A" Open and "B" HalfOpen and the table of the spec
holding the same states; the pass at `t = 100950` moves "A" to HalfOpen and "B" to Closed
in both. -/
theorem C22_mirror_in_step_witness :
    WellKeyed agedStore.error_rate_map_ ∧
      CompareAndSwap casTable StatusTable.state ∧
      (∀ p ∈ agedStore.error_rate_map_, agedTable.state p.1 = p.2.status) ∧
      (agedStore.evalLoop casTable 100950 (agedStore.lastEndBucketTime 100950)
          agedStore.error_rate_map_ agedTable).calls =
        [⟨"A", kCircuitBreakerOpen, kCircuitBreakerHalfOpen, true⟩,
          ⟨"B", kCircuitBreakerHalfOpen, kCircuitBreakerClose, true⟩] ∧
      (∀ p ∈ (agedStore.evalLoop casTable 100950 (agedStore.lastEndBucketTime 100950)
          agedStore.error_rate_map_ agedTable).entries,
        (agedStore.evalLoop casTable 100950 (agedStore.lastEndBucketTime 100950)
          agedStore.error_rate_map_ agedTable).table.state p.1 = p.2.status) := by
  have hwk : WellKeyed agedStore.error_rate_map_ := by
    simp only [WellKeyed, agedStore, List.map_cons, List.map_nil, List.pairwise_cons,
      List.mem_singleton, forall_eq, List.not_mem_nil, false_implies, implies_true,
      List.Pairwise.nil, and_true, String.lt_iff_toList_lt]
    decide
  have hsync : ∀ p ∈ agedStore.error_rate_map_, agedTable.state p.1 = p.2.status := by
    decide
  exact ⟨hwk, casTable_compareAndSwap, hsync, by decide,
    (C22_mirror_in_step agedStore casTable StatusTable.state 100950 agedTable hwk
      casTable_compareAndSwap hsync).1⟩

/-- C23: with the table of the spec and a store with distinct keys, let the entry of `id`
be HalfOpen with the table holding HalfOpen, its aggregate short of
`success_count_after_half_open` successes, and `last_access_time + 100 × sleep_window ≤ now`
for a clock value `now < 2 ^ 64`; let the sweep read the clock at `sweep ≥ now` and
`0 ≤ metric_expired_time ≤ 100 × sleep_window`. Then `TimingCircuitBreak` returns
`kReturnOk`; its calls for `id` are, in order, HalfOpen to Open (made), Open to Closed
(made) and HalfOpen to Closed (refused); afterwards the store has no entry of `id` and the
table holds Closed for `id`. -/
theorem C23_stale_probe_swept (self : ErrorRateCircuitBreaker) (now sweep : Int)
    (t : StatusTable) (id : String) (e : ErrorRateStatus)
    (hW : u64 self.metric_bucket_time_ ≠ 0)
    (hwk : WellKeyed self.error_rate_map_)
    (hfind : mapFind self.error_rate_map_ id = some e)
    (hst : e.status = kCircuitBreakerHalfOpen)
    (htab : t.state id = kCircuitBreakerHalfOpen)
    (hnot : ¬ (BucketsCount self.metric_num_buckets_ (self.lastEndBucketTime now) e.buckets).1 -
        (BucketsCount self.metric_num_buckets_ (self.lastEndBucketTime now) e.buckets).2 ≥
      self.success_count_after_half_open_)
    (hclock : now ≤ sweep)
    (hexp0 : 0 ≤ self.metric_expired_time_)
    (hexp : self.metric_expired_time_ ≤ 100 * self.sleep_window_)
    (hla : 0 ≤ e.last_access_time)
    (hnow : now < 2 ^ 64)
    (hstale : e.last_access_time + 100 * self.sleep_window_ ≤ now) :
    ∃ after table calls,
      self.TimingCircuitBreak casTable now sweep t = some (kReturnOk, after, table, calls) ∧
      calls.filter (fun c => decide (c.instance_id = id)) =
        [⟨id, kCircuitBreakerHalfOpen, kCircuitBreakerOpen, true⟩,
          ⟨id, kCircuitBreakerOpen, kCircuitBreakerClose, true⟩,
          ⟨id, kCircuitBreakerHalfOpen, kCircuitBreakerClose, false⟩] ∧
      mapFind after.error_rate_map_ id = none ∧
      table.state id = kCircuitBreakerClose := by
  have hs100 : u64 (100 * self.sleep_window_) = 100 * self.sleep_window_ :=
    u64_eq_self (by omega) (by omega)
  have hguard : u64 (e.last_access_time + u64 (100 * self.sleep_window_)) ≤ now := by
    rw [hs100, u64_eq_self (by omega) (by omega)]
    exact hstale
  have hdue : u64 (e.last_access_time + self.metric_expired_time_) ≤ sweep := by
    rw [u64_eq_self (by omega) (by omega)]
    omega
  have hentry := evalEntry_casTable_stale self now (self.lastEndBucketTime now) id e t hst htab
    hnot hguard
  have hloop := evalLoop_casTable_at self now (self.lastEndBucketTime now)
    self.error_rate_map_ t id e hwk hfind
  have hcalls := evalLoop_casTable_calls_at self now (self.lastEndBucketTime now)
    self.error_rate_map_ t id e hwk hfind
  have hwk2 := evalLoop_wellKeyed self casTable now (self.lastEndBucketTime now)
    self.error_rate_map_ t hwk
  have hla2 : (self.evalEntry casTable now (self.lastEndBucketTime now) id e t).entry.last_access_time =
      e.last_access_time := evalEntry_last_access self casTable now _ id e t
  have hsweepcalls := expireLoop_casTable_calls_at
    { self with error_rate_map_ :=
        (self.evalLoop casTable now (self.lastEndBucketTime now) self.error_rate_map_ t).entries }
    sweep
    (self.evalLoop casTable now (self.lastEndBucketTime now) self.error_rate_map_ t).entries
    (self.evalLoop casTable now (self.lastEndBucketTime now) self.error_rate_map_ t).table id
    (self.evalEntry casTable now (self.lastEndBucketTime now) id e t).entry
    hwk2 hloop.1 (by rw [hla2]; exact hdue) (hloop.2.trans hentry.2.2)
  refine ⟨_, _, _, TimingCircuitBreak_eq self casTable now sweep t hW, ?_, ?_, ?_⟩
  · rw [List.filter_append, hcalls, hentry.2.1]
    show _ ++ List.filter _ (ErrorRateCircuitBreaker.expireLoop _ casTable sweep _ _).calls = _
    rw [hsweepcalls]
    simp
  · show mapFind (ErrorRateCircuitBreaker.expireLoop _ casTable sweep _ _).entries id = none
    rw [expireLoop_entries]
    refine mapFind_filter_none _ id _ _ hwk2 hloop.1 ?_
    rw [hla2]
    simpa using hdue
  · show (ErrorRateCircuitBreaker.expireLoop _ casTable sweep _ _).table.state id = _
    rw [expireLoop_casTable_state, if_pos]
    rw [List.mem_map]
    refine ⟨(id, (self.evalEntry casTable now (self.lastEndBucketTime now) id e t).entry), ?_, rfl⟩
    rw [List.mem_filter]
    refine ⟨mapFind_mem _ _ _ hloop.1, ?_⟩
    rw [hla2]
    simpa using hdue

/-- Witness of C23: "A", HalfOpen and last reported at 100000, with a sleep window of 500 ms
and an expiry of 50000 ms; the pass at `t = 150000` re-opens "A" and its sweep removes the
entry and closes "A". -/
theorem C23_stale_probe_swept_witness :
    (WellKeyed staleBreaker.error_rate_map_ ∧
      mapFind staleBreaker.error_rate_map_ "A" = some idleEntry ∧
      idleEntry.status = kCircuitBreakerHalfOpen ∧
      staleBreaker.metric_expired_time_ ≤ 100 * staleBreaker.sleep_window_ ∧
      idleEntry.last_access_time + 100 * staleBreaker.sleep_window_ ≤ 150000) ∧
    ∃ after table calls,
      staleBreaker.TimingCircuitBreak casTable 150000 150000
          (uniformTable kCircuitBreakerHalfOpen) = some (kReturnOk, after, table, calls) ∧
      calls.filter (fun c => decide (c.instance_id = "A")) =
        [⟨"A", kCircuitBreakerHalfOpen, kCircuitBreakerOpen, true⟩,
          ⟨"A", kCircuitBreakerOpen, kCircuitBreakerClose, true⟩,
          ⟨"A", kCircuitBreakerHalfOpen, kCircuitBreakerClose, false⟩] ∧
      mapFind after.error_rate_map_ "A" = none ∧
      table.state "A" = kCircuitBreakerClose := by
  have hwk : WellKeyed staleBreaker.error_rate_map_ := by
    simp [WellKeyed, staleBreaker]
  exact ⟨⟨hwk, by decide, by decide, by decide, by decide⟩,
    C23_stale_probe_swept staleBreaker 150000 150000 (uniformTable kCircuitBreakerHalfOpen)
      "A" idleEntry (by decide) hwk (by decide) (by decide) (by decide) (by decide)
      (by decide) (by decide) (by decide) (by decide) (by decide) (by decide)⟩

end polaris
